import Mathlib

/-! redisc: pipeline sessions and multi-key splitting.

A shallow embedding of `pipeline.go` and `multi.go`.

* A `*cmd` pointer is the position of the descriptor in `pipeLiner.cmds`
  (the queue is append-only and every `Send` allocates a fresh descriptor), so
  a batch's `cmds` is a list of queue positions.
* A Go map is an association list in insertion order; the order in which
  `range` visits its keys is chosen by the environment (`rangeBatches`,
  `rangeSlots`).
* The cluster, the node connections, `ParseRedir`, `cmdSlot` and `Slot` live in
  other files of the package: they are the fields of `Env`. Every call that
  reaches the cluster or a connection threads the world `W` and is appended to
  the session's `log`.
* The goroutines of one pass are run one after the other, in `range` order;
  each of them touches only its own batch and that batch's members.
* Go's `int` is `Int` (the cursor `recvPos` stays far below `2^63`).
-/

namespace Redisc

/-- A Go `interface{}` value as it occurs in arguments and replies. -/
inductive Value where
  | nil : Value
  | str : String → Value
  | int : Int → Value
  | slice : List Value → Value

instance : Inhabited Value := ⟨Value.nil⟩

mutual
/-- The `fmt.Sprintf("%s", v)` rendering of a value: a string is itself. -/
def sprintS : Value → String
  | Value.str s => s
  | Value.nil => "%!s(<nil>)"
  | Value.int n => "%!s(int=" ++ toString n ++ ")"
  | Value.slice vs => "[" ++ sprintList vs ++ "]"
/-- The elements of a slice under `%s`, separated by blanks. -/
def sprintList : List Value → String
  | [] => ""
  | v :: vs => if vs.isEmpty then sprintS v else sprintS v ++ " " ++ sprintList vs
end

/-- The type assertion `reply.([]interface{})`. -/
def asSlice : Value → Option (List Value)
  | Value.slice vs => some vs
  | _ => none

/-- A node connection (`redis.Conn`) is a handle; `none` is the nil interface. -/
abbrev Conn := Nat

/-- The error value `*RedirError` returned by `ParseRedir`. -/
structure RedirError where
  Typ : String
  NewSlot : Int
  Addr : String
deriving DecidableEq, Repr

/-- The descriptor `cmd`. -/
structure cmd where
  commandName : String
  args : List Value
  reply : Value
  reply_err : Option String
  slot : Int
  addr : String
  re : Option RedirError

instance : Inhabited cmd := ⟨⟨"", [], Value.nil, none, 0, "", none⟩⟩

/-- The struct `batch`; `cmds` holds queue positions. -/
structure batch where
  addr : String
  conn : Option Conn
  cmds : List Nat
deriving DecidableEq, Repr

/-- The struct `pipeLiner` (without its cluster pointer `c`). -/
structure pipeLiner where
  connForDo : Option Conn
  cmds : List cmd
  forceDial : Bool
  readOnly : Bool
  flushed : Bool
  recvPos : Int
  batches : List (String × batch)

/-- A call that left the session for the cluster or a node connection; an acquisition
and a `Receive` carry what they returned. -/
inductive Event where
  | getAddrForSlots (slots : List Int) (readOnly : Bool)
  | getConnForAddr (addr : String) (forceDial readOnly : Bool) (conn : Option Conn)
  | needsRefresh (re : RedirError)
  | send (c : Conn) (i : Nat)
  | flush (c : Conn)
  | receive (c : Conn) (i : Nat) (reply : Value) (err : Option String)
  | close (c : Conn)
  | retryConn (conn : Option Conn)
  | connDo (c : Conn) (commandName : String)
  | getPipelinerConn

/-- The collaborators of the session, over a world `W`. -/
structure Env (W : Type) where
  cmdSlot : String → List Value → Int
  Slot : String → Int
  ParseRedir : String → Option RedirError
  getAddrForSlots : W → List Int → Bool → (List String × Option String) × W
  GetConnForAddr : W → String → Bool → Bool → Option Conn × W
  needsRefresh : W → RedirError → W
  connSend : W → Conn → String → List Value → Option String × W
  connFlush : W → Conn → Option String × W
  connReceive : W → Conn → (Value × Option String) × W
  connDo : W → Conn → String → List Value → (Value × Option String) × W
  connClose : W → Conn → W
  RetryConn : W → (Option Conn × Option String) × W
  rangeBatches : W → List String → List String
  rangeSlots : W → List Int → List Int
  CMDMSET : String
  CMDMGET : String

/-- The order of `range` over a map visits every key once. -/
def Env.FairRange {W : Type} (env : Env W) : Prop :=
  (∀ w l, (env.rangeBatches w l).Perm l) ∧ (∀ w l, (env.rangeSlots w l).Perm l)

/-- A session together with the world and the log of outgoing calls. -/
structure Sys (W : Type) where
  p : pipeLiner
  w : W
  log : List Event

/-- Update in place of the element at position `i` (nothing past the end). -/
def setAt {α : Type} : List α → Nat → (α → α) → List α
  | [], _, _ => []
  | x :: xs, 0, f => f x :: xs
  | x :: xs, n + 1, f => x :: setAt xs n f

/-- The value `m[k]` of a map, with its `exist` flag as `Option`. -/
def mapGet {κ β : Type} [DecidableEq κ] : List (κ × β) → κ → Option β
  | [], _ => none
  | (k, v) :: m, a => if k = a then some v else mapGet m a

/-- The assignment `m[k] = v`. -/
def mapSet {κ β : Type} [DecidableEq κ] : List (κ × β) → κ → β → List (κ × β)
  | [], a, b => [(a, b)]
  | (k, v) :: m, a, b => if k = a then (k, b) :: m else (k, v) :: mapSet m a b

/-- The keys of a map. -/
def mapKeys {κ β : Type} (m : List (κ × β)) : List κ := m.map Prod.fst

/-- The function `newPipeliner`. -/
def newPipeliner : pipeLiner :=
  { connForDo := none, cmds := [], forceDial := false, readOnly := false,
    flushed := false, recvPos := -1, batches := [] }

/-- The first loop of `batch.run`: send every member, stop at the first error. -/
def sendLoop {W : Type} (env : Env W) (c : Conn) : List Nat → Sys W → Sys W × Option String
  | [], s => (s, none)
  | i :: rest, s =>
    let cm := s.p.cmds.getD i default
    let r := env.connSend s.w c cm.commandName cm.args
    let s1 : Sys W := { s with w := r.2, log := s.log ++ [Event.send c i] }
    match r.1 with
    | some e => (s1, some e)
    | none => sendLoop env c rest s1

/-- The body of the second loop of `batch.run` for the member at position `i`. -/
def recvOne {W : Type} (env : Env W) (c : Conn) (i : Nat) (s : Sys W) : Sys W :=
  let r := env.connReceive s.w c
  let cs1 := setAt s.p.cmds i (fun cm => { cm with reply := r.1.1, reply_err := r.1.2 })
  let s1 : Sys W :=
    { p := { s.p with cmds := cs1 }, w := r.2, log := s.log ++ [Event.receive c i r.1.1 r.1.2] }
  match r.1.2 with
  | none => s1
  | some e =>
    match env.ParseRedir e with
    | none => s1
    | some re =>
      let cs2 := setAt s1.p.cmds i (fun cm => { cm with re := some re })
      let s2 : Sys W := { s1 with p := { s1.p with cmds := cs2 } }
      if re.Typ = "MOVED" then
        { s2 with w := env.needsRefresh s2.w re, log := s2.log ++ [Event.needsRefresh re] }
      else s2

/-- The second loop of `batch.run`: one `Receive` per member. -/
def recvLoop {W : Type} (env : Env W) (c : Conn) : List Nat → Sys W → Sys W
  | [], s => s
  | i :: rest, s => recvLoop env c rest (recvOne env c i s)

/-- The method `batch.run`: the batch after the run, the system, the error. -/
def batch.run {W : Type} (env : Env W) (bt : batch) (s : Sys W) :
    batch × Sys W × Option String :=
  let acq : batch × Sys W :=
    if bt.conn = none ∧ 0 < bt.addr.length then
      let r := env.GetConnForAddr s.w bt.addr s.p.forceDial s.p.readOnly
      ({ bt with conn := r.1 },
       { s with w := r.2,
                log := s.log ++
                  [Event.getConnForAddr bt.addr s.p.forceDial s.p.readOnly r.1] })
    else (bt, s)
  match acq.1.conn with
  | none => (acq.1, acq.2, some "GetConnForAddr failed")
  | some c =>
    let r1 := sendLoop env c acq.1.cmds acq.2
    match r1.2 with
    | some e => (acq.1, r1.1, some e)
    | none =>
      let r2 := env.connFlush r1.1.w c
      let s2 : Sys W := { r1.1 with w := r2.2, log := r1.1.log ++ [Event.flush c] }
      match r2.1 with
      | some e => (acq.1, s2, some e)
      | none => (acq.1, recvLoop env c acq.1.cmds s2, none)

/-- The first loop of `buildBatches`: compute and store every slot. -/
def setSlots {W : Type} (env : Env W) (cs : List cmd) : List cmd :=
  cs.map (fun cm => { cm with slot := env.cmdSlot cm.commandName cm.args })

/-- The last loop of `buildBatches`, from position `i` on (`addrs` has one entry per
queued descriptor once the length check has passed). -/
def groupLoop : List String → Nat → pipeLiner → pipeLiner
  | [], _, p => p
  | addr :: rest, i, p =>
    if 0 < addr.length then
      let p1 : pipeLiner := { p with cmds := setAt p.cmds i (fun cm => { cm with addr := addr }) }
      let bt : batch :=
        match mapGet p1.batches addr with
        | some b => b
        | none => { addr := addr, conn := none, cmds := [] }
      let bt1 : batch := { bt with cmds := bt.cmds ++ [i] }
      groupLoop rest (i + 1) { p1 with batches := mapSet p1.batches addr bt1 }
    else groupLoop rest (i + 1) p

/-- The method `buildBatches`. -/
def buildBatches {W : Type} (env : Env W) (s : Sys W) : Sys W × Option String :=
  let cs := setSlots env s.p.cmds
  let slots := cs.map (fun cm => cm.slot)
  let r := env.getAddrForSlots s.w slots s.p.readOnly
  let s1 : Sys W :=
    { p := { s.p with cmds := cs }, w := r.2,
      log := s.log ++ [Event.getAddrForSlots slots s.p.readOnly] }
  match r.1.2 with
  | some e => (s1, some e)
  | none =>
    if r.1.1.length ≠ s1.p.cmds.length then (s1, some "addr count didn't match cmd count")
    else
      ({ s1 with p := groupLoop r.1.1 0 { s1.p with batches := [] } },
       none)

/-- The second loop of `buildRedirectBatches`, from position `i` on, with the count. -/
def redirLoop : List cmd → Nat → List (String × batch) → Nat → List (String × batch) × Nat
  | [], _, m, n => (m, n)
  | cm :: rest, i, m, n =>
    match cm.re with
    | some re =>
      let bt : batch :=
        match mapGet m re.Addr with
        | some b => b
        | none => { addr := re.Addr, conn := none, cmds := [] }
      redirLoop rest (i + 1) (mapSet m re.Addr { bt with cmds := bt.cmds ++ [i] }) (n + 1)
    | none => redirLoop rest (i + 1) m n

/-- The method `buildRedirectBatches`. -/
def buildRedirectBatches (p : pipeLiner) : pipeLiner × Nat :=
  let cleared := p.batches.map (fun kb => (kb.1, { kb.2 with cmds := [] }))
  let r := redirLoop p.cmds 0 cleared 0
  ({ p with batches := r.1 }, r.2)

/-- One goroutine of `runBatches`: the batch under key `k`, if it has members. -/
def runOne {W : Type} (env : Env W) (s : Sys W) (k : String) : Sys W :=
  match mapGet s.p.batches k with
  | none => s
  | some bt =>
    if 0 < bt.cmds.length then
      let r := batch.run env bt s
      { r.2.1 with p := { r.2.1.p with batches := mapSet r.2.1.p.batches k r.1 } }
    else s

/-- The method `runBatches`. -/
def runBatches {W : Type} (env : Env W) (s : Sys W) : Sys W :=
  if s.p.batches.length ≤ 0 then s
  else (env.rangeBatches s.w (mapKeys s.p.batches)).foldl (runOne env) s

/-- The method `doRedirect`. -/
def doRedirect {W : Type} (env : Env W) (s : Sys W) : Sys W :=
  let r := buildRedirectBatches s.p
  let s1 : Sys W := { s with p := r.1 }
  if 0 < r.2 then runBatches env s1 else s1

/-- The method `Send`. -/
def Send {W : Type} (s : Sys W) (commandName : String) (args : List Value) :
    Sys W × Option String :=
  ({ s with p := { s.p with cmds := s.p.cmds ++
      [{ commandName := commandName, args := args, reply := Value.nil, reply_err := none,
         slot := 0, addr := "", re := none }] } }, none)

/-- The method `Flush`. -/
def Flush {W : Type} (env : Env W) (s : Sys W) : Sys W × Option String :=
  if s.p.flushed then (s, none)
  else
    let r := buildBatches env s
    match r.2 with
    | some e => (r.1, some e)
    | none =>
      let s2 := doRedirect env (runBatches env r.1)
      ({ s2 with p := { s2.p with flushed := true } }, none)

/-- The method `Receive`. -/
def Receive {W : Type} (s : Sys W) : Sys W × Value × Option String :=
  if ¬ s.p.flushed then (s, Value.nil, some "need to flush before receive")
  else if s.p.cmds.length ≤ 0 then (s, Value.nil, none)
  else
    let s1 : Sys W := { s with p := { s.p with recvPos := s.p.recvPos + 1 } }
    if s1.p.recvPos ≥ s1.p.cmds.length ∨ s1.p.recvPos < 0 then
      (s1, Value.nil, some "no more reply")
    else
      let cm := s1.p.cmds.getD s1.p.recvPos.toNat default
      (s1, cm.reply, cm.reply_err)

/-- The method `Do`. -/
def Do {W : Type} (env : Env W) (s : Sys W) (commandName : String) (args : List Value) :
    Sys W × Value × Option String :=
  let acq : Sys W × Option String :=
    match s.p.connForDo with
    | none =>
      let r := env.RetryConn s.w
      ({ p := { s.p with connForDo := r.1.1 }, w := r.2,
         log := s.log ++ [Event.retryConn r.1.1] },
       r.1.2)
    | some _ => (s, none)
  match acq.2 with
  | some e => (acq.1, Value.nil, some e)
  | none =>
    match acq.1.p.connForDo with
    | some c =>
      let r := env.connDo acq.1.w c commandName args
      ({ acq.1 with w := r.2, log := acq.1.log ++ [Event.connDo c commandName] }, r.1.1, r.1.2)
    | none => (acq.1, Value.nil, some "Get conn failed")

/-- The loop of `Close` over the batches. -/
def closeLoop {W : Type} (env : Env W) (s : Sys W) (k : String) : Sys W :=
  match mapGet s.p.batches k with
  | some bt =>
    match bt.conn with
    | some c => { s with w := env.connClose s.w c, log := s.log ++ [Event.close c] }
    | none => s
  | none => s

/-- The method `Close`. -/
def Close {W : Type} (env : Env W) (s : Sys W) : Sys W × Option String :=
  let s1 : Sys W :=
    match s.p.connForDo with
    | some c => { s with w := env.connClose s.w c, log := s.log ++ [Event.close c] }
    | none => s
  ((env.rangeBatches s1.w (mapKeys s1.p.batches)).foldl (closeLoop env) s1, none)

/-- What a multi-key call hands back: its two results, the world, the calls made. -/
structure MultiResult (W : Type) where
  reply : Value
  err : Option String
  w : W
  log : List Event

/-- Modelled from the spec: `Cluster.GetPipelinerConn` (in a file of the package that is
not part of the sources at hand) builds one fresh pipeline session. -/
def GetPipelinerConn {W : Type} (w : W) : Sys W :=
  { p := newPipeliner, w := w, log := [Event.getPipelinerConn] }

/-- The deferred `pipeLiner.Close()` followed by the return of `reply, err`. -/
def closeAndReturn {W : Type} (env : Env W) (s : Sys W) (reply : Value) (err : Option String) :
    MultiResult W :=
  let c := Close env s
  { reply := reply, err := err, w := c.1.w, log := c.1.log }

/-- The grouping loop of `multiset`; `none` is the argument-count error. -/
def msetGroup {W : Type} (env : Env W) :
    List Value → List (Int × List Value) → Option (List (Int × List Value))
  | [], m => some m
  | [_], _ => none
  | k :: v :: rest, m =>
    let key := sprintS k
    let slot := env.Slot key
    match mapGet m slot with
    | none => msetGroup env rest (mapSet m slot [Value.str key, v])
    | some g => msetGroup env rest (mapSet m slot (g ++ [Value.str key, v]))

/-- The grouping loop of `multiget`: the keys and the map from slot to keys. -/
def mgetGroup {W : Type} (env : Env W) :
    List Value → List String → List (Int × List Value) → List String × List (Int × List Value)
  | [], keys, m => (keys, m)
  | arg :: rest, keys, m =>
    let key := sprintS arg
    let slot := env.Slot key
    match mapGet m slot with
    | none => mgetGroup env rest (keys ++ [key]) (mapSet m slot [Value.str key])
    | some g => mgetGroup env rest (keys ++ [key]) (mapSet m slot (g ++ [Value.str key]))

/-- The loop `for slot := range cmdMap` of both functions: one `Send` per slot. -/
def sendSlots {W : Type} (name : String) (cmdMap : List (Int × List Value)) :
    List Int → Sys W → List Int → Sys W × List Int × Option String
  | [], s, orderSlots => (s, orderSlots, none)
  | slot :: rest, s, orderSlots =>
    let r := Send s name ((mapGet cmdMap slot).getD [])
    match r.2 with
    | some e => (r.1, orderSlots, some e)
    | none => sendSlots name cmdMap rest r.1 (orderSlots ++ [slot])

/-- The loop `for range orderSlots` of `multiset`. -/
def msetRecv {W : Type} : List Int → Sys W → Value → Sys W × Value × Option String
  | [], s, res => (s, res, none)
  | _ :: rest, s, _ =>
    let r := Receive s
    match r.2.2 with
    | some e => (r.1, Value.nil, some e)
    | none => msetRecv rest r.1 r.2.1

/-- The session of `multiset` once the grouped commands are queued, with `orderSlots`. -/
def msetSent {W : Type} (env : Env W) (w : W) (cmdMap : List (Int × List Value)) :
    Sys W × List Int × Option String :=
  sendSlots env.CMDMSET cmdMap (env.rangeSlots w (mapKeys cmdMap)) (GetPipelinerConn w) []

/-- The function `multiset`. -/
def multiset {W : Type} (env : Env W) (w : W) (args : List Value) : MultiResult W :=
  if args.length ≤ 0 then { reply := Value.nil, err := none, w := w, log := [] }
  else
    match msetGroup env args [] with
    | none =>
      { reply := Value.nil, err := some "args length exeption for mset", w := w, log := [] }
    | some cmdMap =>
      let sent := msetSent env w cmdMap
      match sent.2.2 with
      | some e => closeAndReturn env sent.1 Value.nil (some e)
      | none =>
        let fl := Flush env sent.1
        match fl.2 with
        | some e => closeAndReturn env fl.1 Value.nil (some e)
        | none =>
          let r := msetRecv sent.2.1 fl.1 Value.nil
          closeAndReturn env r.1 r.2.1 r.2.2

/-- The innermost loop of `multiget`: store the results of one slot, from position `i`. -/
def fillSlot (validReply : Bool) (replySlice : List Value) :
    List Value → Nat → List (String × Value) → List (String × Value)
  | [], _, resMap => resMap
  | g :: rest, i, resMap =>
    fillSlot validReply replySlice rest (i + 1)
      (mapSet resMap (sprintS g) (if validReply then replySlice.getD i Value.nil else Value.nil))

/-- The loop `for _, slot := range orderSlots` of `multiget`; the error ends the call. -/
def mgetRecv {W : Type} (cmdMap : List (Int × List Value)) :
    List Int → Sys W → List (String × Value) → Sys W × List (String × Value) × Option String
  | [], s, resMap => (s, resMap, none)
  | slot :: rest, s, resMap =>
    let r := Receive s
    match r.2.2 with
    | some e => (r.1, resMap, some e)
    | none =>
      let group := (mapGet cmdMap slot).getD []
      let keyCount := group.length
      let replySlice := (asSlice r.2.1).getD []
      let validReply := (asSlice r.2.1).isSome && decide (keyCount = replySlice.length)
      mgetRecv cmdMap rest r.1 (fillSlot validReply replySlice group 0 resMap)

/-- The session of `multiget` once the grouped commands are queued, with `orderSlots`. -/
def mgetSent {W : Type} (env : Env W) (w : W) (args : List Value) :
    Sys W × List Int × Option String :=
  let cmdMap := (mgetGroup env args [] []).2
  sendSlots env.CMDMGET cmdMap (env.rangeSlots w (mapKeys cmdMap)) (GetPipelinerConn w) []

/-- The function `multiget`. -/
def multiget {W : Type} (env : Env W) (w : W) (args : List Value) : MultiResult W :=
  if args.length ≤ 0 then { reply := Value.nil, err := none, w := w, log := [] }
  else
    let g := mgetGroup env args [] []
    let keys := g.1
    let cmdMap := g.2
    let sent := mgetSent env w args
    match sent.2.2 with
    | some e => closeAndReturn env sent.1 Value.nil (some e)
    | none =>
      let fl := Flush env sent.1
      match fl.2 with
      | some e => closeAndReturn env fl.1 Value.nil (some e)
      | none =>
        let r := mgetRecv cmdMap sent.2.1 fl.1 []
        match r.2.2 with
        | some e => closeAndReturn env r.1 Value.nil (some e)
        | none =>
          closeAndReturn env r.1
            (Value.slice (keys.map (fun k => (mapGet r.2.1 k).getD Value.nil))) none

/-- A fresh session in the world `w`, before any call. -/
def fresh {W : Type} (w : W) : Sys W := { p := newPipeliner, w := w, log := [] }

/-- The session after `k` calls of `Receive`. -/
def receiveN {W : Type} : Nat → Sys W → Sys W
  | 0, s => s
  | k + 1, s => receiveN k (Receive s).1

/-- The session after one `Send` per request of the list, in order. -/
def sendAll {W : Type} : List (String × List Value) → Sys W → Sys W
  | [], s => s
  | rq :: rest, s => sendAll rest (Send s rq.1 rq.2).1

/-- The number of `Send` calls on a node connection for the descriptor at position `i`. -/
def sendCount (i : Nat) (log : List Event) : Nat :=
  log.countP (fun e => match e with
    | Event.send _ j => decide (j = i)
    | _ => false)

/-- A session on which no `Flush` call has returned success so far. -/
inductive Unflushed {W : Type} (env : Env W) : Sys W → Prop
  | fresh (w : W) : Unflushed env (fresh w)
  | send (s : Sys W) (commandName : String) (args : List Value) :
      Unflushed env s → Unflushed env (Send s commandName args).1
  | flushFailed (s : Sys W) :
      Unflushed env s → (Flush env s).2 ≠ none → Unflushed env (Flush env s).1
  | receive (s : Sys W) : Unflushed env s → Unflushed env (Receive s).1
  | doCmd (s : Sys W) (commandName : String) (args : List Value) :
      Unflushed env s → Unflushed env (Do env s commandName args).1
  | close (s : Sys W) : Unflushed env s → Unflushed env (Close env s).1

/-- A session on which some `Flush` call has returned success. -/
inductive Flushed {W : Type} (env : Env W) : Sys W → Prop
  | flushOk (s : Sys W) : (Flush env s).2 = none → Flushed env (Flush env s).1
  | send (s : Sys W) (commandName : String) (args : List Value) :
      Flushed env s → Flushed env (Send s commandName args).1
  | flush (s : Sys W) : Flushed env s → Flushed env (Flush env s).1
  | receive (s : Sys W) : Flushed env s → Flushed env (Receive s).1
  | doCmd (s : Sys W) (commandName : String) (args : List Value) :
      Flushed env s → Flushed env (Do env s commandName args).1
  | close (s : Sys W) : Flushed env s → Flushed env (Close env s).1

/-- A scripted world: the replies still to be read on each connection. -/
structure Script where
  replies : List (Conn × List (Value × Option String))

/-- A two-node cluster over a scripted world. Key `c` hashes to slot 2, every other key
to slot 1; slot 1 is served by `n1`, slot 2 by `n2`, slot 3 by a node that is down. -/
def demoEnv : Env Script :=
  { cmdSlot := fun _ args =>
      match args with
      | Value.str k :: _ => if k = "c" then 2 else if k = "d" then 3 else 1
      | _ => 1
    Slot := fun k => if k = "c" then 2 else if k = "d" then 3 else 1
    ParseRedir := fun e =>
      if e = "MOVED 1 n2" then some ⟨"MOVED", 1, "n2"⟩
      else if e = "MOVED 1 n1" then some ⟨"MOVED", 1, "n1"⟩
      else if e = "ASK 1 n2" then some ⟨"ASK", 1, "n2"⟩
      else none
    getAddrForSlots := fun w slots _ =>
      ((slots.map (fun sl => if sl = 2 then "n2" else if sl = 3 then "down" else "n1"), none), w)
    GetConnForAddr := fun w addr _ _ =>
      (if addr = "n1" then some 1 else if addr = "n2" then some 2 else none, w)
    needsRefresh := fun w _ => w
    connSend := fun w _ _ _ => (none, w)
    connFlush := fun w _ => (none, w)
    connReceive := fun w c =>
      match mapGet w.replies c with
      | some (r :: rest) => (r, { replies := mapSet w.replies c rest })
      | _ => ((Value.nil, some "EOF"), w)
    connDo := fun w _ _ _ => ((Value.nil, none), w)
    connClose := fun w _ => w
    RetryConn := fun w => ((some 0, none), w)
    rangeBatches := fun _ l => l.reverse
    rangeSlots := fun _ l => l
    CMDMSET := "MSET"
    CMDMGET := "MGET" }

/-- The parts of a session that routing and execution never write: the request of every
descriptor, the cursor, the flags and the ad hoc connection. -/
def Frame (p q : pipeLiner) : Prop :=
  q.connForDo = p.connForDo ∧
  q.cmds.map (fun cm => (cm.commandName, cm.args)) =
    p.cmds.map (fun cm => (cm.commandName, cm.args)) ∧
  q.forceDial = p.forceDial ∧ q.readOnly = p.readOnly ∧ q.flushed = p.flushed ∧
  q.recvPos = p.recvPos


/-- A script in which node `n1` answers `1` and node `n2` answers `2`. -/
def twoNodeScript : Script :=
  { replies := [(1, [(Value.int 1, none)]), (2, [(Value.int 2, none)])] }

/-- Two requests, the first for a key of slot 1 and the second for a key of slot 2. -/
def twoGets : List (String × List Value) :=
  [("GET", [Value.str "a"]), ("GET", [Value.str "c"])]

/-- The two-node cluster with a resolver that fails. -/
def noRouteEnv : Env Script :=
  { demoEnv with getAddrForSlots := fun w _ _ => (([], some "cluster down"), w) }

/-- The position of the last occurrence of `k` in `l` (0 when there is none). -/
def lastPos (k : String) : List String → Nat
  | [] => 0
  | _ :: xs => if k ∈ xs then lastPos k xs + 1 else 0

/-- The value that the get-many rule gives to key `k`, from the keys of its slot and the
reply of that slot: the positional value when the reply is a sequence of the right
length, the absent marker otherwise. A key that occurs twice takes its last position. -/
def slotValue (slotKeys : List String) (reply : Value) (k : String) : Value :=
  match asSlice reply with
  | some vs => if slotKeys.length = vs.length then vs.getD (lastPos k slotKeys) Value.nil
               else Value.nil
  | none => Value.nil

/-- A script in which slot 1 answers the sequence `1, 2` and slot 2 a non-sequence. -/
def mgetScript : Script :=
  { replies := [(1, [(Value.slice [Value.int 1, Value.int 2], none)]),
                (2, [(Value.str "oops", none)])] }

/-- A script in which slot 1 answers a sequence and slot 2 an error. -/
def mgetErrScript : Script :=
  { replies := [(1, [(Value.slice [Value.int 1], none)]),
                (2, [(Value.nil, some "ERR unavailable")])] }

/-- The part of the log of `s1` written since the state `s0`. -/
def logSince {W : Type} (s0 s1 : Sys W) : List Event := s1.log.drop s0.log.length

/-- The results of the `Receive` calls made on node connections for the descriptor at
position `i`, in the order of the log. -/
def recvsOf (i : Nat) (log : List Event) : List (Value × Option String) :=
  log.filterMap (fun e => match e with
    | Event.receive _ j r err => if j = i then some (r, err) else none
    | _ => none)

/-- What the second loop of `batch.run` writes on a descriptor that receives `r`. -/
def applyRecv {W : Type} (env : Env W) (cm : cmd) (r : Value × Option String) : cmd :=
  { cm with
    reply := r.1
    reply_err := r.2
    re := match r.2 with
      | none => cm.re
      | some e =>
        match env.ParseRedir e with
        | none => cm.re
        | some rd => some rd }

/-- The members of the batch under key `k` (none when there is no such batch). -/
def members (m : List (String × batch)) (k : String) : List Nat :=
  match mapGet m k with
  | some bt => bt.cmds
  | none => []

/-- The positions, counted from `i`, of the elements of a list that satisfy `P`. -/
def positions {α : Type} (P : α → Bool) : List α → Nat → List Nat
  | [], _ => []
  | a :: rest, i => if P a then i :: positions P rest (i + 1) else positions P rest (i + 1)

/-- From `s` to `s1` the members `L` were run: the log grew by `evs`; every descriptor
is what it was, updated by the results received for it; a position is sent and received
at most as often as it occurs in `L`, and received only if sent. -/
def Ran {W : Type} (env : Env W) (L : List Nat) (s s1 : Sys W) : Prop :=
  ∃ evs, s1.log = s.log ++ evs ∧
    (∀ i, s1.p.cmds[i]? = (s.p.cmds[i]?).map (fun cm => (recvsOf i evs).foldl (applyRecv env) cm)) ∧
    (∀ i, sendCount i evs ≤ L.count i) ∧
    (∀ i, (recvsOf i evs).length ≤ L.count i) ∧
    (∀ i, recvsOf i evs ≠ [] → 1 ≤ sendCount i evs)

/-- The session before the redirect pass: routed, initial pass run. -/
def initialPass {W : Type} (env : Env W) (s : Sys W) : Sys W :=
  runBatches env (buildBatches env s).1

/-- A script in which node `n1` answers a redirect to `n2` and `n2` one back to `n1`. -/
def movedTwiceScript : Script :=
  { replies := [(1, [(Value.nil, some "MOVED 1 n2")]), (2, [(Value.nil, some "MOVED 1 n1")])] }

/-- A session with one queued request for a key of slot 1, in `movedTwiceScript`. -/
def movedSession : Sys Script := (Send (fresh movedTwiceScript) "GET" [Value.str "a"]).1

/-- A session with the two requests of `twoGets` queued, in `twoNodeScript`. -/
def twoGetsSession : Sys Script :=
  (Send (Send (fresh twoNodeScript) "GET" [Value.str "a"]).1 "GET" [Value.str "c"]).1

/-- The flat argument list `k1 v1 k2 v2 ...` of a list of key/value pairs. -/
def flatPairs (ps : List (Value × Value)) : List Value :=
  ps.flatMap (fun kv => [kv.1, kv.2])

/-- The arguments of the grouped set-command of `slot`: the pairs whose key hashes to
`slot`, key (as the string that was hashed) then value, in the order given. -/
def slotPairs {W : Type} (env : Env W) (ps : List (Value × Value)) (slot : Int) : List Value :=
  (ps.filter (fun kv => env.Slot (sprintS kv.1) = slot)).flatMap
    (fun kv => [Value.str (sprintS kv.1), kv.2])

/-- A script in which both nodes answer `OK`. -/
def msetScript : Script :=
  { replies := [(1, [(Value.str "OK", none)]), (2, [(Value.str "OK2", none)])] }

/-- The calls of a log that were issued on the connection `c`, in order. -/
def connOps (c : Conn) (log : List Event) : List Event :=
  log.filter (fun e => match e with
    | Event.send c1 _ => decide (c1 = c)
    | Event.flush c1 => decide (c1 = c)
    | Event.receive c1 _ _ _ => decide (c1 = c)
    | Event.close c1 => decide (c1 = c)
    | Event.connDo c1 _ => decide (c1 = c)
    | _ => false)

/-- A script in which node `n1` answers `10` and then `20`. -/
def twoRepliesScript : Script :=
  { replies := [(1, [(Value.int 10, none), (Value.int 20, none)])] }

/-- A session with two queued requests for keys of slot 1, in `twoRepliesScript`. -/
def sameNodeSession : Sys Script :=
  (Send (Send (fresh twoRepliesScript) "GET" [Value.str "a"]).1 "GET" [Value.str "b"]).1

/-- The batch of `n1` that `buildBatches` builds for `sameNodeSession`: two members, no
connection yet. -/
def twoMemberBatch : batch := { addr := "n1", conn := none, cmds := [0, 1] }

/-- A script in which node `n1` answers an ask-elsewhere redirect to `n2` and `n2`
answers `7`. -/
def askScript : Script :=
  { replies := [(1, [(Value.nil, some "ASK 1 n2")]), (2, [(Value.int 7, none)])] }

/-- A session with one queued request for a key of slot 1, in `askScript`. -/
def askSession : Sys Script := (Send (fresh askScript) "GET" [Value.str "a"]).1

/-- The session `t` is reached from `s0` by calls of `Send`, `Flush`, `Receive`, `Do` and
`Close`, in any number and order. -/
inductive After {W : Type} (env : Env W) (s0 : Sys W) : Sys W → Prop
  | here : After env s0 s0
  | send (t : Sys W) (commandName : String) (args : List Value) :
      After env s0 t → After env s0 (Send t commandName args).1
  | flush (t : Sys W) : After env s0 t → After env s0 (Flush env t).1
  | receive (t : Sys W) : After env s0 t → After env s0 (Receive t).1
  | doCmd (t : Sys W) (commandName : String) (args : List Value) :
      After env s0 t → After env s0 (Do env t commandName args).1
  | close (t : Sys W) : After env s0 t → After env s0 (Close env t).1

/-- The two-node cluster with a resolver that has no address for slot 2. -/
def gapEnv : Env Script :=
  { demoEnv with getAddrForSlots := fun w slots _ =>
      ((slots.map (fun sl => if sl = 2 then "" else "n1"), none), w) }

/-- The connections that the log shows as acquired: the non-nil results of
`GetConnForAddr` and of `RetryConn`. -/
def acquired (log : List Event) : List Conn :=
  log.filterMap (fun e => match e with
    | Event.getConnForAddr _ _ _ (some c) => some c
    | Event.retryConn (some c) => some c
    | _ => none)

/-- The session references the connection `c`: it is the ad hoc connection of `Do` or the
connection of a batch of the map. -/
def Holds (p : pipeLiner) (c : Conn) : Prop :=
  p.connForDo = some c ∨ ∃ k bt, mapGet p.batches k = some bt ∧ bt.conn = some c

/-- From `s` to `s1` no reference to a connection was dropped and every connection
acquired on the way is referenced. -/
def Kept {W : Type} (s s1 : Sys W) : Prop :=
  ∃ evs, s1.log = s.log ++ evs ∧ (∀ c, Holds s.p c → Holds s1.p c) ∧
    (∀ c ∈ acquired evs, Holds s1.p c)

/-! ## Lists and maps -/

theorem setAt_length {α : Type} (l : List α) (i : Nat) (f : α → α) :
    (setAt l i f).length = l.length := by
  induction l generalizing i with
  | nil => rfl
  | cons x xs ih => cases i <;> simp [setAt, ih]

theorem setAt_getElem? {α : Type} (l : List α) (i j : Nat) (f : α → α) :
    (setAt l i f)[j]? = if j = i then (l[j]?).map f else l[j]? := by
  induction l generalizing i j with
  | nil => simp [setAt]
  | cons x xs ih =>
    cases i with
    | zero => cases j <;> simp [setAt]
    | succ n => cases j <;> simp [setAt, ih]

theorem setAt_map {α β : Type} (g : α → β) (l : List α) (i : Nat) (f : α → α)
    (h : ∀ a, g (f a) = g a) : (setAt l i f).map g = l.map g := by
  induction l generalizing i with
  | nil => rfl
  | cons x xs ih => cases i <;> simp [setAt, ih, h]

/-! ## What a flush leaves alone -/

theorem Frame_refl (p : pipeLiner) : Frame p p := by simp [Frame]

theorem Frame_trans {p q r : pipeLiner} (h1 : Frame p q) (h2 : Frame q r) : Frame p r := by
  obtain ⟨a1, a2, a3, a4, a5, a6⟩ := h1
  obtain ⟨b1, b2, b3, b4, b5, b6⟩ := h2
  exact ⟨b1.trans a1, b2.trans a2, b3.trans a3, b4.trans a4, b5.trans a5, b6.trans a6⟩

theorem Frame_length {p q : pipeLiner} (h : Frame p q) : q.cmds.length = p.cmds.length := by
  have := congrArg List.length h.2.1
  simpa using this

theorem sendLoop_p {W : Type} (env : Env W) (c : Conn) (l : List Nat) (s : Sys W) :
    (sendLoop env c l s).1.p = s.p := by
  induction l generalizing s with
  | nil => rfl
  | cons i rest ih =>
    simp only [sendLoop]
    split
    · rfl
    · rw [ih]

theorem recvOne_frame {W : Type} (env : Env W) (c : Conn) (i : Nat) (s : Sys W) :
    Frame s.p (recvOne env c i s).p := by
  unfold recvOne
  simp only
  split
  · simp [Frame, setAt_map]
  · split
    · simp [Frame, setAt_map]
    · split <;> simp [Frame, setAt_map]

theorem recvLoop_frame {W : Type} (env : Env W) (c : Conn) (l : List Nat) (s : Sys W) :
    Frame s.p (recvLoop env c l s).p := by
  induction l generalizing s with
  | nil => exact Frame_refl _
  | cons i rest ih => exact Frame_trans (recvOne_frame env c i s) (ih _)

theorem run_frame {W : Type} (env : Env W) (bt : batch) (s : Sys W) :
    Frame s.p (batch.run env bt s).2.1.p := by
  unfold batch.run
  simp only
  split
  · split <;> simp [Frame]
  · split
    · rw [sendLoop_p]; split <;> simp [Frame]
    · split
      · simp only [sendLoop_p]; split <;> simp [Frame]
      · refine Frame_trans ?_ (recvLoop_frame env _ _ _)
        simp only [sendLoop_p]; split <;> simp [Frame]
theorem runOne_frame {W : Type} (env : Env W) (s : Sys W) (k : String) :
    Frame s.p (runOne env s k).p := by
  unfold runOne
  split
  · exact Frame_refl _
  · split
    · have h := run_frame env ‹batch› s
      simpa [Frame] using h
    · exact Frame_refl _

theorem foldl_runOne_frame {W : Type} (env : Env W) (ks : List String) (s : Sys W) :
    Frame s.p (ks.foldl (runOne env) s).p := by
  induction ks generalizing s with
  | nil => exact Frame_refl _
  | cons k rest ih => exact Frame_trans (runOne_frame env s k) (ih _)

theorem runBatches_frame {W : Type} (env : Env W) (s : Sys W) :
    Frame s.p (runBatches env s).p := by
  unfold runBatches
  split
  · exact Frame_refl _
  · exact foldl_runOne_frame env _ s

theorem groupLoop_frame (addrs : List String) (i : Nat) (p : pipeLiner) :
    Frame p (groupLoop addrs i p) := by
  induction addrs generalizing i p with
  | nil => exact Frame_refl _
  | cons a rest ih =>
    simp only [groupLoop]
    split
    · refine Frame_trans ?_ (ih _ _)
      simp [Frame, setAt_map]
    · exact ih _ _

theorem buildBatches_frame {W : Type} (env : Env W) (s : Sys W) :
    Frame s.p (buildBatches env s).1.p := by
  unfold buildBatches
  simp only
  split
  · simp [Frame, setSlots, Function.comp_def]
  · split
    · simp [Frame, setSlots, Function.comp_def]
    · refine Frame_trans ?_ (groupLoop_frame _ _ _)
      simp [Frame, setSlots, Function.comp_def]

theorem doRedirect_frame {W : Type} (env : Env W) (s : Sys W) :
    Frame s.p (doRedirect env s).p := by
  unfold doRedirect
  simp only
  split
  · refine Frame_trans ?_ (runBatches_frame env _)
    simp [Frame, buildRedirectBatches]
  · simp [Frame, buildRedirectBatches]

theorem Flush_flushed {W : Type} (env : Env W) (s : Sys W) (hf : s.p.flushed = true) :
    Flush env s = (s, none) := by
  simp [Flush, hf]

theorem Flush_failed {W : Type} (env : Env W) (s : Sys W) (hf : s.p.flushed = false)
    (e : String) (he : (buildBatches env s).2 = some e) :
    Flush env s = ((buildBatches env s).1, some e) := by
  simp [Flush, hf, he]

theorem Flush_passes {W : Type} (env : Env W) (s : Sys W) (hf : s.p.flushed = false)
    (he : (buildBatches env s).2 = none) :
    Flush env s =
      ({ doRedirect env (runBatches env (buildBatches env s).1) with
          p := { (doRedirect env (runBatches env (buildBatches env s).1)).p with
                 flushed := true } }, none) := by
  simp [Flush, hf, he]

/-- A successful `Flush` marks the session flushed and leaves the requests, the cursor,
the flags and the ad hoc connection as they were. -/
theorem Flush_ok_frame {W : Type} (env : Env W) (s : Sys W) (h : (Flush env s).2 = none) :
    (Flush env s).1.p.flushed = true ∧
    (Flush env s).1.p.recvPos = s.p.recvPos ∧
    (Flush env s).1.p.cmds.map (fun cm => (cm.commandName, cm.args)) =
      s.p.cmds.map (fun cm => (cm.commandName, cm.args)) := by
  cases hf : s.p.flushed with
  | true => rw [Flush_flushed env s hf]; simp [hf]
  | false =>
    cases he : (buildBatches env s).2 with
    | some e => rw [Flush_failed env s hf e he] at h; simp at h
    | none =>
      rw [Flush_passes env s hf he]
      have h1 := buildBatches_frame env s
      have h2 := runBatches_frame env (buildBatches env s).1
      have h3 := doRedirect_frame env (runBatches env (buildBatches env s).1)
      have h4 := Frame_trans (Frame_trans h1 h2) h3
      exact ⟨rfl, h4.2.2.2.2.2, h4.2.1⟩

theorem sendAll_p {W : Type} (reqs : List (String × List Value)) (s : Sys W) :
    (sendAll reqs s).p.cmds.map (fun cm => (cm.commandName, cm.args)) =
      s.p.cmds.map (fun cm => (cm.commandName, cm.args)) ++ reqs ∧
    (sendAll reqs s).p.recvPos = s.p.recvPos ∧ (sendAll reqs s).p.flushed = s.p.flushed := by
  induction reqs generalizing s with
  | nil => simp [sendAll]
  | cons rq rest ih =>
    obtain ⟨h1, h2, h3⟩ := ih (Send s rq.1 rq.2).1
    refine ⟨?_, ?_, ?_⟩
    · simp only [sendAll]; rw [h1]; simp [Send]
    · simp only [sendAll]; rw [h2]; simp [Send]
    · simp only [sendAll]; rw [h3]; simp [Send]

theorem receiveN_spec {W : Type} (k : Nat) (s : Sys W) (hf : s.p.flushed = true)
    (hn : 0 < s.p.cmds.length) :
    (receiveN k s).p.recvPos = s.p.recvPos + k ∧ (receiveN k s).p.cmds = s.p.cmds ∧
    (receiveN k s).p.flushed = true ∧ (receiveN k s).w = s.w ∧ (receiveN k s).log = s.log ∧
    (receiveN k s).p.batches = s.p.batches ∧ (receiveN k s).p.connForDo = s.p.connForDo := by
  induction k generalizing s with
  | zero => simp [receiveN, hf]
  | succ k ih =>
    have hlen : ¬ s.p.cmds.length ≤ 0 := by omega
    have hr : (Receive s).1 = { s with p := { s.p with recvPos := s.p.recvPos + 1 } } := by
      unfold Receive
      simp only [hf, hlen, not_true_eq_false, if_false]
      split <;> rfl
    simp only [receiveN, hr]
    obtain ⟨h1, h2, h3, h4, h5, h6, h7⟩ :=
      ih { s with p := { s.p with recvPos := s.p.recvPos + 1 } } hf hn
    refine ⟨?_, h2, h3, h4, h5, h6, h7⟩
    rw [h1]; simp; omega

theorem Receive_at {W : Type} (s : Sys W) (hf : s.p.flushed = true) (i : Nat)
    (hpos : s.p.recvPos + 1 = i) (hi : i < s.p.cmds.length) :
    (Receive s).2 = ((s.p.cmds.getD i default).reply, (s.p.cmds.getD i default).reply_err) := by
  have hlen : ¬ s.p.cmds.length ≤ 0 := by omega
  unfold Receive
  simp only [hf, hlen, not_true_eq_false, if_false, hpos]
  have : ¬ ((i : Int) ≥ (s.p.cmds.length : Int) ∨ (i : Int) < 0) := by omega
  simp only [this, if_false, Int.toNat_ofNat]

/-! ## The session as a state machine -/

/-- C1. Order preservation: after `N` calls of `Send` on a fresh session and a successful
`Flush`, the `(i+1)`-th `Receive` returns the reply and the reply error stored on the
descriptor at queue position `i`, which still carries the request of the `(i+1)`-th `Send`;
this holds for every environment, so for every routing and every order of the batches. -/
theorem order_preservation {W : Type} (env : Env W) (w : W)
    (reqs : List (String × List Value))
    (hok : (Flush env (sendAll reqs (fresh w))).2 = none) (i : Nat) (hi : i < reqs.length) :
    ∃ cm, (Flush env (sendAll reqs (fresh w))).1.p.cmds[i]? = some cm ∧
      reqs[i]? = some (cm.commandName, cm.args) ∧
      (Receive (receiveN i (Flush env (sendAll reqs (fresh w))).1)).2 =
        (cm.reply, cm.reply_err) := by
  obtain ⟨hfl, hpos, hsig⟩ := Flush_ok_frame env _ hok
  obtain ⟨hs1, hs2, _⟩ := sendAll_p reqs (fresh w)
  have hsig2 : (Flush env (sendAll reqs (fresh w))).1.p.cmds.map
      (fun cm => (cm.commandName, cm.args)) = reqs := by
    rw [hsig, hs1]; simp [fresh, newPipeliner]
  have hlen : (Flush env (sendAll reqs (fresh w))).1.p.cmds.length = reqs.length := by
    have := congrArg List.length hsig2
    simpa using this
  have hpos2 : (Flush env (sendAll reqs (fresh w))).1.p.recvPos = -1 := by
    rw [hpos, hs2]; rfl
  have hi2 : i < (Flush env (sendAll reqs (fresh w))).1.p.cmds.length := by omega
  obtain ⟨r1, r2, r3, -⟩ := receiveN_spec i _ hfl (by omega)
  refine ⟨(Flush env (sendAll reqs (fresh w))).1.p.cmds[i], ?_, ?_, ?_⟩
  · exact List.getElem?_eq_getElem hi2
  · have := congrArg (fun l => l[i]?) hsig2
    simp only [List.getElem?_map, List.getElem?_eq_getElem hi2, Option.map_some'] at this
    exact this.symm
  · rw [Receive_at _ r3 i (by rw [r1, hpos2]; omega) (by rw [r2]; exact hi2), r2]
    simp [List.getD_eq_getElem?_getD, List.getElem?_eq_getElem hi2]

/-- An instance of order preservation: two requests routed to two nodes. -/
theorem order_preservation_witness :
    (Flush demoEnv (sendAll twoGets (fresh twoNodeScript))).2 = none ∧ 1 < twoGets.length ∧
    ∃ cm, (Flush demoEnv (sendAll twoGets (fresh twoNodeScript))).1.p.cmds[1]? = some cm ∧
      twoGets[1]? = some (cm.commandName, cm.args) ∧
      (Receive (receiveN 1 (Flush demoEnv (sendAll twoGets (fresh twoNodeScript))).1)).2 =
        (cm.reply, cm.reply_err) :=
  ⟨rfl, by decide, order_preservation demoEnv twoNodeScript twoGets rfl 1 (by decide)⟩

theorem closeLoop_p {W : Type} (env : Env W) (ks : List String) (s : Sys W) :
    (ks.foldl (closeLoop env) s).p = s.p := by
  induction ks generalizing s with
  | nil => rfl
  | cons k rest ih =>
    simp only [List.foldl_cons]
    rw [ih]
    unfold closeLoop
    split
    · split <;> rfl
    · rfl

theorem Close_p {W : Type} (env : Env W) (s : Sys W) : (Close env s).1.p = s.p := by
  unfold Close
  simp only
  rw [closeLoop_p]
  split <;> rfl

theorem Receive_flushed {W : Type} (s : Sys W) : (Receive s).1.p.flushed = s.p.flushed := by
  unfold Receive
  split
  · rfl
  · split
    · rfl
    · simp only; split <;> rfl

theorem Do_flushed {W : Type} (env : Env W) (s : Sys W) (n : String) (a : List Value) :
    (Do env s n a).1.p.flushed = s.p.flushed := by
  unfold Do
  cases h : s.p.connForDo with
  | none =>
    simp only
    split
    · rfl
    · split <;> rfl
  | some c => simp [h]

theorem Flushed_is_flushed {W : Type} {env : Env W} {s : Sys W} (h : Flushed env s) :
    s.p.flushed = true := by
  induction h with
  | flushOk s hok => exact (Flush_ok_frame env s hok).1
  | send s n a _ ih => simpa [Send] using ih
  | flush s _ ih => rw [Flush_flushed env s ih]; exact ih
  | receive s _ ih => rw [Receive_flushed]; exact ih
  | doCmd s n a _ ih => rw [Do_flushed]; exact ih
  | close s _ ih => rw [Close_p]; exact ih

theorem Unflushed_not_flushed {W : Type} {env : Env W} {s : Sys W} (h : Unflushed env s) :
    s.p.flushed = false := by
  induction h with
  | fresh w => rfl
  | send s n a _ ih => simpa [Send] using ih
  | flushFailed s _ hfail ih =>
    cases he : (buildBatches env s).2 with
    | some e =>
      rw [Flush_failed env s ih e he]
      exact (buildBatches_frame env s).2.2.2.2.1.trans ih
    | none =>
      rw [Flush_passes env s ih he] at hfail
      simp at hfail
  | receive s _ ih => rw [Receive_flushed]; exact ih
  | doCmd s n a _ ih => rw [Do_flushed]; exact ih
  | close s _ ih => rw [Close_p]; exact ih

/-- C7. Idempotent flush: on a session on which some `Flush` has returned success (whatever
calls followed), `Flush` returns success and hands back the very same session, world and
log: nothing is routed or executed, and every later `Receive` gives what it gave before. -/
theorem flush_idempotent {W : Type} (env : Env W) (s : Sys W) (h : Flushed env s) :
    Flush env s = (s, none) ∧
    ∀ k, Receive (receiveN k (Flush env s).1) = Receive (receiveN k s) := by
  have hf := Flush_flushed env s (Flushed_is_flushed h)
  refine ⟨hf, fun k => ?_⟩
  rw [hf]

/-- An instance of the idempotent flush: the session of two requests after its flush. -/
theorem flush_idempotent_witness :
    Flushed demoEnv (Flush demoEnv (sendAll twoGets (fresh twoNodeScript))).1 ∧
    (Flush demoEnv (Flush demoEnv (sendAll twoGets (fresh twoNodeScript))).1 =
      ((Flush demoEnv (sendAll twoGets (fresh twoNodeScript))).1, none) ∧
    ∀ k, Receive (receiveN k
        (Flush demoEnv (Flush demoEnv (sendAll twoGets (fresh twoNodeScript))).1).1) =
      Receive (receiveN k (Flush demoEnv (sendAll twoGets (fresh twoNodeScript))).1)) :=
  ⟨Flushed.flushOk _ rfl, flush_idempotent demoEnv _ (Flushed.flushOk _ rfl)⟩

/-- C9. Receive before flush: on a session on which no `Flush` has returned success (a
fresh one, or one whose flushes failed on routing, whatever other calls were made),
`Receive` returns a nil reply with the error `need to flush before receive` and hands
back the session unchanged, cursor included. -/
theorem receive_before_flush {W : Type} (env : Env W) (s : Sys W) (h : Unflushed env s) :
    Receive s = (s, Value.nil, some "need to flush before receive") := by
  simp [Receive, Unflushed_not_flushed h]

/-- An instance of receive before flush: a request queued and a flush that failed on
routing. -/
theorem receive_before_flush_witness :
    Unflushed noRouteEnv (Flush noRouteEnv (Send (fresh twoNodeScript) "GET" [Value.str "a"]).1).1 ∧
    Receive (Flush noRouteEnv (Send (fresh twoNodeScript) "GET" [Value.str "a"]).1).1 =
      ((Flush noRouteEnv (Send (fresh twoNodeScript) "GET" [Value.str "a"]).1).1,
        Value.nil, some "need to flush before receive") :=
  ⟨Unflushed.flushFailed _ (Unflushed.send _ _ _ (Unflushed.fresh _)) (by decide),
   receive_before_flush noRouteEnv _
     (Unflushed.flushFailed _ (Unflushed.send _ _ _ (Unflushed.fresh _)) (by decide))⟩

/-- C8, as stated, fails on an empty queue: a flushed session with no descriptor answers
`Receive` with a nil reply and no error. -/
theorem receive_past_end_empty :
    (Flush demoEnv (fresh twoNodeScript)).2 = none ∧
    (Flush demoEnv (fresh twoNodeScript)).1.p.cmds.length = 0 ∧
    (Receive (receiveN 0 (Flush demoEnv (fresh twoNodeScript)).1)).2 = (Value.nil, none) ∧
    (Receive (receiveN 1 (Flush demoEnv (fresh twoNodeScript)).1)).2 = (Value.nil, none) :=
  ⟨rfl, rfl, rfl, rfl⟩

/-- C8, amended. Receive past the end: on a flushed session with `N ≥ 1` descriptors whose
cursor is at its start, the `(k+1)`-th `Receive` moves the cursor to `k`; for `k < N` it
returns the result of the descriptor at position `k` (so no two calls return the same
descriptor), and for every `k ≥ N` it returns the error `no more reply`. -/
theorem receive_past_end {W : Type} (s : Sys W) (hf : s.p.flushed = true)
    (hpos : s.p.recvPos = -1) (hn : 1 ≤ s.p.cmds.length) (k : Nat) :
    (Receive (receiveN k s)).1.p.recvPos = k ∧
    (k < s.p.cmds.length →
      (Receive (receiveN k s)).2 =
        ((s.p.cmds.getD k default).reply, (s.p.cmds.getD k default).reply_err)) ∧
    (s.p.cmds.length ≤ k →
      (Receive (receiveN k s)).2 = (Value.nil, some "no more reply")) := by
  obtain ⟨r1, r2, r3, -⟩ := receiveN_spec k s hf (by omega)
  have hlen : ¬ (receiveN k s).p.cmds.length ≤ 0 := by rw [r2]; omega
  have hp : (receiveN k s).p.recvPos + 1 = k := by rw [r1, hpos]; omega
  refine ⟨?_, fun hk => ?_, fun hk => ?_⟩
  · unfold Receive
    simp only [r3, hlen, not_true_eq_false, if_false, hp]
    split <;> rfl
  · rw [Receive_at _ r3 k hp (by rw [r2]; exact hk), r2]
  · unfold Receive
    simp only [r3, hlen, not_true_eq_false, if_false, hp]
    have : ((k : Int) ≥ ((receiveN k s).p.cmds.length : Int) ∨ (k : Int) < 0) := by
      rw [r2]; omega
    simp only [this, if_true]

/-- An instance of receive past the end: two descriptors, the third call. -/
theorem receive_past_end_witness :
    (Flush demoEnv (sendAll twoGets (fresh twoNodeScript))).1.p.flushed = true ∧
    (Flush demoEnv (sendAll twoGets (fresh twoNodeScript))).1.p.recvPos = -1 ∧
    1 ≤ (Flush demoEnv (sendAll twoGets (fresh twoNodeScript))).1.p.cmds.length ∧
    (Receive (receiveN 2 (Flush demoEnv (sendAll twoGets (fresh twoNodeScript))).1)).1.p.recvPos
      = (2 : Nat) ∧
    (2 < (Flush demoEnv (sendAll twoGets (fresh twoNodeScript))).1.p.cmds.length →
      (Receive (receiveN 2 (Flush demoEnv (sendAll twoGets (fresh twoNodeScript))).1)).2 =
        (((Flush demoEnv (sendAll twoGets (fresh twoNodeScript))).1.p.cmds.getD 2 default).reply,
         ((Flush demoEnv (sendAll twoGets
            (fresh twoNodeScript))).1.p.cmds.getD 2 default).reply_err)) ∧
    ((Flush demoEnv (sendAll twoGets (fresh twoNodeScript))).1.p.cmds.length ≤ 2 →
      (Receive (receiveN 2 (Flush demoEnv (sendAll twoGets (fresh twoNodeScript))).1)).2 =
        (Value.nil, some "no more reply")) :=
  ⟨rfl, rfl, by decide, receive_past_end _ rfl rfl (by decide) 2⟩

theorem msetGroup_odd {W : Type} (env : Env W) (n : Nat) :
    ∀ (args : List Value) (m : List (Int × List Value)),
      args.length = 2 * n + 1 → msetGroup env args m = none := by
  induction n with
  | zero =>
    intro args m h
    match args, h with
    | [a], _ => rfl
  | succ n ih =>
    intro args m h
    match args, h with
    | k :: v :: rest, h =>
      simp only [msetGroup]
      have hr : rest.length = 2 * n + 1 := by simp at h; omega
      split <;> exact ih _ _ hr

/-- C10. Set-many validation: for an argument list of odd length `multiset` returns a nil
result and the argument-count error, with the world untouched and an empty log: no
session is created and nothing is sent to the cluster or to a node. -/
theorem multiset_odd_length {W : Type} (env : Env W) (w : W) (args : List Value)
    (h : args.length % 2 = 1) :
    multiset env w args =
      { reply := Value.nil, err := some "args length exeption for mset", w := w, log := [] } := by
  have hg : msetGroup env args [] = none :=
    msetGroup_odd env (args.length / 2) args [] (by omega)
  have hl : ¬ args.length ≤ 0 := by omega
  simp [multiset, hg, hl]

/-- An instance of the set-many validation: the arguments `k1 v1 k2`. -/
theorem multiset_odd_length_witness :
    [Value.str "k1", Value.str "v1", Value.str "k2"].length % 2 = 1 ∧
    multiset demoEnv twoNodeScript [Value.str "k1", Value.str "v1", Value.str "k2"] =
      { reply := Value.nil, err := some "args length exeption for mset",
        w := twoNodeScript, log := [] } :=
  ⟨by decide, multiset_odd_length demoEnv twoNodeScript _ (by decide)⟩

/-- A batch whose connection cannot be acquired returns the error `GetConnForAddr failed`
and leaves the session, every descriptor included, as it was. -/
theorem run_without_conn {W : Type} (env : Env W) (bt : batch) (s : Sys W)
    (hc : bt.conn = none)
    (hget : (env.GetConnForAddr s.w bt.addr s.p.forceDial s.p.readOnly).1 = none) :
    (batch.run env bt s).2.1.p = s.p ∧
    (batch.run env bt s).2.2 = some "GetConnForAddr failed" := by
  unfold batch.run
  by_cases ha : 0 < bt.addr.length
  · simp [hc, ha, hget]
  · simp [hc, ha]

/-- C2 at a failing input: one request whose address has no reachable node. The flush
succeeds, the connection was asked for and refused, yet the descriptor ends with a nil
reply and a nil error, and `Receive` returns no error for it. -/
theorem conn_failure_not_recorded :
    (Flush demoEnv (Send (fresh twoNodeScript) "GET" [Value.str "d"]).1).2 = none ∧
    (Flush demoEnv (Send (fresh twoNodeScript) "GET" [Value.str "d"]).1).1.log =
      [Event.getAddrForSlots [3] false, Event.getConnForAddr "down" false false none] ∧
    (demoEnv.GetConnForAddr twoNodeScript "down" false false).1 = none ∧
    (Flush demoEnv (Send (fresh twoNodeScript) "GET" [Value.str "d"]).1).1.p.cmds.map
      (fun cm => cm.reply_err) = [none] ∧
    (Receive (Flush demoEnv (Send (fresh twoNodeScript) "GET" [Value.str "d"]).1).1).2 =
      (Value.nil, none) :=
  ⟨rfl, rfl, rfl, rfl, rfl⟩

/-! ## Multi-key commands -/

theorem mapGet_mapSet {κ β : Type} [DecidableEq κ] (m : List (κ × β)) (k a : κ) (v : β) :
    mapGet (mapSet m k v) a = if a = k then some v else mapGet m a := by
  induction m with
  | nil =>
    by_cases h : a = k
    · simp [mapSet, mapGet, h]
    · have h2 : ¬ k = a := fun e => h e.symm
      simp [mapSet, mapGet, h, h2]
  | cons kv rest ih =>
    obtain ⟨k1, v1⟩ := kv
    by_cases h1 : k1 = k
    · by_cases h : a = k
      · simp [mapSet, mapGet, h1, h]
      · have h2 : ¬ k = a := fun e => h e.symm
        simp [mapSet, mapGet, h1, h, h2]
    · by_cases h : a = k
      · subst h
        simp only [if_true] at ih
        simp [mapSet, mapGet, h1, ih]
      · simp [mapSet, mapGet, h1, h, ih]

theorem mapGet_eq_none {κ β : Type} [DecidableEq κ] (m : List (κ × β)) (a : κ) :
    mapGet m a = none ↔ a ∉ mapKeys m := by
  induction m with
  | nil => simp [mapGet, mapKeys]
  | cons kv rest ih =>
    obtain ⟨k1, v1⟩ := kv
    by_cases h : k1 = a
    · simp [mapGet, mapKeys, h]
    · have h2 : ¬ a = k1 := fun e => h e.symm
      simp only [mapKeys] at ih
      simp [mapGet, mapKeys, h, h2, ih]

theorem mapKeys_mapSet {κ β : Type} [DecidableEq κ] (m : List (κ × β)) (k : κ) (v : β) :
    mapKeys (mapSet m k v) = if k ∈ mapKeys m then mapKeys m else mapKeys m ++ [k] := by
  induction m with
  | nil => simp [mapSet, mapKeys]
  | cons kv rest ih =>
    obtain ⟨k1, v1⟩ := kv
    simp only [mapKeys] at ih
    by_cases h : k1 = k
    · simp [mapSet, mapKeys, h]
    · have h2 : ¬ k = k1 := fun e => h e.symm
      by_cases hm : k ∈ List.map Prod.fst rest
      · simp [mapSet, mapKeys, h, h2, hm, ih]
      · simp [mapSet, mapKeys, h, h2, hm, ih]

theorem mapKeys_mapSet_nodup {κ β : Type} [DecidableEq κ] (m : List (κ × β)) (k : κ) (v : β)
    (h : (mapKeys m).Nodup) : (mapKeys (mapSet m k v)).Nodup := by
  rw [mapKeys_mapSet]
  split
  · exact h
  · rename_i hk
    exact List.Nodup.append h (List.nodup_singleton k) (by simpa using hk)

theorem sendSlots_eq {W : Type} (name : String) (cmdMap : List (Int × List Value))
    (order : List Int) (s : Sys W) (acc : List Int) :
    sendSlots name cmdMap order s acc =
      (sendAll (order.map (fun slot => (name, (mapGet cmdMap slot).getD []))) s,
        acc ++ order, none) := by
  induction order generalizing s acc with
  | nil => simp [sendSlots, sendAll]
  | cons slot rest ih =>
    simp only [sendSlots, List.map_cons, sendAll]
    have : (Send s name ((mapGet cmdMap slot).getD [])).2 = none := rfl
    simp only [this]
    rw [ih]
    simp

theorem mgetRecv_error {W : Type} (cmdMap : List (Int × List Value)) (order : List Int) :
    ∀ (s : Sys W) (resMap : List (String × Value)) (j : Nat), s.p.flushed = true →
      s.p.recvPos + 1 = j → j + order.length = s.p.cmds.length →
      (mgetRecv cmdMap order s resMap).2.2 =
        ((s.p.cmds.drop j).find? (fun cm => cm.reply_err.isSome)).bind (fun cm => cm.reply_err) := by
  induction order with
  | nil =>
    intro s resMap j _ _ hlen
    have : s.p.cmds.length ≤ j := by simp at hlen; omega
    simp [mgetRecv, List.drop_eq_nil_of_le this]
  | cons slot rest ih =>
    intro s resMap j hf hpos hlen
    have hj : j < s.p.cmds.length := by simp at hlen; omega
    have hr := Receive_at s hf j hpos hj
    obtain ⟨r1, r2, r3, -⟩ := receiveN_spec 1 s hf (by omega)
    simp only [receiveN] at r1 r2 r3
    have hd : s.p.cmds.drop j = s.p.cmds[j] :: s.p.cmds.drop (j + 1) :=
      List.drop_eq_getElem_cons hj
    have hg : s.p.cmds.getD j default = s.p.cmds[j] := by
      simp [List.getD_eq_getElem?_getD, List.getElem?_eq_getElem hj]
    rw [hg] at hr
    simp only [mgetRecv]
    cases he : s.p.cmds[j].reply_err with
    | some e =>
      have : (Receive s).2.2 = some e := by rw [hr]; exact he
      simp only [this]
      rw [hd]
      simp only [List.find?_cons, he, Option.isSome_some]
      exact he.symm
    | none =>
      have : (Receive s).2.2 = none := by rw [hr]; exact he
      simp only [this]
      rw [ih _ _ (j + 1) r3 (by rw [r1]; omega) (by rw [r2]; simp at hlen ⊢; omega), r2, hd]
      simp only [List.find?_cons, he, Option.isSome_none]

theorem mgetSent_eq {W : Type} (env : Env W) (w : W) (args : List Value) :
    mgetSent env w args =
      (sendAll ((env.rangeSlots w (mapKeys (mgetGroup env args [] []).2)).map
          (fun slot => (env.CMDMGET, (mapGet (mgetGroup env args [] []).2 slot).getD [])))
        (GetPipelinerConn w),
       env.rangeSlots w (mapKeys (mgetGroup env args [] []).2), none) := by
  simp [mgetSent, sendSlots_eq]

/-- The flushed session of `multiget`: one descriptor per slot in `range` order, each with
the get-command and the keys of its slot; the cursor is at its start. -/
theorem mget_flushed {W : Type} (env : Env W) (w : W) (args : List Value)
    (hok : (Flush env (mgetSent env w args).1).2 = none) :
    (Flush env (mgetSent env w args).1).1.p.flushed = true ∧
    (Flush env (mgetSent env w args).1).1.p.recvPos = -1 ∧
    (Flush env (mgetSent env w args).1).1.p.cmds.map (fun cm => (cm.commandName, cm.args)) =
      (mgetSent env w args).2.1.map
        (fun slot => (env.CMDMGET, (mapGet (mgetGroup env args [] []).2 slot).getD [])) := by
  obtain ⟨h1, h2, h3⟩ := Flush_ok_frame env _ hok
  refine ⟨h1, ?_, ?_⟩
  · rw [h2, mgetSent_eq]
    simp only
    rw [(sendAll_p _ _).2.1]
    rfl
  · rw [h3, mgetSent_eq]
    simp only
    rw [(sendAll_p _ _).1]
    simp [GetPipelinerConn, newPipeliner]

/-- C3, as stated, fails: with keys `a` (slot 1, answered) and `c` (slot 2, answered by an
error) the flush succeeds and `multiget` returns a nil result with that error. -/
theorem multiget_error_not_downgraded :
    (Flush demoEnv (mgetSent demoEnv mgetErrScript [Value.str "a", Value.str "c"]).1).2 = none ∧
    (Flush demoEnv (mgetSent demoEnv mgetErrScript
      [Value.str "a", Value.str "c"]).1).1.p.cmds.map (fun cm => cm.reply_err) =
        [none, some "ERR unavailable"] ∧
    (multiget demoEnv mgetErrScript [Value.str "a", Value.str "c"]).reply = Value.nil ∧
    (multiget demoEnv mgetErrScript [Value.str "a", Value.str "c"]).err =
      some "ERR unavailable" :=
  ⟨rfl, rfl, rfl, rfl⟩

/-- C3, amended. Get-many propagates a per-slot error: when the flush succeeds and some
grouped get-command ends with an error, `multiget` returns a nil result together with the
error of the first such command in send order. -/
theorem multiget_slot_error {W : Type} (env : Env W) (w : W) (args : List Value)
    (hne : args ≠ [])
    (hok : (Flush env (mgetSent env w args).1).2 = none) (cm : cmd)
    (hfind : (Flush env (mgetSent env w args).1).1.p.cmds.find?
      (fun cm => cm.reply_err.isSome) = some cm) :
    (multiget env w args).reply = Value.nil ∧ (multiget env w args).err = cm.reply_err ∧
    cm.reply_err ≠ none := by
  obtain ⟨hf, hpos, hsig⟩ := mget_flushed env w args hok
  have hlen : 0 + (mgetSent env w args).2.1.length =
      (Flush env (mgetSent env w args).1).1.p.cmds.length := by
    have := congrArg List.length hsig
    simp at this
    omega
  have herr := mgetRecv_error (mgetGroup env args [] []).2 (mgetSent env w args).2.1
    (Flush env (mgetSent env w args).1).1 [] 0 hf (by rw [hpos]; rfl) hlen
  rw [List.drop_zero, hfind] at herr
  simp only [Option.bind] at herr
  have hsome : cm.reply_err.isSome = true := by
    have := List.find?_some hfind
    simpa using this
  obtain ⟨e, he⟩ := Option.isSome_iff_exists.mp hsome
  have hl : ¬ args.length ≤ 0 := by
    cases args with
    | nil => exact absurd rfl hne
    | cons a rest => simp
  have hs : (mgetSent env w args).2.2 = none := by rw [mgetSent_eq]
  rw [he] at herr
  refine ⟨?_, ?_, ?_⟩
  · simp only [multiget, hl, if_false, hs, hok, herr]
    rfl
  · simp only [multiget, hl, if_false, hs, hok, herr]
    rw [he]; rfl
  · rw [he]; simp

/-- An instance of the propagated error: keys `a` and `c`, slot 2 answering an error. -/
theorem multiget_slot_error_witness :
    [Value.str "a", Value.str "c"] ≠ [] ∧
    (Flush demoEnv (mgetSent demoEnv mgetErrScript [Value.str "a", Value.str "c"]).1).2 = none ∧
    (Flush demoEnv (mgetSent demoEnv mgetErrScript
      [Value.str "a", Value.str "c"]).1).1.p.cmds.find? (fun cm => cm.reply_err.isSome) =
      some ⟨"MGET", [Value.str "c"], Value.nil, some "ERR unavailable", 2, "n2", none⟩ ∧
    (multiget demoEnv mgetErrScript [Value.str "a", Value.str "c"]).reply = Value.nil ∧
    (multiget demoEnv mgetErrScript [Value.str "a", Value.str "c"]).err =
      some "ERR unavailable" ∧
    some "ERR unavailable" ≠ (none : Option String) :=
  ⟨List.cons_ne_nil _ _, rfl, rfl,
   multiget_slot_error demoEnv mgetErrScript [Value.str "a", Value.str "c"]
     (List.cons_ne_nil _ _) rfl
     ⟨"MGET", [Value.str "c"], Value.nil, some "ERR unavailable", 2, "n2", none⟩ rfl⟩

theorem mgetGroup_cons {W : Type} (env : Env W) (arg : Value) (rest : List Value)
    (keys0 : List String) (m0 : List (Int × List Value)) :
    mgetGroup env (arg :: rest) keys0 m0 =
      mgetGroup env rest (keys0 ++ [sprintS arg])
        (mapSet m0 (env.Slot (sprintS arg))
          ((mapGet m0 (env.Slot (sprintS arg))).getD [] ++ [Value.str (sprintS arg)])) := by
  simp only [mgetGroup]
  split <;> rename_i h <;> simp [h]

theorem mgetGroup_spec {W : Type} (env : Env W) (ks : List String) :
    ∀ (keys0 : List String) (m0 : List (Int × List Value)),
      (mgetGroup env (ks.map Value.str) keys0 m0).1 = keys0 ++ ks ∧
      (∀ slot, mapGet (mgetGroup env (ks.map Value.str) keys0 m0).2 slot =
        if ks.filter (fun k => env.Slot k = slot) = [] then mapGet m0 slot
        else some ((mapGet m0 slot).getD [] ++
          (ks.filter (fun k => env.Slot k = slot)).map Value.str)) ∧
      ((mapKeys m0).Nodup → (mapKeys (mgetGroup env (ks.map Value.str) keys0 m0).2).Nodup) := by
  induction ks with
  | nil => intro keys0 m0; simp [mgetGroup]
  | cons k rest ih =>
    intro keys0 m0
    rw [List.map_cons, mgetGroup_cons]
    obtain ⟨h1, h2, h3⟩ := ih (keys0 ++ [sprintS (Value.str k)])
      (mapSet m0 (env.Slot (sprintS (Value.str k)))
        ((mapGet m0 (env.Slot (sprintS (Value.str k)))).getD [] ++
          [Value.str (sprintS (Value.str k))]))
    simp only [sprintS] at h1 h2 h3 ⊢
    refine ⟨by rw [h1]; simp, fun slot => ?_, fun hnd => h3 (mapKeys_mapSet_nodup _ _ _ hnd)⟩
    rw [h2 slot, mapGet_mapSet]
    by_cases hs : env.Slot k = slot
    · subst hs
      by_cases hr : List.filter (fun k' => decide (env.Slot k' = env.Slot k)) rest = []
      · simp [hr, List.filter_cons]
      · simp [hr, List.filter_cons]
    · have hs2 : ¬ slot = env.Slot k := fun e => hs e.symm
      simp [hs, hs2, List.filter_cons]

theorem fillSlot_get (valid : Bool) (vs : List Value) (group : List Value) :
    ∀ (i : Nat) (m : List (String × Value)) (k : String),
      mapGet (fillSlot valid vs group i m) k =
        if k ∈ group.map sprintS then
          some (if valid then vs.getD (i + lastPos k (group.map sprintS)) Value.nil
                else Value.nil)
        else mapGet m k := by
  induction group with
  | nil => intro i m k; simp [fillSlot]
  | cons g rest ih =>
    intro i m k
    simp only [fillSlot, List.map_cons, lastPos]
    rw [ih, mapGet_mapSet]
    by_cases hr : k ∈ rest.map sprintS
    · have : i + 1 + lastPos k (rest.map sprintS) = i + (lastPos k (rest.map sprintS) + 1) := by
        omega
      simp only [hr, if_true, List.mem_cons, or_true, this]
    · by_cases hk : k = sprintS g
      · subst hk
        simp only [hr, if_false, List.mem_cons, true_or, if_true, Nat.add_zero]
      · simp only [hr, hk, if_false, List.mem_cons, or_self]

theorem validReply_slotValue (group : List Value) (reply : Value) (k : String) :
    (if ((asSlice reply).isSome &&
          decide (group.length = ((asSlice reply).getD []).length)) = true then
        ((asSlice reply).getD []).getD (0 + lastPos k (group.map sprintS)) Value.nil
      else Value.nil) = slotValue (group.map sprintS) reply k := by
  unfold slotValue
  cases h : asSlice reply with
  | none => simp
  | some vs => simp

theorem mgetRecv_ok {W : Type} (env : Env W) (cmdMap : List (Int × List Value))
    (hcons : ∀ slot g, g ∈ (mapGet cmdMap slot).getD [] → env.Slot (sprintS g) = slot)
    (order : List Int) :
    ∀ (s : Sys W) (resMap : List (String × Value)) (j : Nat), order.Nodup →
      s.p.flushed = true → s.p.recvPos + 1 = j → j + order.length = s.p.cmds.length →
      (∀ cm ∈ s.p.cmds, cm.reply_err = none) →
      ∀ k, mapGet (mgetRecv cmdMap order s resMap).2.1 k =
        if env.Slot k ∈ order ∧ k ∈ ((mapGet cmdMap (env.Slot k)).getD []).map sprintS then
          some (slotValue (((mapGet cmdMap (env.Slot k)).getD []).map sprintS)
            (s.p.cmds.getD (j + order.indexOf (env.Slot k)) default).reply k)
        else mapGet resMap k := by
  induction order with
  | nil => intro s resMap j _ _ _ _ _ k; simp [mgetRecv]
  | cons slot rest ih =>
    intro s resMap j hnd hf hpos hlen hnoerr k
    have hj : j < s.p.cmds.length := by simp at hlen; omega
    have hr := Receive_at s hf j hpos hj
    obtain ⟨r1, r2, r3, -⟩ := receiveN_spec 1 s hf (by omega)
    simp only [receiveN] at r1 r2 r3
    have hg : s.p.cmds.getD j default = s.p.cmds[j] := by
      simp [List.getD_eq_getElem?_getD, List.getElem?_eq_getElem hj]
    have he : (Receive s).2.2 = none := by
      rw [hr, hg]; exact hnoerr _ (List.getElem_mem hj)
    have hrep : (Receive s).2.1 = (s.p.cmds.getD j default).reply := by rw [hr]
    obtain ⟨hnotin, hnd2⟩ := List.nodup_cons.mp hnd
    simp only [mgetRecv, he]
    rw [ih _ _ (j + 1) hnd2 r3 (by rw [r1]; omega) (by rw [r2]; simp at hlen ⊢; omega)
      (by rw [r2]; exact hnoerr) k, fillSlot_get, r2, hrep, validReply_slotValue]
    by_cases hs : env.Slot k = slot
    · subst hs
      simp only [hnotin, false_and, if_false, List.mem_cons, true_or, true_and,
        List.indexOf_cons_self, Nat.add_zero]
    · have h2 : k ∉ ((mapGet cmdMap slot).getD []).map sprintS := by
        intro hm
        obtain ⟨g, hg1, hg2⟩ := List.mem_map.mp hm
        exact hs (by rw [← hg2]; exact hcons slot g hg1)
      have h3 : List.indexOf (env.Slot k) (slot :: rest) = List.indexOf (env.Slot k) rest + 1 :=
        List.indexOf_cons_ne _ (fun e => hs e.symm)
      have h4 : j + 1 + List.indexOf (env.Slot k) rest =
          j + (List.indexOf (env.Slot k) rest + 1) := by omega
      simp only [h2, if_false, List.mem_cons, hs, false_or, h3, h4]

theorem demoEnv_fair : demoEnv.FairRange :=
  ⟨fun _ l => List.reverse_perm l, fun _ l => List.Perm.refl l⟩

/-- The map built by `multiget` for string keys: under every slot the keys of that slot,
in the order given; its key set has no repetition. -/
theorem mget_cmdMap {W : Type} (env : Env W) (keys : List String) :
    (mgetGroup env (keys.map Value.str) [] []).1 = keys ∧
    (∀ slot, (mapGet (mgetGroup env (keys.map Value.str) [] []).2 slot).getD [] =
      (keys.filter (fun k => env.Slot k = slot)).map Value.str) ∧
    (mapKeys (mgetGroup env (keys.map Value.str) [] []).2).Nodup ∧
    (∀ slot, slot ∈ mapKeys (mgetGroup env (keys.map Value.str) [] []).2 ↔
      ∃ k ∈ keys, env.Slot k = slot) := by
  obtain ⟨h1, h2, h3⟩ := mgetGroup_spec env keys [] []
  refine ⟨by simpa using h1, fun slot => ?_, h3 (by simp [mapKeys]), fun slot => ?_⟩
  · rw [h2 slot]
    by_cases hf : List.filter (fun k => decide (env.Slot k = slot)) keys = []
    · simp [hf, mapGet]
    · simp [hf, mapGet]
  · have := mapGet_eq_none (mgetGroup env (keys.map Value.str) [] []).2 slot
    rw [h2 slot] at this
    by_cases hf : List.filter (fun k => decide (env.Slot k = slot)) keys = []
    · simp only [hf, if_true, mapGet, true_iff] at this
      rw [List.filter_eq_nil_iff] at hf
      constructor
      · intro hm; exact absurd hm this
      · rintro ⟨k, hk, hs⟩
        exact absurd (by simpa using hs) (hf k hk)
    · simp only [hf, if_false, reduceCtorEq, false_iff, not_not] at this
      refine ⟨fun _ => ?_, fun _ => this⟩
      rw [List.filter_eq_nil_iff] at hf
      push_neg at hf
      obtain ⟨k, hk, hs⟩ := hf
      exact ⟨k, hk, by simpa using hs⟩

/-- C4. Get-many reassembly: for a non-empty list of string keys and any order of `range`
over the slot groups, when the flush succeeds and no grouped command ends with an error,
`multiget` returns without error the sequence that has, at the position of each key, the
value `slotValue` of that key: the positional value in the reply to the command of the key's
slot when that reply is a sequence as long as the slot's key list, the absent marker
otherwise. The element is a function of the key, so equal keys get equal elements. The
commands are one per slot, in `range` order, each carrying the keys of its slot. -/
theorem multiget_reassembly {W : Type} (env : Env W) (hfair : env.FairRange) (w : W)
    (keys : List String) (hne : keys ≠ [])
    (hok : (Flush env (mgetSent env w (keys.map Value.str)).1).2 = none)
    (hnoerr : ∀ cm ∈ (Flush env (mgetSent env w (keys.map Value.str)).1).1.p.cmds,
      cm.reply_err = none) :
    (multiget env w (keys.map Value.str)).err = none ∧
    (multiget env w (keys.map Value.str)).reply =
      Value.slice (keys.map (fun k =>
        slotValue (keys.filter (fun k1 => env.Slot k1 = env.Slot k))
          ((Flush env (mgetSent env w (keys.map Value.str)).1).1.p.cmds.getD
            ((mgetSent env w (keys.map Value.str)).2.1.indexOf (env.Slot k)) default).reply k)) ∧
    (Flush env (mgetSent env w (keys.map Value.str)).1).1.p.cmds.map
        (fun cm => (cm.commandName, cm.args)) =
      (mgetSent env w (keys.map Value.str)).2.1.map
        (fun slot => (env.CMDMGET, (keys.filter (fun k1 => env.Slot k1 = slot)).map Value.str)) ∧
    (mgetSent env w (keys.map Value.str)).2.1.Nodup ∧
    (∀ slot, slot ∈ (mgetSent env w (keys.map Value.str)).2.1 ↔ ∃ k ∈ keys, env.Slot k = slot) := by
  obtain ⟨hk, hget, hnd, hmem⟩ := mget_cmdMap env keys
  obtain ⟨hf, hpos, hsig⟩ := mget_flushed env w _ hok
  have hperm : ((mgetSent env w (keys.map Value.str)).2.1).Perm
      (mapKeys (mgetGroup env (keys.map Value.str) [] []).2) := by
    rw [mgetSent_eq]; exact hfair.2 _ _
  have hond := hperm.nodup_iff.mpr hnd
  have homem : ∀ slot, slot ∈ (mgetSent env w (keys.map Value.str)).2.1 ↔
      ∃ k ∈ keys, env.Slot k = slot := fun slot => (hperm.mem_iff).trans (hmem slot)
  have hlen : 0 + (mgetSent env w (keys.map Value.str)).2.1.length =
      (Flush env (mgetSent env w (keys.map Value.str)).1).1.p.cmds.length := by
    have := congrArg List.length hsig
    simp at this
    omega
  have herr := mgetRecv_error (mgetGroup env (keys.map Value.str) [] []).2
    (mgetSent env w (keys.map Value.str)).2.1
    (Flush env (mgetSent env w (keys.map Value.str)).1).1 [] 0 hf (by rw [hpos]; rfl) hlen
  have hnone : List.find? (fun cm => cm.reply_err.isSome)
      (Flush env (mgetSent env w (keys.map Value.str)).1).1.p.cmds = none := by
    rw [List.find?_eq_none]
    intro cm hcm
    simp [hnoerr cm hcm]
  rw [List.drop_zero, hnone] at herr
  simp only [Option.bind] at herr
  have hcons : ∀ slot g, g ∈ (mapGet (mgetGroup env (keys.map Value.str) [] []).2 slot).getD [] →
      env.Slot (sprintS g) = slot := by
    intro slot g hg
    rw [hget slot] at hg
    obtain ⟨k, hk1, hk2⟩ := List.mem_map.mp hg
    rw [← hk2]
    simpa [sprintS] using (List.mem_filter.mp hk1).2
  have hres := mgetRecv_ok env _ hcons (mgetSent env w (keys.map Value.str)).2.1
    (Flush env (mgetSent env w (keys.map Value.str)).1).1 [] 0 hond hf (by rw [hpos]; rfl)
    hlen hnoerr
  have hl : ¬ (keys.map Value.str).length ≤ 0 := by
    cases keys with
    | nil => exact absurd rfl hne
    | cons a rest => simp
  have hs : (mgetSent env w (keys.map Value.str)).2.2 = none := by rw [mgetSent_eq]
  have hgm : ∀ slot, ((mapGet (mgetGroup env (keys.map Value.str) [] []).2 slot).getD []).map
      sprintS = keys.filter (fun k => env.Slot k = slot) := by
    intro slot
    rw [hget slot, List.map_map]
    have : (sprintS ∘ Value.str) = id := by funext x; simp [sprintS]
    rw [this, List.map_id]
  refine ⟨?_, ?_, ?_, hond, homem⟩
  · simp only [multiget, hl, if_false, hs, hok, herr]
    rfl
  · simp only [multiget, hl, if_false, hs, hok, herr, closeAndReturn, hk]
    congr 1
    apply List.map_congr_left
    intro k hkm
    rw [hres k, hgm]
    have h1 : env.Slot k ∈ (mgetSent env w (keys.map Value.str)).2.1 :=
      (homem _).mpr ⟨k, hkm, rfl⟩
    have h2 : k ∈ keys.filter (fun k1 => env.Slot k1 = env.Slot k) := by
      simp [List.mem_filter, hkm]
    simp only [h1, h2, and_self, if_true, Option.getD_some, Nat.zero_add]
  · rw [hsig]
    apply List.map_congr_left
    intro slot _
    rw [hget slot]

/-- An instance of the reassembly: keys `a`, `b` (slot 1, answered `1, 2`) and `c` (slot 2,
answered by a non-sequence) give `1, 2, absent`. -/
theorem multiget_reassembly_witness :
    demoEnv.FairRange ∧ ["a", "b", "c"] ≠ [] ∧
    (Flush demoEnv (mgetSent demoEnv mgetScript (["a", "b", "c"].map Value.str)).1).2 = none ∧
    (Flush demoEnv (mgetSent demoEnv mgetScript (["a", "b", "c"].map Value.str)).1).1.p.cmds.map
      (fun cm => cm.reply_err) = [none, none] ∧
    (multiget demoEnv mgetScript (["a", "b", "c"].map Value.str)).err = none ∧
    (multiget demoEnv mgetScript (["a", "b", "c"].map Value.str)).reply =
      Value.slice [Value.int 1, Value.int 2, Value.nil] :=
  ⟨demoEnv_fair, by decide, rfl, rfl,
   (multiget_reassembly demoEnv demoEnv_fair mgetScript ["a", "b", "c"] (by decide) rfl
      (fun cm hcm => by
        have h : (Flush demoEnv (mgetSent demoEnv mgetScript
            (["a", "b", "c"].map Value.str)).1).1.p.cmds =
            [⟨"MGET", [Value.str "a", Value.str "b"],
                Value.slice [Value.int 1, Value.int 2], none, 1, "n1", none⟩,
             ⟨"MGET", [Value.str "c"], Value.str "oops", none, 2, "n2", none⟩] := rfl
        rw [h] at hcm
        simp only [List.mem_cons, List.mem_singleton, List.not_mem_nil, or_false] at hcm
        rcases hcm with h1 | h1 <;> rw [h1])).1,
   (multiget_reassembly demoEnv demoEnv_fair mgetScript ["a", "b", "c"] (by decide) rfl
      (fun cm hcm => by
        have h : (Flush demoEnv (mgetSent demoEnv mgetScript
            (["a", "b", "c"].map Value.str)).1).1.p.cmds =
            [⟨"MGET", [Value.str "a", Value.str "b"],
                Value.slice [Value.int 1, Value.int 2], none, 1, "n1", none⟩,
             ⟨"MGET", [Value.str "c"], Value.str "oops", none, 2, "n2", none⟩] := rfl
        rw [h] at hcm
        simp only [List.mem_cons, List.mem_singleton, List.not_mem_nil, or_false] at hcm
        rcases hcm with h1 | h1 <;> rw [h1])).2.1.trans rfl⟩

/-! ## The two passes of a flush -/

theorem sendCount_append (i : Nat) (l1 l2 : List Event) :
    sendCount i (l1 ++ l2) = sendCount i l1 + sendCount i l2 := by
  simp [sendCount, List.countP_append]

theorem recvsOf_append (i : Nat) (l1 l2 : List Event) :
    recvsOf i (l1 ++ l2) = recvsOf i l1 ++ recvsOf i l2 := by
  simp [recvsOf, List.filterMap_append]

theorem logSince_append {W : Type} (s0 s1 : Sys W) (evs : List Event)
    (h : s1.log = s0.log ++ evs) : logSince s0 s1 = evs := by
  simp [logSince, h]

theorem Ran_refl {W : Type} (env : Env W) (s : Sys W) : Ran env [] s s :=
  ⟨[], by simp, fun i => by simp [recvsOf], fun i => by simp [sendCount],
    fun i => by simp [recvsOf], fun i h => absurd (by simp [recvsOf]) h⟩

theorem Ran_trans {W : Type} {env : Env W} {L1 L2 : List Nat} {s s1 s2 : Sys W}
    (h1 : Ran env L1 s s1) (h2 : Ran env L2 s1 s2) : Ran env (L1 ++ L2) s s2 := by
  obtain ⟨e1, a1, a2, a3, a4, a5⟩ := h1
  obtain ⟨e2, b1, b2, b3, b4, b5⟩ := h2
  refine ⟨e1 ++ e2, by rw [b1, a1, List.append_assoc], fun i => ?_, fun i => ?_, fun i => ?_,
    fun i h => ?_⟩
  · rw [b2 i, a2 i, recvsOf_append, Option.map_map]
    congr 1
    funext cm
    simp [List.foldl_append]
  · rw [sendCount_append, List.count_append]
    exact Nat.add_le_add (a3 i) (b3 i)
  · rw [recvsOf_append, List.length_append, List.count_append]
    exact Nat.add_le_add (a4 i) (b4 i)
  · rw [sendCount_append]
    rw [recvsOf_append] at h
    by_cases hh : recvsOf i e1 = []
    · have : recvsOf i e2 ≠ [] := by
        intro h0; apply h; rw [hh, h0]; rfl
      have := b5 i this
      omega
    · have := a5 i hh
      omega

theorem sendLoop_log {W : Type} (env : Env W) (c : Conn) (l : List Nat) :
    ∀ s : Sys W, ∃ evs, (sendLoop env c l s).1.log = s.log ++ evs ∧
      (∀ i, sendCount i evs ≤ l.count i) ∧ (∀ i, recvsOf i evs = []) ∧
      ((sendLoop env c l s).2 = none → ∀ i, sendCount i evs = l.count i) := by
  induction l with
  | nil => intro s; exact ⟨[], by simp [sendLoop], by simp [sendCount], by simp [recvsOf],
      fun _ i => by simp [sendCount]⟩
  | cons j rest ih =>
    intro s
    have hone : ∀ i, sendCount i [Event.send c j] = if j = i then 1 else 0 := by
      intro i; by_cases h : j = i <;> simp [sendCount, h]
    have hcnt : ∀ i, List.count i (j :: rest) = (if j = i then 1 else 0) + List.count i rest := by
      intro i
      rw [List.count_cons]
      by_cases h : j = i
      · simp [h]; omega
      · simp [h]
    simp only [sendLoop]
    split
    · refine ⟨[Event.send c j], rfl, fun i => ?_, fun i => by simp [recvsOf], fun h => ?_⟩
      · rw [hone, hcnt]; omega
      · simp at h
    · obtain ⟨evs, h1, h2, h3, h4⟩ := ih
        { s with w := (env.connSend s.w c (s.p.cmds.getD j default).commandName
                        (s.p.cmds.getD j default).args).2,
                 log := s.log ++ [Event.send c j] }
      refine ⟨[Event.send c j] ++ evs, by rw [h1]; simp, fun i => ?_, fun i => ?_, fun h i => ?_⟩
      · rw [sendCount_append, hone, hcnt]; have := h2 i; omega
      · rw [recvsOf_append, h3]; simp [recvsOf]
      · rw [sendCount_append, hone, hcnt, h4 h i]

theorem recvOne_spec {W : Type} (env : Env W) (c : Conn) (i : Nat) (s : Sys W) :
    (recvOne env c i s).p.batches = s.p.batches ∧
    ∃ evs, (recvOne env c i s).log = s.log ++ evs ∧
      (∀ j, sendCount j evs = 0) ∧
      (∀ j, recvsOf j evs = if i = j then [(env.connReceive s.w c).1] else []) ∧
      (∀ j, (recvOne env c i s).p.cmds[j]? =
        if j = i then (s.p.cmds[j]?).map (fun cm => applyRecv env cm (env.connReceive s.w c).1)
        else s.p.cmds[j]?) := by
  have hr : ∀ (rest : List Event) (j : Nat), (∀ k, recvsOf k rest = []) →
      recvsOf j (Event.receive c i (env.connReceive s.w c).1.1 (env.connReceive s.w c).1.2
        :: rest) = if i = j then [(env.connReceive s.w c).1] else [] := by
    intro rest j hrest
    have := hrest j
    simp only [recvsOf] at this ⊢
    by_cases h : i = j
    · simp [List.filterMap_cons, h, this]
    · simp [List.filterMap_cons, h, this]
  unfold recvOne
  simp only
  cases he : (env.connReceive s.w c).1.2 with
  | none =>
    refine ⟨rfl, [Event.receive c i (env.connReceive s.w c).1.1 none], rfl,
      fun j => by simp [sendCount], fun j => ?_, fun j => ?_⟩
    · have := hr [] j (fun k => by simp [recvsOf]); rw [he] at this; exact this
    · simp only [setAt_getElem?]
      by_cases h : j = i
      · simp only [h, if_true]
        congr 1; funext cm; simp [applyRecv, he]
      · simp [h]
  | some e =>
    dsimp only
    cases hp : env.ParseRedir e with
    | none =>
      dsimp only
      refine ⟨rfl, [Event.receive c i (env.connReceive s.w c).1.1 (some e)], rfl,
        fun j => by simp [sendCount], fun j => ?_, fun j => ?_⟩
      · have := hr [] j (fun k => by simp [recvsOf]); rw [he] at this; exact this
      · simp only [setAt_getElem?]
        by_cases h : j = i
        · simp only [h, if_true]
          congr 1; funext cm; simp [applyRecv, he, hp]
        · simp [h]
    | some rd =>
      dsimp only
      have hc : ∀ j, (setAt (setAt s.p.cmds i (fun cm => { cm with
            reply := (env.connReceive s.w c).1.1, reply_err := some e })) i
            (fun cm => { cm with re := some rd }))[j]? =
          if j = i then (s.p.cmds[j]?).map
            (fun cm => applyRecv env cm (env.connReceive s.w c).1) else s.p.cmds[j]? := by
        intro j
        simp only [setAt_getElem?]
        by_cases h : j = i
        · simp only [h, if_true, Option.map_map]
          congr 1; funext cm; simp [applyRecv, he, hp]
        · simp [h]
      by_cases hm : rd.Typ = "MOVED"
      · simp only [hm, if_true]
        refine ⟨trivial, [Event.receive c i (env.connReceive s.w c).1.1 (some e),
          Event.needsRefresh rd], by simp, fun j => by simp [sendCount], fun j => ?_, hc⟩
        have := hr [Event.needsRefresh rd] j (fun k => by simp [recvsOf])
        rw [he] at this; exact this
      · simp only [hm, if_false]
        refine ⟨trivial, [Event.receive c i (env.connReceive s.w c).1.1 (some e)], rfl,
          fun j => by simp [sendCount], fun j => ?_, hc⟩
        have := hr [] j (fun k => by simp [recvsOf]); rw [he] at this; exact this

theorem recvLoop_spec {W : Type} (env : Env W) (c : Conn) (l : List Nat) :
    ∀ s : Sys W, (recvLoop env c l s).p.batches = s.p.batches ∧
      ∃ evs, (recvLoop env c l s).log = s.log ++ evs ∧
        (∀ j, sendCount j evs = 0) ∧
        (∀ j, (recvsOf j evs).length = l.count j) ∧
        (∀ j, (recvLoop env c l s).p.cmds[j]? =
          (s.p.cmds[j]?).map (fun cm => (recvsOf j evs).foldl (applyRecv env) cm)) := by
  induction l with
  | nil =>
    intro s
    exact ⟨rfl, [], by simp [recvLoop], by simp [sendCount], by simp [recvsOf],
      fun j => by simp [recvLoop, recvsOf]⟩
  | cons i rest ih =>
    intro s
    obtain ⟨hb1, e1, a1, a2, a3, a4⟩ := recvOne_spec env c i s
    obtain ⟨hb2, e2, b1, b2, b3, b4⟩ := ih (recvOne env c i s)
    simp only [recvLoop]
    refine ⟨hb2.trans hb1, e1 ++ e2, by rw [b1, a1, List.append_assoc], fun j => ?_,
      fun j => ?_, fun j => ?_⟩
    · rw [sendCount_append, a2, b2]
    · rw [recvsOf_append, List.length_append, a3, b3, List.count_cons]
      by_cases h : i = j
      · simp [h]; omega
      · simp [h]
    · rw [b4 j, a4 j, recvsOf_append, a3]
      by_cases h : i = j
      · subst h
        simp only [if_true, Option.map_map]
        congr 1
      · have h2 : ¬ j = i := fun e => h e.symm
        simp [h, h2]

theorem run_body {W : Type} (env : Env W) (bt : batch) (s : Sys W) :
    Ran env bt.cmds s
      (match bt.conn with
        | none => (bt, s, some "GetConnForAddr failed")
        | some c =>
          match (sendLoop env c bt.cmds s).2 with
          | some e => (bt, (sendLoop env c bt.cmds s).1, some e)
          | none =>
            match (env.connFlush (sendLoop env c bt.cmds s).1.w c).1 with
            | some e =>
              (bt, { (sendLoop env c bt.cmds s).1 with
                      w := (env.connFlush (sendLoop env c bt.cmds s).1.w c).2,
                      log := (sendLoop env c bt.cmds s).1.log ++ [Event.flush c] }, some e)
            | none =>
              (bt, recvLoop env c bt.cmds
                { (sendLoop env c bt.cmds s).1 with
                    w := (env.connFlush (sendLoop env c bt.cmds s).1.w c).2,
                    log := (sendLoop env c bt.cmds s).1.log ++ [Event.flush c] }, none)).2.1 ∧
    (match bt.conn with
        | none => (bt, s, some "GetConnForAddr failed")
        | some c =>
          match (sendLoop env c bt.cmds s).2 with
          | some e => (bt, (sendLoop env c bt.cmds s).1, some e)
          | none =>
            match (env.connFlush (sendLoop env c bt.cmds s).1.w c).1 with
            | some e =>
              (bt, { (sendLoop env c bt.cmds s).1 with
                      w := (env.connFlush (sendLoop env c bt.cmds s).1.w c).2,
                      log := (sendLoop env c bt.cmds s).1.log ++ [Event.flush c] }, some e)
            | none =>
              (bt, recvLoop env c bt.cmds
                { (sendLoop env c bt.cmds s).1 with
                    w := (env.connFlush (sendLoop env c bt.cmds s).1.w c).2,
                    log := (sendLoop env c bt.cmds s).1.log ++ [Event.flush c] }, none)).2.1.p.batches
      = s.p.batches := by
  cases hc : bt.conn with
  | none => exact ⟨by simpa using Ran_refl env s |>.imp (fun evs h => ⟨h.1, h.2.1, fun i => by
      have := h.2.2.1 i; simp at this; simp [this], fun i => by
      have := h.2.2.2.1 i; simp at this; simp [this], h.2.2.2.2⟩), rfl⟩
  | some c =>
    dsimp only
    obtain ⟨e1, a1, a2, a3, a4⟩ := sendLoop_log env c bt.cmds s
    have hp := sendLoop_p env c bt.cmds s
    have hnil : ∀ i, (recvsOf i e1).foldl (applyRecv env) = fun cm => cm := by
      intro i; rw [a3 i]; rfl
    cases hs : (sendLoop env c bt.cmds s).2 with
    | some e =>
      dsimp only
      refine ⟨⟨e1, a1, fun i => by rw [hp, a3 i]; simp, a2, fun i => by rw [a3 i]; simp,
        fun i h => absurd (a3 i) h⟩, by rw [hp]⟩
    | none =>
      dsimp only
      have a5 := a4 hs
      have hflr : ∀ i, recvsOf i [Event.flush c] = [] := fun _ => rfl
      have hfls : ∀ i, sendCount i [Event.flush c] = 0 := fun _ => rfl
      cases hfl : (env.connFlush (sendLoop env c bt.cmds s).1.w c).1 with
      | some e =>
        dsimp only
        refine ⟨⟨e1 ++ [Event.flush c], by simp [a1], fun i => ?_, fun i => ?_, fun i => ?_,
          fun i h => ?_⟩, by simp [hp]⟩
        · rw [recvsOf_append, a3 i, hflr i]; simp [hp]
        · rw [sendCount_append, a5 i, hfls i]; simp
        · rw [recvsOf_append, a3 i, hflr i]; simp
        · exfalso; apply h; rw [recvsOf_append, a3 i, hflr i]; rfl
      | none =>
        dsimp only
        obtain ⟨hb, e2, b1, b2, b3, b4⟩ := recvLoop_spec env c bt.cmds
          { (sendLoop env c bt.cmds s).1 with
              w := (env.connFlush (sendLoop env c bt.cmds s).1.w c).2,
              log := (sendLoop env c bt.cmds s).1.log ++ [Event.flush c] }
        refine ⟨⟨e1 ++ [Event.flush c] ++ e2, by rw [b1]; simp [a1], fun i => ?_, fun i => ?_,
          fun i => ?_, fun i h => ?_⟩, by rw [hb]; simp [hp]⟩
        · rw [b4 i, recvsOf_append, recvsOf_append, a3 i, hflr i]
          simp [hp]
        · rw [sendCount_append, sendCount_append, a5 i, b2 i, hfls i]; simp
        · rw [recvsOf_append, recvsOf_append, a3 i, hflr i]
          simp only [List.nil_append]
          rw [b3 i]
        · rw [sendCount_append, sendCount_append, a5 i]
          rw [recvsOf_append, recvsOf_append, a3 i, hflr i] at h
          simp only [List.nil_append] at h
          have h3 : 0 < (recvsOf i e2).length := List.length_pos.mpr h
          rw [b3 i] at h3
          omega

theorem Ran_silent {W : Type} (env : Env W) (s s1 : Sys W) (evs : List Event)
    (hc : s1.p.cmds = s.p.cmds) (hl : s1.log = s.log ++ evs)
    (h1 : ∀ i, sendCount i evs = 0) (h2 : ∀ i, recvsOf i evs = []) : Ran env [] s s1 :=
  ⟨evs, hl, fun i => by rw [hc, h2 i]; simp, fun i => by rw [h1 i]; simp,
    fun i => by rw [h2 i]; simp, fun i h => absurd (h2 i) h⟩

theorem run_batch_cmds {W : Type} (env : Env W) (bt : batch) (s : Sys W) :
    (batch.run env bt s).1.cmds = bt.cmds ∧ (batch.run env bt s).1.addr = bt.addr := by
  unfold batch.run
  simp only
  split
  · split <;> exact ⟨rfl, rfl⟩
  · split
    · split <;> exact ⟨rfl, rfl⟩
    · split
      · split <;> exact ⟨rfl, rfl⟩
      · split <;> exact ⟨rfl, rfl⟩

theorem run_ran {W : Type} (env : Env W) (bt : batch) (s : Sys W) :
    Ran env bt.cmds s (batch.run env bt s).2.1 ∧
    (batch.run env bt s).2.1.p.batches = s.p.batches := by
  by_cases h : bt.conn = none ∧ 0 < bt.addr.length
  · have hb := run_body env { bt with conn := (env.GetConnForAddr s.w bt.addr s.p.forceDial
        s.p.readOnly).1 }
      { s with w := (env.GetConnForAddr s.w bt.addr s.p.forceDial s.p.readOnly).2,
               log := s.log ++ [Event.getConnForAddr bt.addr s.p.forceDial s.p.readOnly
                   (env.GetConnForAddr s.w bt.addr s.p.forceDial s.p.readOnly).1] }
    have h0 : Ran env [] s
        { s with w := (env.GetConnForAddr s.w bt.addr s.p.forceDial s.p.readOnly).2,
                 log := s.log ++ [Event.getConnForAddr bt.addr s.p.forceDial s.p.readOnly
                   (env.GetConnForAddr s.w bt.addr s.p.forceDial s.p.readOnly).1] } :=
      Ran_silent env _ _ [Event.getConnForAddr bt.addr s.p.forceDial s.p.readOnly
                   (env.GetConnForAddr s.w bt.addr s.p.forceDial s.p.readOnly).1] rfl rfl
        (fun _ => rfl) (fun _ => rfl)
    unfold batch.run
    simp only [h, and_self, if_true]
    exact ⟨Ran_trans h0 hb.1, hb.2⟩
  · have hb := run_body env bt s
    unfold batch.run
    simp only [h, if_false]
    exact hb

theorem members_mapSet (m : List (String × batch)) (k a : String) (bt : batch) :
    members (mapSet m k bt) a = if a = k then bt.cmds else members m a := by
  unfold members
  rw [mapGet_mapSet]
  by_cases h : a = k
  · simp [h]
  · simp [h]

theorem Ran_congr {W : Type} {env : Env W} {L : List Nat} {s s1 s2 : Sys W}
    (h : Ran env L s s1) (hl : s2.log = s1.log) (hc : s2.p.cmds = s1.p.cmds) : Ran env L s s2 := by
  obtain ⟨evs, a1, a2, a3, a4, a5⟩ := h
  exact ⟨evs, by rw [hl, a1], fun i => by rw [hc, a2 i], a3, a4, a5⟩

theorem runOne_ran {W : Type} (env : Env W) (s : Sys W) (k : String) :
    Ran env (members s.p.batches k) s (runOne env s k) ∧
    (∀ a, members (runOne env s k).p.batches a = members s.p.batches a) ∧
    ((mapKeys s.p.batches).Nodup → (mapKeys (runOne env s k).p.batches).Nodup) := by
  unfold runOne
  cases hg : mapGet s.p.batches k with
  | none =>
    have hm : members s.p.batches k = [] := by simp [members, hg]
    rw [hm]
    exact ⟨Ran_refl env s, fun _ => rfl, fun h => h⟩
  | some bt =>
    have hm : members s.p.batches k = bt.cmds := by simp [members, hg]
    rw [hm]
    dsimp only
    by_cases hl : 0 < bt.cmds.length
    · rw [if_pos hl]
      obtain ⟨h1, h2⟩ := run_ran env bt s
      refine ⟨Ran_congr h1 rfl rfl, fun a => ?_, fun hnd => ?_⟩
      · rw [members_mapSet, h2]
        by_cases ha : a = k
        · rw [if_pos ha, (run_batch_cmds env bt s).1, ha, hm]
        · rw [if_neg ha]
      · show (mapKeys (mapSet (batch.run env bt s).2.1.p.batches k (batch.run env bt s).1)).Nodup
        rw [h2]
        exact mapKeys_mapSet_nodup _ _ _ hnd
    · rw [if_neg hl]
      have : bt.cmds = [] := by
        cases hc : bt.cmds with
        | nil => rfl
        | cons x xs => rw [hc] at hl; simp at hl
      rw [this]
      exact ⟨Ran_refl env s, fun _ => rfl, fun h => h⟩

theorem foldl_runOne_ran {W : Type} (env : Env W) (order : List String) :
    ∀ s : Sys W,
      Ran env (order.flatMap (members s.p.batches)) s (order.foldl (runOne env) s) ∧
      (∀ a, members (order.foldl (runOne env) s).p.batches a = members s.p.batches a) ∧
      ((mapKeys s.p.batches).Nodup →
        (mapKeys (order.foldl (runOne env) s).p.batches).Nodup) := by
  induction order with
  | nil => intro s; exact ⟨Ran_refl env s, fun _ => rfl, fun h => h⟩
  | cons k rest ih =>
    intro s
    obtain ⟨a1, a2, a3⟩ := runOne_ran env s k
    obtain ⟨b1, b2, b3⟩ := ih (runOne env s k)
    have hf : members (runOne env s k).p.batches = members s.p.batches := funext a2
    rw [hf] at b1
    refine ⟨?_, fun a => (b2 a).trans (a2 a), fun h => b3 (a3 h)⟩
    simp only [List.flatMap_cons, List.foldl_cons]
    exact Ran_trans a1 b1

theorem runBatches_ran {W : Type} (env : Env W) (s : Sys W) :
    Ran env ((env.rangeBatches s.w (mapKeys s.p.batches)).flatMap (members s.p.batches)) s
      (runBatches env s) ∧
    (∀ a, members (runBatches env s).p.batches a = members s.p.batches a) ∧
    ((mapKeys s.p.batches).Nodup → (mapKeys (runBatches env s).p.batches).Nodup) := by
  unfold runBatches
  by_cases h : s.p.batches.length ≤ 0
  · rw [if_pos h]
    have hb : s.p.batches = [] := by
      cases hc : s.p.batches with
      | nil => rfl
      | cons x xs => rw [hc] at h; simp at h
    have hm : members s.p.batches = fun _ => [] := by
      funext a; simp [members, hb, mapGet]
    rw [hm]
    have : (env.rangeBatches s.w (mapKeys s.p.batches)).flatMap (fun _ => ([] : List Nat)) = [] := by
      simp
    rw [this]
    exact ⟨Ran_refl env s, fun _ => rfl, fun h => h⟩
  · rw [if_neg h]
    exact foldl_runOne_ran env _ s

theorem count_flatMap_members (m : List (String × batch)) (f : Nat → Option String)
    (hnd : ∀ k, (members m k).Nodup) (hhome : ∀ k i, i ∈ members m k → f i = some k)
    (order : List String) (ho : order.Nodup) (i : Nat) :
    (order.flatMap (members m)).count i ≤ 1 := by
  induction order with
  | nil => simp
  | cons k rest ih =>
    obtain ⟨hk, hrest⟩ := List.nodup_cons.mp ho
    rw [List.flatMap_cons, List.count_append]
    by_cases hi : i ∈ members m k
    · have h0 : (rest.flatMap (members m)).count i = 0 := by
        rw [List.count_eq_zero]
        intro hmem
        obtain ⟨k2, hk2, hi2⟩ := List.mem_flatMap.mp hmem
        have e1 := hhome k i hi
        have e2 := hhome k2 i hi2
        rw [e1] at e2
        have : k = k2 := by simpa using e2
        exact hk (this ▸ hk2)
      have h1 : (members m k).count i ≤ 1 := List.nodup_iff_count_le_one.mp (hnd k) i
      omega
    · have h0 : (members m k).count i = 0 := List.count_eq_zero.mpr hi
      have := ih hrest
      omega

theorem mem_positions {α : Type} (P : α → Bool) (l : List α) :
    ∀ (i j : Nat), j ∈ positions P l i →
      i ≤ j ∧ j < i + l.length ∧ ∃ a, l[j - i]? = some a ∧ P a = true := by
  induction l with
  | nil => intro i j h; simp [positions] at h
  | cons a rest ih =>
    intro i j h
    simp only [positions] at h
    have hrest : j ∈ positions P rest (i + 1) →
        i ≤ j ∧ j < i + (a :: rest).length ∧ ∃ b, (a :: rest)[j - i]? = some b ∧ P b = true := by
      intro h2
      obtain ⟨h3, h4, b, h5, h6⟩ := ih (i + 1) j h2
      refine ⟨by omega, by simp; omega, b, ?_, h6⟩
      have : j - i = (j - (i + 1)) + 1 := by omega
      rw [this, List.getElem?_cons_succ]
      exact h5
    by_cases hp : P a = true
    · rw [if_pos hp] at h
      rcases List.mem_cons.mp h with h1 | h1
      · subst h1
        exact ⟨Nat.le_refl _, by simp, a, by simp, hp⟩
      · exact hrest h1
    · rw [if_neg hp] at h
      exact hrest h

theorem positions_nodup {α : Type} (P : α → Bool) (l : List α) :
    ∀ i, (positions P l i).Nodup := by
  induction l with
  | nil => intro i; simp [positions]
  | cons a rest ih =>
    intro i
    simp only [positions]
    split
    · refine List.nodup_cons.mpr ⟨fun h => ?_, ih _⟩
      have := (mem_positions P rest (i + 1) i h).1
      omega
    · exact ih _

theorem mapGet_clear (m : List (String × batch)) (k : String) :
    mapGet (m.map (fun kb => (kb.1, { kb.2 with cmds := [] }))) k =
      (mapGet m k).map (fun b => { b with cmds := [] }) := by
  induction m with
  | nil => rfl
  | cons kv rest ih =>
    obtain ⟨k1, v1⟩ := kv
    by_cases h : k1 = k
    · simp [mapGet, h]
    · simp [mapGet, h, ih]

theorem groupLoop_spec (addrs : List String) :
    ∀ (i : Nat) (p : pipeLiner),
      (∀ k, members (groupLoop addrs i p).batches k =
        members p.batches k ++
          positions (fun a => decide (a = k) && decide (0 < a.length)) addrs i) ∧
      ((mapKeys p.batches).Nodup → (mapKeys (groupLoop addrs i p).batches).Nodup) ∧
      (groupLoop addrs i p).cmds.map (fun cm => (cm.reply, cm.reply_err, cm.re)) =
        p.cmds.map (fun cm => (cm.reply, cm.reply_err, cm.re)) := by
  induction addrs with
  | nil => intro i p; simp [groupLoop, positions]
  | cons a rest ih =>
    intro i p
    simp only [groupLoop, positions]
    by_cases ha : 0 < a.length
    · simp only [ha, if_true, decide_True, Bool.and_true]
      obtain ⟨h1, h2, h3⟩ := ih (i + 1)
        { cmds := setAt p.cmds i (fun cm => { cm with addr := a }),
          connForDo := p.connForDo, forceDial := p.forceDial, readOnly := p.readOnly,
          flushed := p.flushed, recvPos := p.recvPos,
          batches := mapSet p.batches a
            { addr := (match mapGet p.batches a with
                | some b => b
                | none => { addr := a, conn := none, cmds := [] }).addr,
              conn := (match mapGet p.batches a with
                | some b => b
                | none => { addr := a, conn := none, cmds := [] }).conn,
              cmds := (match mapGet p.batches a with
                | some b => b
                | none => { addr := a, conn := none, cmds := [] }).cmds ++ [i] } }
      refine ⟨fun k => ?_, fun hnd => h2 (mapKeys_mapSet_nodup _ _ _ hnd), ?_⟩
      · rw [h1 k, members_mapSet]
        have hm : (match mapGet p.batches a with
            | some b => b
            | none => { addr := a, conn := none, cmds := [] }).cmds = members p.batches a := by
          unfold members
          cases mapGet p.batches a <;> rfl
        by_cases hk : a = k
        · subst hk
          simp [hm]
        · have hk2 : ¬ k = a := fun e => hk e.symm
          simp [hk, hk2]
      · rw [h3]
        exact setAt_map _ _ _ _ (fun _ => rfl)
    · simp only [ha, if_false, decide_False, Bool.and_false]
      exact ih (i + 1) p

theorem redirLoop_spec (cs : List cmd) :
    ∀ (i : Nat) (m : List (String × batch)) (n : Nat),
      (∀ k, members (redirLoop cs i m n).1 k =
        members m k ++
          positions (fun cm => decide (cm.re.map (fun rd => rd.Addr) = some k)) cs i) ∧
      ((mapKeys m).Nodup → (mapKeys (redirLoop cs i m n).1).Nodup) := by
  induction cs with
  | nil => intro i m n; simp [redirLoop, positions]
  | cons cm rest ih =>
    intro i m n
    cases hre : cm.re with
    | none =>
      have hstep : redirLoop (cm :: rest) i m n = redirLoop rest (i + 1) m n := by
        simp [redirLoop, hre]
      rw [hstep]
      simp only [positions, hre, Option.map_none', reduceCtorEq, decide_False, if_false,
        Bool.false_eq_true]
      exact ih (i + 1) m n
    | some rd =>
      have hstep : redirLoop (cm :: rest) i m n = redirLoop rest (i + 1)
          (mapSet m rd.Addr
            { addr := (match mapGet m rd.Addr with
                | some b => b
                | none => { addr := rd.Addr, conn := none, cmds := [] }).addr,
              conn := (match mapGet m rd.Addr with
                | some b => b
                | none => { addr := rd.Addr, conn := none, cmds := [] }).conn,
              cmds := (match mapGet m rd.Addr with
                | some b => b
                | none => { addr := rd.Addr, conn := none, cmds := [] }).cmds ++ [i] })
          (n + 1) := by
        simp [redirLoop, hre]
      rw [hstep]
      obtain ⟨h1, h2⟩ := ih (i + 1)
        (mapSet m rd.Addr
          { addr := (match mapGet m rd.Addr with
              | some b => b
              | none => { addr := rd.Addr, conn := none, cmds := [] }).addr,
            conn := (match mapGet m rd.Addr with
              | some b => b
              | none => { addr := rd.Addr, conn := none, cmds := [] }).conn,
            cmds := (match mapGet m rd.Addr with
              | some b => b
              | none => { addr := rd.Addr, conn := none, cmds := [] }).cmds ++ [i] }) (n + 1)
      refine ⟨fun k => ?_, fun hnd => h2 (mapKeys_mapSet_nodup _ _ _ hnd)⟩
      rw [h1 k, members_mapSet]
      have hm : (match mapGet m rd.Addr with
          | some b => b
          | none => { addr := rd.Addr, conn := none, cmds := [] }).cmds = members m rd.Addr := by
        unfold members
        cases mapGet m rd.Addr <;> rfl
      simp only [positions, hre, Option.map_some']
      by_cases hk : rd.Addr = k
      · subst hk
        simp [hm]
      · have hk2 : ¬ k = rd.Addr := fun e => hk e.symm
        simp [hk, hk2]

/-- What `buildBatches` does besides routing: one resolver call is logged, and the result
fields of every descriptor stay as they were. -/
theorem buildBatches_log {W : Type} (env : Env W) (s : Sys W) :
    (buildBatches env s).1.log = s.log ++
      [Event.getAddrForSlots ((setSlots env s.p.cmds).map (fun cm => cm.slot)) s.p.readOnly] ∧
    (buildBatches env s).1.p.cmds.map (fun cm => (cm.reply, cm.reply_err, cm.re)) =
      s.p.cmds.map (fun cm => (cm.reply, cm.reply_err, cm.re)) := by
  have hs : (setSlots env s.p.cmds).map (fun cm => (cm.reply, cm.reply_err, cm.re)) =
      s.p.cmds.map (fun cm => (cm.reply, cm.reply_err, cm.re)) := by
    simp [setSlots, Function.comp_def]
  unfold buildBatches
  simp only
  split
  · exact ⟨rfl, hs⟩
  · split
    · exact ⟨rfl, hs⟩
    · exact ⟨rfl, ((groupLoop_spec _ _ _).2.2).trans hs⟩

/-- After a successful `buildBatches` the batch under `k` holds the positions resolved to
`k` (a non-empty address), in queue order, and no key of the map is repeated. -/
theorem buildBatches_members {W : Type} (env : Env W) (s : Sys W)
    (hb : (buildBatches env s).2 = none) :
    (∀ k, members (buildBatches env s).1.p.batches k =
      positions (fun a => decide (a = k) && decide (0 < a.length))
        (env.getAddrForSlots s.w ((setSlots env s.p.cmds).map (fun cm => cm.slot))
          s.p.readOnly).1.1 0) ∧
    (mapKeys (buildBatches env s).1.p.batches).Nodup ∧
    (env.getAddrForSlots s.w ((setSlots env s.p.cmds).map (fun cm => cm.slot))
          s.p.readOnly).1.1.length = s.p.cmds.length := by
  unfold buildBatches at hb ⊢
  simp only at hb ⊢
  split at hb
  · simp at hb
  · rename_i he
    split at hb
    · simp at hb
    · rename_i hl
      rw [if_neg hl]
      obtain ⟨h1, h2, -⟩ := groupLoop_spec
        (env.getAddrForSlots s.w ((setSlots env s.p.cmds).map (fun cm => cm.slot))
          s.p.readOnly).1.1 0
        { connForDo := s.p.connForDo, cmds := setSlots env s.p.cmds, forceDial := s.p.forceDial,
          readOnly := s.p.readOnly, flushed := s.p.flushed, recvPos := s.p.recvPos,
          batches := [] }
      refine ⟨fun k => ?_, h2 (by simp [mapKeys]), ?_⟩
      · rw [h1 k]; simp [members, mapGet]
      · simp only [ne_eq, not_not] at hl
        simpa [setSlots] using hl

theorem Ran_count_mem {W : Type} {env : Env W} {L : List Nat} {s s1 : Sys W}
    (h : Ran env L s s1) (hL : ∀ i, L.count i ≤ 1) (i : Nat) :
    sendCount i (logSince s s1) ≤ 1 ∧
    (∀ c r e, Event.receive c i r e ∈ logSince s s1 →
      i ∈ L ∧ sendCount i (logSince s s1) = 1 ∧
      s1.p.cmds[i]? = (s.p.cmds[i]?).map (fun cm => applyRecv env cm (r, e))) ∧
    (i ∉ L → sendCount i (logSince s s1) = 0 ∧ s1.p.cmds[i]? = s.p.cmds[i]?) := by
  obtain ⟨evs, a1, a2, a3, a4, a5⟩ := h
  rw [logSince_append s s1 evs a1]
  refine ⟨(a3 i).trans (hL i), fun c r e hm => ?_, fun hni => ?_⟩
  · have hmem : (r, e) ∈ recvsOf i evs := by
      unfold recvsOf
      rw [List.mem_filterMap]
      exact ⟨_, hm, by simp⟩
    have hne : recvsOf i evs ≠ [] := List.ne_nil_of_mem hmem
    have hlen : (recvsOf i evs).length ≤ 1 := (a4 i).trans (hL i)
    have hcnt : 0 < L.count i := by
      have := List.length_pos.mpr hne
      have := a4 i
      omega
    have heq : recvsOf i evs = [(r, e)] := by
      match hr : recvsOf i evs, hmem, hlen with
      | [x], hmem, _ => simp at hmem; rw [hmem]
      | _ :: _ :: _, _, hlen => simp at hlen
    refine ⟨List.count_pos_iff.mp hcnt, ?_, ?_⟩
    · have := a5 i hne
      have := a3 i
      have := hL i
      omega
    · rw [a2 i, heq]; rfl
  · have h0 : L.count i = 0 := List.count_eq_zero.mpr hni
    have hs := a3 i
    have hr : recvsOf i evs = [] := by
      have := a4 i
      rw [h0] at this
      exact List.length_eq_zero.mp (Nat.le_zero.mp this)
    refine ⟨by omega, ?_⟩
    rw [a2 i, hr]; simp

/-- The initial pass runs a list of positions of the queue without repetition. -/
theorem initialPass_ran {W : Type} (env : Env W) (hfair : env.FairRange) (s : Sys W)
    (hb : (buildBatches env s).2 = none) :
    ∃ L, Ran env L (buildBatches env s).1 (initialPass env s) ∧ (∀ i, L.count i ≤ 1) ∧
      (mapKeys (initialPass env s).p.batches).Nodup ∧ (∀ i ∈ L, i < s.p.cmds.length) := by
  obtain ⟨hm, hnd, hlen⟩ := buildBatches_members env s hb
  obtain ⟨h1, -, h3⟩ := runBatches_ran env (buildBatches env s).1
  refine ⟨_, h1, fun i => ?_, h3 hnd, fun i hi => ?_⟩
  · apply count_flatMap_members _
      (fun j => (env.getAddrForSlots s.w ((setSlots env s.p.cmds).map (fun cm => cm.slot))
        s.p.readOnly).1.1[j]?)
    · intro k; rw [hm k]; exact positions_nodup _ _ _
    · intro k j hj
      rw [hm k] at hj
      obtain ⟨-, -, a, ha1, ha2⟩ := mem_positions _ _ _ _ hj
      simp only [Nat.sub_zero, Bool.and_eq_true, decide_eq_true_eq] at ha1 ha2
      rw [ha1, ha2.1]
    · exact (hfair.1 _ _).nodup_iff.mpr hnd
  · obtain ⟨k, -, hik⟩ := List.mem_flatMap.mp hi
    rw [hm k] at hik
    have := (mem_positions _ _ _ _ hik).2.1
    omega

theorem buildRedirect_members (p : pipeLiner) :
    (∀ k, members (buildRedirectBatches p).1.batches k =
      positions (fun cm => decide (cm.re.map (fun rd => rd.Addr) = some k)) p.cmds 0) ∧
    ((mapKeys p.batches).Nodup → (mapKeys (buildRedirectBatches p).1.batches).Nodup) ∧
    (buildRedirectBatches p).1.cmds = p.cmds := by
  obtain ⟨h1, h2⟩ := redirLoop_spec p.cmds 0
    (p.batches.map (fun kb => (kb.1, { kb.2 with cmds := [] }))) 0
  refine ⟨fun k => ?_, fun hnd => ?_, rfl⟩
  · show members (redirLoop p.cmds 0 _ 0).1 k = _
    rw [h1 k]
    have : members (p.batches.map (fun kb => (kb.1, { kb.2 with cmds := [] }))) k = [] := by
      unfold members
      rw [mapGet_clear]
      cases mapGet p.batches k <;> rfl
    rw [this, List.nil_append]
  · show (mapKeys (redirLoop p.cmds 0 _ 0).1).Nodup
    apply h2
    simpa [mapKeys, Function.comp_def] using hnd

/-- The redirect pass runs a list of positions without repetition, all of descriptors
that carry a redirect. -/
theorem doRedirect_ran {W : Type} (env : Env W) (hfair : env.FairRange) (s : Sys W)
    (hnd : (mapKeys s.p.batches).Nodup) :
    ∃ L, Ran env L s (doRedirect env s) ∧ (∀ i, L.count i ≤ 1) ∧
      (∀ i ∈ L, ∃ cm, s.p.cmds[i]? = some cm ∧ cm.re ≠ none) := by
  obtain ⟨hm, hk, hc⟩ := buildRedirect_members s.p
  unfold doRedirect
  simp only
  split
  · obtain ⟨h1, -, -⟩ := runBatches_ran env { s with p := (buildRedirectBatches s.p).1 }
    refine ⟨(env.rangeBatches s.w (mapKeys (buildRedirectBatches s.p).1.batches)).flatMap
      (members (buildRedirectBatches s.p).1.batches), ?_, ?_, ?_⟩
    · obtain ⟨evs, a1, a2, a3, a4, a5⟩ := h1
      exact ⟨evs, a1, fun i => by rw [a2 i]; simp only [hc], a3, a4, a5⟩
    · intro i
      apply count_flatMap_members _
        (fun j => (s.p.cmds[j]?).bind (fun cm => cm.re.map (fun rd => rd.Addr)))
      · intro k; rw [hm k]; exact positions_nodup _ _ _
      · intro k j hj
        rw [hm k] at hj
        obtain ⟨-, -, a, ha1, ha2⟩ := mem_positions _ _ _ _ hj
        simp only [Nat.sub_zero, decide_eq_true_eq] at ha1 ha2
        rw [ha1]; exact ha2
      · exact (hfair.1 _ _).nodup_iff.mpr (hk hnd)
    · intro i hi
      obtain ⟨k, -, hik⟩ := List.mem_flatMap.mp hi
      rw [hm k] at hik
      obtain ⟨-, -, a, ha1, ha2⟩ := mem_positions _ _ _ _ hik
      simp only [Nat.sub_zero, decide_eq_true_eq] at ha1 ha2
      refine ⟨a, ha1, fun h0 => ?_⟩
      rw [h0] at ha2
      simp at ha2
  · exact ⟨[], Ran_congr (Ran_refl env s) rfl (by simp only [hc]), fun i => by simp,
      fun i hi => by simp at hi⟩

/-- The log of a flush that routes: the resolver call, the initial pass, the redirect
pass. -/
theorem Flush_log_split {W : Type} (env : Env W) (hfair : env.FairRange) (s : Sys W)
    (hf : s.p.flushed = false) (hb : (buildBatches env s).2 = none) :
    logSince s (Flush env s).1 =
      [Event.getAddrForSlots ((setSlots env s.p.cmds).map (fun cm => cm.slot)) s.p.readOnly]
        ++ logSince (buildBatches env s).1 (initialPass env s)
        ++ logSince (initialPass env s) (doRedirect env (initialPass env s)) := by
  obtain ⟨L1, r1, -, hnd, -⟩ := initialPass_ran env hfair s hb
  obtain ⟨L2, r2, -, -⟩ := doRedirect_ran env hfair (initialPass env s) hnd
  obtain ⟨e1, a1, -⟩ := r1
  obtain ⟨e2, a2, -⟩ := r2
  rw [logSince_append _ _ e1 a1, logSince_append _ _ e2 a2]
  apply logSince_append
  rw [Flush_passes env s hf hb]
  show (doRedirect env (initialPass env s)).log = _
  rw [a2, a1, (buildBatches_log env s).1]
  simp

/-- C5. Single redirect bound: in one `Flush` the descriptor at any position `i` is sent
on a node connection at most twice, at most once in the initial pass and at most once in
the redirect pass; and whatever its redirect-pass `Receive` returns (a second redirect
error included) is its final reply and reply error: there is no third attempt. -/
theorem single_redirect_bound {W : Type} (env : Env W) (hfair : env.FairRange) (s : Sys W)
    (i : Nat) :
    sendCount i (logSince s (Flush env s).1) ≤ 2 ∧
    (s.p.flushed = false → (buildBatches env s).2 = none →
      (Flush env s).1.log = (doRedirect env (initialPass env s)).log ∧
      (Flush env s).1.p.cmds = (doRedirect env (initialPass env s)).p.cmds ∧
      sendCount i (logSince (buildBatches env s).1 (initialPass env s)) ≤ 1 ∧
      sendCount i (logSince (initialPass env s) (doRedirect env (initialPass env s))) ≤ 1 ∧
      ∀ c r e, Event.receive c i r e ∈
          logSince (initialPass env s) (doRedirect env (initialPass env s)) →
        ∃ cm, (Flush env s).1.p.cmds[i]? = some cm ∧ cm.reply = r ∧ cm.reply_err = e) := by
  cases hf : s.p.flushed with
  | true =>
    rw [Flush_flushed env s hf]
    simp [logSince, sendCount]
  | false =>
    cases hb : (buildBatches env s).2 with
    | some e =>
      rw [Flush_failed env s hf e hb, logSince_append _ _ _ (buildBatches_log env s).1]
      simp [sendCount]
    | none =>
      obtain ⟨L1, r1, c1, hnd, -⟩ := initialPass_ran env hfair s hb
      obtain ⟨L2, r2, c2, m2⟩ := doRedirect_ran env hfair (initialPass env s) hnd
      have q1 := Ran_count_mem r1 c1 i
      have q2 := Ran_count_mem r2 c2 i
      refine ⟨?_, fun _ _ => ⟨?_, ?_, q1.1, q2.1, fun c r e hm => ?_⟩⟩
      · rw [Flush_log_split env hfair s hf hb, sendCount_append, sendCount_append]
        have h0 : sendCount i [Event.getAddrForSlots
            ((setSlots env s.p.cmds).map (fun cm => cm.slot)) s.p.readOnly] = 0 := rfl
        have := q1.1
        have := q2.1
        omega
      · rw [Flush_passes env s hf hb]; rfl
      · rw [Flush_passes env s hf hb]; rfl
      · obtain ⟨hin, -, hcm⟩ := q2.2.1 c r e hm
        obtain ⟨cm0, hcm0, -⟩ := m2 i hin
        refine ⟨applyRecv env cm0 (r, e), ?_, rfl, rfl⟩
        rw [Flush_passes env s hf hb]
        show (doRedirect env (initialPass env s)).p.cmds[i]? = _
        rw [hcm, hcm0]; rfl

/-- An instance of the single redirect bound: one request that is redirected by `n1` to
`n2` and by `n2` back to `n1`; it is sent twice and ends with the second redirect error. -/
theorem single_redirect_bound_witness :
    demoEnv.FairRange ∧
    sendCount 0 (logSince movedSession (Flush demoEnv movedSession).1) ≤ 2 ∧
    sendCount 0 (logSince movedSession (Flush demoEnv movedSession).1) = 2 ∧
    ∃ cm, (Flush demoEnv movedSession).1.p.cmds[0]? = some cm ∧ cm.reply = Value.nil ∧
      cm.reply_err = some "MOVED 1 n1" :=
  ⟨demoEnv_fair, (single_redirect_bound demoEnv demoEnv_fair movedSession 0).1, rfl,
   ((single_redirect_bound demoEnv demoEnv_fair movedSession 0).2 rfl rfl).2.2.2.2
      2 Value.nil (some "MOVED 1 n1") (by
        have h : logSince (initialPass demoEnv movedSession)
            (doRedirect demoEnv (initialPass demoEnv movedSession)) =
            [Event.getConnForAddr "n2" false false (some 2), Event.send 2 0, Event.flush 2,
             Event.receive 2 0 Value.nil (some "MOVED 1 n1"),
             Event.needsRefresh ⟨"MOVED", 1, "n1"⟩] := rfl
        rw [h]
        simp)⟩

theorem Receive_cmds {W : Type} (s : Sys W) : (Receive s).1.p.cmds = s.p.cmds := by
  unfold Receive
  split
  · rfl
  · split
    · rfl
    · simp only; split <;> rfl

theorem Do_cmds {W : Type} (env : Env W) (s : Sys W) (n : String) (a : List Value) :
    (Do env s n a).1.p.cmds = s.p.cmds := by
  unfold Do
  cases h : s.p.connForDo with
  | none =>
    simp only
    split
    · rfl
    · split <;> rfl
  | some c => simp [h]

/-- Until a flush succeeds no descriptor carries a redirect. -/
theorem Unflushed_no_redirect {W : Type} {env : Env W} {s : Sys W} (h : Unflushed env s) :
    ∀ cm ∈ s.p.cmds, cm.re = none := by
  induction h with
  | fresh w => intro cm hcm; simp [fresh, newPipeliner] at hcm
  | send s n a _ ih =>
    intro cm hcm
    simp only [Send, List.mem_append, List.mem_singleton] at hcm
    rcases hcm with h1 | h1
    · exact ih cm h1
    · rw [h1]
  | flushFailed s hu hfail ih =>
    intro cm hcm
    cases he : (buildBatches env s).2 with
    | some e =>
      rw [Flush_failed env s (Unflushed_not_flushed hu) e he] at hcm
      have hmap := (buildBatches_log env s).2
      have h1 : (cm.reply, cm.reply_err, cm.re) ∈
          (buildBatches env s).1.p.cmds.map (fun cm => (cm.reply, cm.reply_err, cm.re)) :=
        List.mem_map.mpr ⟨cm, hcm, rfl⟩
      rw [hmap] at h1
      obtain ⟨cm0, h2, h3⟩ := List.mem_map.mp h1
      have h4 := ih cm0 h2
      have h5 : cm0.re = cm.re := by
        have := congrArg (fun t => t.2.2) h3
        exact this
      rw [← h5]; exact h4
    | none =>
      rw [Flush_passes env s (Unflushed_not_flushed hu) he] at hfail
      simp at hfail
  | receive s _ ih => rw [Receive_cmds]; exact ih
  | doCmd s n a _ ih => rw [Do_cmds]; exact ih
  | close s _ ih => rw [Close_p]; exact ih

/-- C6. Exactly-once for commands that did not redirect: in the flush of a session not yet
flushed, a descriptor whose initial-pass `Receive` returned no error, or an error that
does not parse as a redirect, is in no redirect-pass batch, is sent on a connection
exactly once in the whole flush, and ends with that initial-pass reply and error. -/
theorem exactly_once_without_redirect {W : Type} (env : Env W) (hfair : env.FairRange)
    (s : Sys W) (hu : Unflushed env s) (hb : (buildBatches env s).2 = none)
    (i : Nat) (c : Conn) (r : Value) (e : Option String)
    (hrecv : Event.receive c i r e ∈ logSince (buildBatches env s).1 (initialPass env s))
    (hnr : e = none ∨ ∃ msg, e = some msg ∧ env.ParseRedir msg = none) :
    (∀ k bt, mapGet (buildRedirectBatches (initialPass env s).p).1.batches k = some bt →
      i ∉ bt.cmds) ∧
    sendCount i (logSince s (Flush env s).1) = 1 ∧
    ∃ cm, (Flush env s).1.p.cmds[i]? = some cm ∧ cm.reply = r ∧ cm.reply_err = e := by
  have hf := Unflushed_not_flushed hu
  obtain ⟨L1, r1, c1, hnd, hval⟩ := initialPass_ran env hfair s hb
  obtain ⟨L2, r2, c2, m2⟩ := doRedirect_ran env hfair (initialPass env s) hnd
  have q1 := Ran_count_mem r1 c1 i
  have q2 := Ran_count_mem r2 c2 i
  obtain ⟨hin, hs1, hcm⟩ := q1.2.1 c r e hrecv
  have hlen : (buildBatches env s).1.p.cmds.length = s.p.cmds.length :=
    Frame_length (buildBatches_frame env s)
  have hi : i < (buildBatches env s).1.p.cmds.length := by rw [hlen]; exact hval i hin
  have hre0 : ((buildBatches env s).1.p.cmds[i]).re = none := by
    have hmap := (buildBatches_log env s).2
    have h1 : (((buildBatches env s).1.p.cmds[i]).reply,
        ((buildBatches env s).1.p.cmds[i]).reply_err, ((buildBatches env s).1.p.cmds[i]).re) ∈
        (buildBatches env s).1.p.cmds.map (fun cm => (cm.reply, cm.reply_err, cm.re)) :=
      List.mem_map.mpr ⟨_, List.getElem_mem hi, rfl⟩
    rw [hmap] at h1
    obtain ⟨cm0, h2, h3⟩ := List.mem_map.mp h1
    have h5 : cm0.re = ((buildBatches env s).1.p.cmds[i]).re := congrArg (fun t => t.2.2) h3
    rw [← h5]; exact Unflushed_no_redirect hu cm0 h2
  rw [List.getElem?_eq_getElem hi, Option.map_some'] at hcm
  have hre1 : (applyRecv env ((buildBatches env s).1.p.cmds[i]) (r, e)).re = none := by
    rcases hnr with h0 | ⟨msg, h0, h1⟩
    · simp [applyRecv, h0, hre0]
    · simp [applyRecv, h0, h1, hre0]
  have hnot2 : i ∉ L2 := by
    intro hi2
    obtain ⟨cm, h1, h2⟩ := m2 i hi2
    rw [hcm] at h1
    have : cm.re = none := by rw [← Option.some.inj h1]; exact hre1
    exact h2 this
  obtain ⟨hs2, hcm2⟩ := q2.2.2 hnot2
  refine ⟨fun k bt hk hik => ?_, ?_, ?_⟩
  · have hmem : i ∈ members (buildRedirectBatches (initialPass env s).p).1.batches k := by
      simp only [members, hk]; exact hik
    rw [(buildRedirect_members (initialPass env s).p).1 k] at hmem
    obtain ⟨-, -, a, ha1, ha2⟩ := mem_positions _ _ _ _ hmem
    simp only [Nat.sub_zero, decide_eq_true_eq] at ha1 ha2
    rw [hcm] at ha1
    rw [← Option.some.inj ha1, hre1] at ha2
    simp at ha2
  · rw [Flush_log_split env hfair s hf hb, sendCount_append, sendCount_append, hs1, hs2]
    rfl
  · refine ⟨applyRecv env ((buildBatches env s).1.p.cmds[i]) (r, e), ?_, rfl, rfl⟩
    rw [Flush_passes env s hf hb]
    show (doRedirect env (initialPass env s)).p.cmds[i]? = _
    rw [hcm2, hcm]

/-- An instance of exactly-once: two requests answered without error by two nodes; the
first is in no redirect batch, is sent once and keeps its reply. -/
theorem exactly_once_without_redirect_witness :
    demoEnv.FairRange ∧ Unflushed demoEnv twoGetsSession ∧
    (buildBatches demoEnv twoGetsSession).2 = none ∧
    (∀ k bt, mapGet (buildRedirectBatches (initialPass demoEnv twoGetsSession).p).1.batches k =
      some bt → 0 ∉ bt.cmds) ∧
    sendCount 0 (logSince twoGetsSession (Flush demoEnv twoGetsSession).1) = 1 ∧
    ∃ cm, (Flush demoEnv twoGetsSession).1.p.cmds[0]? = some cm ∧ cm.reply = Value.int 1 ∧
      cm.reply_err = none :=
  ⟨demoEnv_fair, Unflushed.send _ _ _ (Unflushed.send _ _ _ (Unflushed.fresh _)), rfl,
   exactly_once_without_redirect demoEnv demoEnv_fair twoGetsSession
     (Unflushed.send _ _ _ (Unflushed.send _ _ _ (Unflushed.fresh _))) rfl 0 1 (Value.int 1) none
     (by
        have h : logSince (buildBatches demoEnv twoGetsSession).1
            (initialPass demoEnv twoGetsSession) =
            [Event.getConnForAddr "n2" false false (some 2), Event.send 2 1, Event.flush 2,
             Event.receive 2 1 (Value.int 2) none,
             Event.getConnForAddr "n1" false false (some 1), Event.send 1 0, Event.flush 1,
             Event.receive 1 0 (Value.int 1) none] := rfl
        rw [h]
        simp)
     (Or.inl rfl)⟩

/-! ## Routing failures -/

theorem buildBatches_err_iff {W : Type} (env : Env W) (s : Sys W) :
    ((buildBatches env s).2 ≠ none ↔
      ((env.getAddrForSlots s.w ((setSlots env s.p.cmds).map (fun cm => cm.slot))
          s.p.readOnly).1.2 ≠ none ∨
       (env.getAddrForSlots s.w ((setSlots env s.p.cmds).map (fun cm => cm.slot))
          s.p.readOnly).1.1.length ≠ s.p.cmds.length)) ∧
    ((buildBatches env s).2 ≠ none → (buildBatches env s).1.p.batches = s.p.batches) := by
  unfold buildBatches
  simp only
  cases he : (env.getAddrForSlots s.w ((setSlots env s.p.cmds).map (fun cm => cm.slot))
      s.p.readOnly).1.2 with
  | some e => simp
  | none =>
    dsimp only
    have hs : (setSlots env s.p.cmds).length = s.p.cmds.length := by simp [setSlots]
    rw [hs]
    by_cases hl : (env.getAddrForSlots s.w ((setSlots env s.p.cmds).map (fun cm => cm.slot))
        s.p.readOnly).1.1.length = s.p.cmds.length
    · simp [hl]
    · simp [hl]

/-- C11. Flush fails exactly on routing failure: on a session not yet flushed, `Flush`
returns an error if and only if the bulk resolution returns an error or a number of
addresses other than the number of queued descriptors; then the only outgoing call is the
resolver call (nothing is executed) and the result fields and batches stay as they were;
in every other case `Flush` returns success. -/
theorem flush_fails_on_routing {W : Type} (env : Env W) (s : Sys W)
    (hf : s.p.flushed = false) :
    ((Flush env s).2 ≠ none ↔
      ((env.getAddrForSlots s.w ((setSlots env s.p.cmds).map (fun cm => cm.slot))
          s.p.readOnly).1.2 ≠ none ∨
       (env.getAddrForSlots s.w ((setSlots env s.p.cmds).map (fun cm => cm.slot))
          s.p.readOnly).1.1.length ≠ s.p.cmds.length)) ∧
    ((Flush env s).2 ≠ none →
      logSince s (Flush env s).1 =
        [Event.getAddrForSlots ((setSlots env s.p.cmds).map (fun cm => cm.slot)) s.p.readOnly] ∧
      (Flush env s).1.p.cmds.map (fun cm => (cm.reply, cm.reply_err, cm.re)) =
        s.p.cmds.map (fun cm => (cm.reply, cm.reply_err, cm.re)) ∧
      (Flush env s).1.p.batches = s.p.batches ∧ (Flush env s).1.p.flushed = false) := by
  obtain ⟨h1, h2⟩ := buildBatches_err_iff env s
  cases he : (buildBatches env s).2 with
  | some e =>
    rw [Flush_failed env s hf e he]
    have hne : (buildBatches env s).2 ≠ none := by rw [he]; simp
    refine ⟨⟨fun _ => h1.mp hne, fun _ => by simp⟩, fun _ => ⟨?_, ?_, h2 hne, ?_⟩⟩
    · exact logSince_append _ _ _ (buildBatches_log env s).1
    · exact (buildBatches_log env s).2
    · exact (buildBatches_frame env s).2.2.2.2.1.trans hf
  | none =>
    rw [Flush_passes env s hf he]
    refine ⟨⟨fun h => absurd rfl h, fun h => ?_⟩, fun h => absurd rfl h⟩
    have := h1.mpr h
    rw [he] at this
    exact absurd rfl this

/-- An instance of the routing failure: a resolver that fails, one queued request. -/
theorem flush_fails_on_routing_witness :
    (Send (fresh twoNodeScript) "GET" [Value.str "a"]).1.p.flushed = false ∧
    (Flush noRouteEnv (Send (fresh twoNodeScript) "GET" [Value.str "a"]).1).2 =
      some "cluster down" ∧
    logSince (Send (fresh twoNodeScript) "GET" [Value.str "a"]).1
        (Flush noRouteEnv (Send (fresh twoNodeScript) "GET" [Value.str "a"]).1).1 =
      [Event.getAddrForSlots [1] false] :=
  ⟨rfl, rfl,
   ((flush_fails_on_routing noRouteEnv (Send (fresh twoNodeScript) "GET" [Value.str "a"]).1
      rfl).2 (by decide)).1.trans rfl⟩

/-! ## Set-many -/

theorem exists_pairs (n : Nat) : ∀ args : List Value, args.length = 2 * n →
    ∃ ps : List (Value × Value), args = flatPairs ps ∧ ps.length = n := by
  induction n with
  | zero =>
    intro args h
    have : args = [] := List.length_eq_zero.mp (by omega)
    exact ⟨[], by simp [this, flatPairs], rfl⟩
  | succ n ih =>
    intro args h
    match args, h with
    | k :: v :: rest, h =>
      obtain ⟨ps, h1, h2⟩ := ih rest (by simp at h; omega)
      exact ⟨(k, v) :: ps, by simp [flatPairs, h1], by simp [h2]⟩

theorem msetGroup_cons {W : Type} (env : Env W) (k v : Value) (rest : List Value)
    (m : List (Int × List Value)) :
    msetGroup env (k :: v :: rest) m =
      msetGroup env rest (mapSet m (env.Slot (sprintS k))
        ((mapGet m (env.Slot (sprintS k))).getD [] ++ [Value.str (sprintS k), v])) := by
  simp only [msetGroup]
  split <;> rename_i h <;> simp [h]

/-- The map built by `multiset` from a list of pairs: it exists, holds under every slot the
pairs of that slot in the order given, and its key set has no repetition. -/
theorem msetGroup_spec {W : Type} (env : Env W) (ps : List (Value × Value)) :
    ∀ m0 : List (Int × List Value), ∃ r, msetGroup env (flatPairs ps) m0 = some r ∧
      (∀ slot, mapGet r slot =
        if (ps.filter (fun kv => env.Slot (sprintS kv.1) = slot)).isEmpty then mapGet m0 slot
        else some ((mapGet m0 slot).getD [] ++ slotPairs env ps slot)) ∧
      ((mapKeys m0).Nodup → (mapKeys r).Nodup) := by
  induction ps with
  | nil => intro m0; exact ⟨m0, by simp [flatPairs, msetGroup], by simp, fun h => h⟩
  | cons kv rest ih =>
    intro m0
    obtain ⟨k, v⟩ := kv
    obtain ⟨r, h1, h2, h3⟩ := ih (mapSet m0 (env.Slot (sprintS k))
      ((mapGet m0 (env.Slot (sprintS k))).getD [] ++ [Value.str (sprintS k), v]))
    have hflat : flatPairs ((k, v) :: rest) = k :: v :: flatPairs rest := by
      simp [flatPairs]
    refine ⟨r, by rw [hflat, msetGroup_cons]; exact h1, fun slot => ?_,
      fun hnd => h3 (mapKeys_mapSet_nodup _ _ _ hnd)⟩
    rw [h2 slot, mapGet_mapSet]
    by_cases hs : env.Slot (sprintS k) = slot
    · subst hs
      by_cases hr : List.filter (fun kv => decide (env.Slot (sprintS kv.1) =
          env.Slot (sprintS k))) rest = []
      · simp [hr, List.filter_cons, slotPairs]
      · have hr2 : (List.filter (fun kv => decide (env.Slot (sprintS kv.1) =
            env.Slot (sprintS k))) rest).isEmpty = false := by
          cases hq : List.filter (fun kv => decide (env.Slot (sprintS kv.1) =
            env.Slot (sprintS k))) rest with
          | nil => exact absurd hq hr
          | cons x xs => rfl
        simp [hr2, List.filter_cons, slotPairs]
    · have hs2 : ¬ slot = env.Slot (sprintS k) := fun e => hs e.symm
      have hfc : List.filter (fun kv => decide (env.Slot (sprintS kv.1) = slot))
          ((k, v) :: rest) =
          List.filter (fun kv => decide (env.Slot (sprintS kv.1) = slot)) rest :=
        List.filter_cons_of_neg (by simpa using hs)
      simp only [slotPairs, hfc, hs2, if_false]

theorem mset_cmdMap {W : Type} (env : Env W) (ps : List (Value × Value)) :
    ∃ cmdMap, msetGroup env (flatPairs ps) [] = some cmdMap ∧
      (∀ slot, (mapGet cmdMap slot).getD [] = slotPairs env ps slot) ∧
      (mapKeys cmdMap).Nodup ∧
      (∀ slot, slot ∈ mapKeys cmdMap ↔ ∃ kv ∈ ps, env.Slot (sprintS kv.1) = slot) := by
  obtain ⟨r, h1, h2, h3⟩ := msetGroup_spec env ps []
  refine ⟨r, h1, fun slot => ?_, h3 (by simp [mapKeys]), fun slot => ?_⟩
  · rw [h2 slot]
    by_cases hf : List.filter (fun kv => decide (env.Slot (sprintS kv.1) = slot)) ps = []
    · simp [hf, mapGet, slotPairs]
    · have hf2 : (List.filter (fun kv => decide (env.Slot (sprintS kv.1) = slot)) ps).isEmpty
          = false := by
        cases hq : List.filter (fun kv => decide (env.Slot (sprintS kv.1) = slot)) ps with
        | nil => exact absurd hq hf
        | cons x xs => rfl
      simp [hf2, mapGet]
  · have := mapGet_eq_none r slot
    rw [h2 slot] at this
    by_cases hf : List.filter (fun kv => decide (env.Slot (sprintS kv.1) = slot)) ps = []
    · simp only [hf, List.isEmpty_nil, if_true, mapGet, true_iff] at this
      rw [List.filter_eq_nil_iff] at hf
      constructor
      · intro hm; exact absurd hm this
      · rintro ⟨kv, hk, hs⟩
        exact absurd (by simpa using hs) (hf kv hk)
    · have hf2 : (List.filter (fun kv => decide (env.Slot (sprintS kv.1) = slot)) ps).isEmpty
          = false := by
        cases hq : List.filter (fun kv => decide (env.Slot (sprintS kv.1) = slot)) ps with
        | nil => exact absurd hq hf
        | cons x xs => rfl
      simp only [hf2, Bool.false_eq_true, if_false, reduceCtorEq, false_iff, not_not] at this
      refine ⟨fun _ => ?_, fun _ => this⟩
      rw [List.filter_eq_nil_iff] at hf
      push_neg at hf
      obtain ⟨kv, hk, hs⟩ := hf
      exact ⟨kv, hk, by simpa using hs⟩

theorem msetSent_eq {W : Type} (env : Env W) (w : W) (cmdMap : List (Int × List Value)) :
    msetSent env w cmdMap =
      (sendAll ((env.rangeSlots w (mapKeys cmdMap)).map
          (fun slot => (env.CMDMSET, (mapGet cmdMap slot).getD []))) (GetPipelinerConn w),
       env.rangeSlots w (mapKeys cmdMap), none) := by
  simp [msetSent, sendSlots_eq]

theorem mset_flushed {W : Type} (env : Env W) (w : W) (cmdMap : List (Int × List Value))
    (hok : (Flush env (msetSent env w cmdMap).1).2 = none) :
    (Flush env (msetSent env w cmdMap).1).1.p.flushed = true ∧
    (Flush env (msetSent env w cmdMap).1).1.p.recvPos = -1 ∧
    (Flush env (msetSent env w cmdMap).1).1.p.cmds.map (fun cm => (cm.commandName, cm.args)) =
      (msetSent env w cmdMap).2.1.map
        (fun slot => (env.CMDMSET, (mapGet cmdMap slot).getD [])) := by
  obtain ⟨h1, h2, h3⟩ := Flush_ok_frame env _ hok
  refine ⟨h1, ?_, ?_⟩
  · rw [h2, msetSent_eq]
    simp only
    rw [(sendAll_p _ _).2.1]
    rfl
  · rw [h3, msetSent_eq]
    simp only
    rw [(sendAll_p _ _).1]
    simp [GetPipelinerConn, newPipeliner]

theorem msetRecv_spec {W : Type} (order : List Int) :
    ∀ (s : Sys W) (res : Value) (j : Nat), s.p.flushed = true →
      s.p.recvPos + 1 = j → j + order.length = s.p.cmds.length →
      (msetRecv order s res).2.2 =
        ((s.p.cmds.drop j).find? (fun cm => cm.reply_err.isSome)).bind
          (fun cm => cm.reply_err) ∧
      ((msetRecv order s res).2.2 ≠ none → (msetRecv order s res).2.1 = Value.nil) ∧
      ((msetRecv order s res).2.2 = none →
        (msetRecv order s res).2.1 =
          (((s.p.cmds.drop j).getLast?).map (fun cm => cm.reply)).getD res) := by
  induction order with
  | nil =>
    intro s res j _ _ hlen
    have : s.p.cmds.length ≤ j := by simp at hlen; omega
    simp [msetRecv, List.drop_eq_nil_of_le this]
  | cons slot rest ih =>
    intro s res j hf hpos hlen
    have hj : j < s.p.cmds.length := by simp at hlen; omega
    have hr := Receive_at s hf j hpos hj
    obtain ⟨r1, r2, r3, -⟩ := receiveN_spec 1 s hf (by omega)
    simp only [receiveN] at r1 r2 r3
    have hd : s.p.cmds.drop j = s.p.cmds[j] :: s.p.cmds.drop (j + 1) :=
      List.drop_eq_getElem_cons hj
    have hg : s.p.cmds.getD j default = s.p.cmds[j] := by
      simp [List.getD_eq_getElem?_getD, List.getElem?_eq_getElem hj]
    rw [hg] at hr
    simp only [msetRecv]
    cases he : s.p.cmds[j].reply_err with
    | some e =>
      have : (Receive s).2.2 = some e := by rw [hr]; exact he
      simp only [this]
      rw [hd]
      simp only [List.find?_cons, he, Option.isSome_some]
      exact ⟨he.symm, fun _ => trivial, fun h => by simp at h⟩
    | none =>
      have : (Receive s).2.2 = none := by rw [hr]; exact he
      simp only [this]
      obtain ⟨a1, a2, a3⟩ := ih (Receive s).1 (Receive s).2.1 (j + 1) r3 (by rw [r1]; omega)
        (by rw [r2]; simp at hlen ⊢; omega)
      rw [r2] at a1 a3
      refine ⟨?_, a2, fun h => ?_⟩
      · rw [a1, hd]
        simp only [List.find?_cons, he, Option.isSome_none]
      · rw [a3 h, hd, List.getLast?_cons]
        have hrep : (Receive s).2.1 = s.p.cmds[j].reply := by rw [hr]
        rw [hrep]
        cases hl : (s.p.cmds.drop (j + 1)).getLast? with
        | none => simp
        | some x => simp

/-- C12. Set-many result: for a non-empty argument list of even length the grouping
succeeds; when the flush succeeds, if some grouped set-command ends with an error then
`multiset` returns a nil result with the error of the first such command in send order,
and otherwise it returns without error the reply of the last grouped command sent. -/
theorem multiset_result {W : Type} (env : Env W) (hfair : env.FairRange) (w : W)
    (args : List Value) (hne : args ≠ []) (heven : args.length % 2 = 0) :
    ∃ cmdMap, msetGroup env args [] = some cmdMap ∧
      ((Flush env (msetSent env w cmdMap).1).2 = none →
        (∀ cm, (Flush env (msetSent env w cmdMap).1).1.p.cmds.find?
            (fun cm => cm.reply_err.isSome) = some cm →
          (multiset env w args).reply = Value.nil ∧
          (multiset env w args).err = cm.reply_err ∧ cm.reply_err ≠ none) ∧
        ((∀ cm ∈ (Flush env (msetSent env w cmdMap).1).1.p.cmds, cm.reply_err = none) →
          (multiset env w args).err = none ∧
          ∃ last, (Flush env (msetSent env w cmdMap).1).1.p.cmds.getLast? = some last ∧
            (multiset env w args).reply = last.reply)) := by
  obtain ⟨ps, hps, hpl⟩ := exists_pairs (args.length / 2) args (by omega)
  obtain ⟨cmdMap, hg, -, hnd, hmem⟩ := mset_cmdMap env ps
  rw [← hps] at hg
  refine ⟨cmdMap, hg, fun hok => ?_⟩
  obtain ⟨hf, hpos, hsig⟩ := mset_flushed env w cmdMap hok
  have hlen : 0 + (msetSent env w cmdMap).2.1.length =
      (Flush env (msetSent env w cmdMap).1).1.p.cmds.length := by
    have := congrArg List.length hsig
    simp at this
    omega
  obtain ⟨a1, a2, a3⟩ := msetRecv_spec (msetSent env w cmdMap).2.1
    (Flush env (msetSent env w cmdMap).1).1 Value.nil 0 hf (by rw [hpos]; rfl) hlen
  rw [List.drop_zero] at a1 a3
  have hl : ¬ args.length ≤ 0 := by
    cases args with
    | nil => exact absurd rfl hne
    | cons a rest => simp
  have hs : (msetSent env w cmdMap).2.2 = none := by rw [msetSent_eq]
  have hrep : (multiset env w args).reply =
      (msetRecv (msetSent env w cmdMap).2.1 (Flush env (msetSent env w cmdMap).1).1
        Value.nil).2.1 := by
    simp only [multiset, hl, if_false, hg, hs, hok]
    rfl
  have herr : (multiset env w args).err =
      (msetRecv (msetSent env w cmdMap).2.1 (Flush env (msetSent env w cmdMap).1).1
        Value.nil).2.2 := by
    simp only [multiset, hl, if_false, hg, hs, hok]
    rfl
  refine ⟨fun cm hfind => ?_, fun hnoerr => ?_⟩
  · rw [hfind] at a1
    simp only [Option.bind] at a1
    have hsome : cm.reply_err.isSome = true := by
      have := List.find?_some hfind
      simpa using this
    obtain ⟨e, he⟩ := Option.isSome_iff_exists.mp hsome
    have hne2 : (msetRecv (msetSent env w cmdMap).2.1 (Flush env (msetSent env w cmdMap).1).1
        Value.nil).2.2 ≠ none := by rw [a1, he]; simp
    exact ⟨hrep.trans (a2 hne2), herr.trans a1, by rw [he]; simp⟩
  · have hnone : List.find? (fun cm => cm.reply_err.isSome)
        (Flush env (msetSent env w cmdMap).1).1.p.cmds = none := by
      rw [List.find?_eq_none]
      intro cm hcm
      simp [hnoerr cm hcm]
    rw [hnone] at a1
    simp only [Option.bind] at a1
    have hne3 : (Flush env (msetSent env w cmdMap).1).1.p.cmds ≠ [] := by
      intro h0
      rw [h0] at hlen
      have hperm : ((msetSent env w cmdMap).2.1).Perm (mapKeys cmdMap) := by
        rw [msetSent_eq]; exact hfair.2 _ _
      have hk : mapKeys cmdMap ≠ [] := by
        cases ps with
        | nil => simp [flatPairs] at hps; exact absurd hps hne
        | cons kv rest =>
          have := (hmem (env.Slot (sprintS kv.1))).mpr ⟨kv, by simp, rfl⟩
          exact List.ne_nil_of_mem this
      have hpl2 := hperm.length_eq
      have hz : (mapKeys cmdMap).length = 0 := by
        simp only [List.length_nil, Nat.zero_add] at hlen
        rw [← hpl2]; exact hlen
      exact hk (List.length_eq_zero.mp hz)
    obtain ⟨last, hlast⟩ := Option.ne_none_iff_exists'.mp
      (fun h => hne3 (List.getLast?_eq_none_iff.mp h))
    refine ⟨herr.trans a1, last, hlast, ?_⟩
    rw [hrep, a3 a1, hlast]
    rfl

/-- An instance of the set-many result: two pairs in two slots, both answered. -/
theorem multiset_result_witness :
    demoEnv.FairRange ∧
    [Value.str "k1", Value.str "v1", Value.str "c", Value.str "v2"] ≠ [] ∧
    [Value.str "k1", Value.str "v1", Value.str "c", Value.str "v2"].length % 2 = 0 ∧
    (multiset demoEnv msetScript
      [Value.str "k1", Value.str "v1", Value.str "c", Value.str "v2"]).reply = Value.str "OK2" ∧
    ∃ cmdMap, msetGroup demoEnv
        [Value.str "k1", Value.str "v1", Value.str "c", Value.str "v2"] [] = some cmdMap ∧
      ((Flush demoEnv (msetSent demoEnv msetScript cmdMap).1).2 = none →
        (∀ cm, (Flush demoEnv (msetSent demoEnv msetScript cmdMap).1).1.p.cmds.find?
            (fun cm => cm.reply_err.isSome) = some cm →
          (multiset demoEnv msetScript
            [Value.str "k1", Value.str "v1", Value.str "c", Value.str "v2"]).reply = Value.nil ∧
          (multiset demoEnv msetScript
            [Value.str "k1", Value.str "v1", Value.str "c", Value.str "v2"]).err = cm.reply_err ∧
          cm.reply_err ≠ none) ∧
        ((∀ cm ∈ (Flush demoEnv (msetSent demoEnv msetScript cmdMap).1).1.p.cmds,
            cm.reply_err = none) →
          (multiset demoEnv msetScript
            [Value.str "k1", Value.str "v1", Value.str "c", Value.str "v2"]).err = none ∧
          ∃ last, (Flush demoEnv (msetSent demoEnv msetScript cmdMap).1).1.p.cmds.getLast? =
              some last ∧
            (multiset demoEnv msetScript
              [Value.str "k1", Value.str "v1", Value.str "c", Value.str "v2"]).reply =
              last.reply)) :=
  ⟨demoEnv_fair, List.cons_ne_nil _ _, by decide, rfl,
   multiset_result demoEnv demoEnv_fair msetScript
     [Value.str "k1", Value.str "v1", Value.str "c", Value.str "v2"]
     (List.cons_ne_nil _ _) (by decide)⟩

theorem flatMap_filter_perm {α : Type} (f : α → Int) (l : List α) :
    ∀ order : List Int, order.Nodup → (∀ a ∈ l, f a ∈ order) →
      (order.flatMap (fun s => l.filter (fun a => f a = s))).Perm l := by
  induction l with
  | nil => intro order _ _; simp
  | cons a rest ih =>
    intro order hnd hall
    obtain ⟨o1, o2, ho⟩ := List.append_of_mem (hall a (List.mem_cons_self _ _))
    subst ho
    have hnd2 := hnd
    rw [List.nodup_append] at hnd2
    obtain ⟨-, hn2, hdis⟩ := hnd2
    have h1 : f a ∉ o1 := fun h => hdis h (List.mem_cons_self _ _)
    have h2 : f a ∉ o2 := (List.nodup_cons.mp hn2).1
    have hih := ih (o1 ++ f a :: o2) hnd (fun b hb => hall b (List.mem_cons_of_mem _ hb))
    have e1 : o1.flatMap (fun s => (a :: rest).filter (fun b => f b = s)) =
        o1.flatMap (fun s => rest.filter (fun b => f b = s)) := by
      apply List.flatMap_congr
      intro s hs
      have : ¬ f a = s := fun e => h1 (e ▸ hs)
      simp [List.filter_cons, this]
    have e2 : o2.flatMap (fun s => (a :: rest).filter (fun b => f b = s)) =
        o2.flatMap (fun s => rest.filter (fun b => f b = s)) := by
      apply List.flatMap_congr
      intro s hs
      have : ¬ f a = s := fun e => h2 (e ▸ hs)
      simp [List.filter_cons, this]
    have e3 : (a :: rest).filter (fun b => f b = f a) =
        a :: rest.filter (fun b => f b = f a) := by
      simp [List.filter_cons]
    rw [List.flatMap_append, List.flatMap_cons, e1, e2, e3]
    rw [List.flatMap_append, List.flatMap_cons] at hih
    refine (List.perm_middle).trans (List.Perm.cons a ?_)
    exact hih

theorem sendAll_world {W : Type} (reqs : List (String × List Value)) (s : Sys W) :
    (sendAll reqs s).w = s.w ∧ (sendAll reqs s).log = s.log := by
  induction reqs generalizing s with
  | nil => exact ⟨rfl, rfl⟩
  | cons rq rest ih => exact ih (Send s rq.1 rq.2).1

/-- C18. Set-many grouping: for string keys `k1 v1 ... kn vn` the grouping succeeds and
`multiset` queues one grouped set-command per slot in `range` order on a fresh session; the
slots are the distinct slots of the keys; the command of a slot carries the pairs whose key
hashes to it, each key followed by its value, in the order given; all the commands together
carry the argument list up to a permutation: no pair is dropped or repeated. For at least
one pair, what `multiset` does and returns is the flush of that session, one `Receive` per
slot and the `Close`: it sends these commands and no other. -/
theorem multiset_grouping {W : Type} (env : Env W) (hfair : env.FairRange) (w : W)
    (pairs : List (String × Value)) :
    ∃ cmdMap,
      msetGroup env (flatPairs (pairs.map (fun kv => (Value.str kv.1, kv.2)))) [] =
        some cmdMap ∧
      (msetSent env w cmdMap).1.p.cmds.map (fun cm => (cm.commandName, cm.args)) =
        (msetSent env w cmdMap).2.1.map (fun slot => (env.CMDMSET,
          (pairs.filter (fun kv => env.Slot kv.1 = slot)).flatMap
            (fun kv => [Value.str kv.1, kv.2]))) ∧
      (msetSent env w cmdMap).2.1.Nodup ∧
      (∀ slot, slot ∈ (msetSent env w cmdMap).2.1 ↔ ∃ kv ∈ pairs, env.Slot kv.1 = slot) ∧
      ((msetSent env w cmdMap).1.p.cmds.flatMap (fun cm => cm.args)).Perm
        (flatPairs (pairs.map (fun kv => (Value.str kv.1, kv.2)))) ∧
      (msetSent env w cmdMap).1.w = w ∧
      (msetSent env w cmdMap).1.log = [Event.getPipelinerConn] ∧
      (pairs ≠ [] →
        multiset env w (flatPairs (pairs.map (fun kv => (Value.str kv.1, kv.2)))) =
          match (Flush env (msetSent env w cmdMap).1).2 with
          | some e => closeAndReturn env (Flush env (msetSent env w cmdMap).1).1 Value.nil (some e)
          | none =>
            closeAndReturn env
              (msetRecv (msetSent env w cmdMap).2.1 (Flush env (msetSent env w cmdMap).1).1
                Value.nil).1
              (msetRecv (msetSent env w cmdMap).2.1 (Flush env (msetSent env w cmdMap).1).1
                Value.nil).2.1
              (msetRecv (msetSent env w cmdMap).2.1 (Flush env (msetSent env w cmdMap).1).1
                Value.nil).2.2) := by
  obtain ⟨cmdMap, hg, hget, hnd, hmem⟩ :=
    mset_cmdMap env (pairs.map (fun kv => (Value.str kv.1, kv.2)))
  have hperm : ((msetSent env w cmdMap).2.1).Perm (mapKeys cmdMap) := by
    rw [msetSent_eq]; exact hfair.2 _ _
  have hond := hperm.nodup_iff.mpr hnd
  have hsp : ∀ slot, slotPairs env (pairs.map (fun kv => (Value.str kv.1, kv.2))) slot =
      (pairs.filter (fun kv => env.Slot kv.1 = slot)).flatMap
        (fun kv => [Value.str kv.1, kv.2]) := by
    intro slot
    simp only [slotPairs, List.filter_map, List.flatMap_map, Function.comp_def, sprintS]
  have homem : ∀ slot, slot ∈ (msetSent env w cmdMap).2.1 ↔
      ∃ kv ∈ pairs, env.Slot kv.1 = slot := by
    intro slot
    rw [hperm.mem_iff, hmem slot]
    constructor
    · rintro ⟨kv, hk, hs⟩
      obtain ⟨kv0, hk0, rfl⟩ := List.mem_map.mp hk
      exact ⟨kv0, hk0, by simpa [sprintS] using hs⟩
    · rintro ⟨kv, hk, hs⟩
      exact ⟨(Value.str kv.1, kv.2), List.mem_map.mpr ⟨kv, hk, rfl⟩, by simpa [sprintS] using hs⟩
  have hsig : (msetSent env w cmdMap).1.p.cmds.map (fun cm => (cm.commandName, cm.args)) =
      (msetSent env w cmdMap).2.1.map (fun slot => (env.CMDMSET,
        (pairs.filter (fun kv => env.Slot kv.1 = slot)).flatMap
          (fun kv => [Value.str kv.1, kv.2]))) := by
    rw [msetSent_eq]
    simp only
    rw [(sendAll_p _ _).1]
    simp only [GetPipelinerConn, newPipeliner, List.map_nil, List.nil_append]
    apply List.map_congr_left
    intro slot _
    rw [hget slot, hsp slot]
  have hw : (msetSent env w cmdMap).1.w = w ∧
      (msetSent env w cmdMap).1.log = [Event.getPipelinerConn] := by
    rw [msetSent_eq]
    simp only
    exact sendAll_world _ (GetPipelinerConn w)
  have hrun : pairs ≠ [] →
      multiset env w (flatPairs (pairs.map (fun kv => (Value.str kv.1, kv.2)))) =
        match (Flush env (msetSent env w cmdMap).1).2 with
        | some e => closeAndReturn env (Flush env (msetSent env w cmdMap).1).1 Value.nil (some e)
        | none =>
          closeAndReturn env
            (msetRecv (msetSent env w cmdMap).2.1 (Flush env (msetSent env w cmdMap).1).1
              Value.nil).1
            (msetRecv (msetSent env w cmdMap).2.1 (Flush env (msetSent env w cmdMap).1).1
              Value.nil).2.1
            (msetRecv (msetSent env w cmdMap).2.1 (Flush env (msetSent env w cmdMap).1).1
              Value.nil).2.2 := by
    intro hne
    have hl : ¬ (flatPairs (pairs.map (fun kv => (Value.str kv.1, kv.2)))).length ≤ 0 := by
      cases pairs with
      | nil => exact absurd rfl hne
      | cons kv rest => simp [flatPairs]
    have hs : (msetSent env w cmdMap).2.2 = none := by rw [msetSent_eq]
    simp only [multiset, hl, if_false, hg, hs]
  refine ⟨cmdMap, hg, hsig, hond, homem, ?_, hw.1, hw.2, hrun⟩
  have hargs : (msetSent env w cmdMap).1.p.cmds.flatMap (fun cm => cm.args) =
      ((msetSent env w cmdMap).2.1.flatMap
        (fun slot => pairs.filter (fun kv => env.Slot kv.1 = slot))).flatMap
          (fun kv => [Value.str kv.1, kv.2]) := by
    have h1 : (msetSent env w cmdMap).1.p.cmds.flatMap (fun cm => cm.args) =
        ((msetSent env w cmdMap).1.p.cmds.map (fun cm => (cm.commandName, cm.args))).flatMap
          (fun na => na.2) := by
      rw [List.flatMap_map]
    rw [h1, hsig, List.flatMap_map, List.flatMap_assoc]
  rw [hargs]
  have hp := flatMap_filter_perm (fun kv : String × Value => env.Slot kv.1) pairs
    (msetSent env w cmdMap).2.1 hond (fun kv hk => (homem _).mpr ⟨kv, hk, rfl⟩)
  have := List.Perm.flatMap_right (fun kv : String × Value => [Value.str kv.1, kv.2]) hp
  simpa [flatPairs, List.flatMap_map, Function.comp_def] using this

/-- An instance of the set-many grouping: `k1 v1 c v2 k2 v3`, slots 1 and 2. The two
grouped commands are at positions 0 and 1 of the queue; the log of `multiset` shows each
sent once, on the connection of the node of its slot. -/
theorem multiset_grouping_witness :
    demoEnv.FairRange ∧
    (multiset demoEnv msetScript
      (flatPairs ([("k1", Value.str "v1"), ("c", Value.str "v2"),
        ("k2", Value.str "v3")].map (fun kv => (Value.str kv.1, kv.2))))).log =
      [Event.getPipelinerConn, Event.getAddrForSlots [1, 2] false,
       Event.getConnForAddr "n2" false false (some 2), Event.send 2 1, Event.flush 2,
       Event.receive 2 1 (Value.str "OK2") none,
       Event.getConnForAddr "n1" false false (some 1), Event.send 1 0, Event.flush 1,
       Event.receive 1 0 (Value.str "OK") none,
       Event.close 2, Event.close 1] ∧
    ∃ cmdMap,
      msetGroup demoEnv (flatPairs ([("k1", Value.str "v1"), ("c", Value.str "v2"),
        ("k2", Value.str "v3")].map (fun kv => (Value.str kv.1, kv.2)))) [] = some cmdMap ∧
      (msetSent demoEnv msetScript cmdMap).1.p.cmds.map (fun cm => (cm.commandName, cm.args)) =
        (msetSent demoEnv msetScript cmdMap).2.1.map (fun slot => (demoEnv.CMDMSET,
          ([("k1", Value.str "v1"), ("c", Value.str "v2"), ("k2", Value.str "v3")].filter
            (fun kv => demoEnv.Slot kv.1 = slot)).flatMap
            (fun kv => [Value.str kv.1, kv.2]))) ∧
      (msetSent demoEnv msetScript cmdMap).2.1.Nodup ∧
      (∀ slot, slot ∈ (msetSent demoEnv msetScript cmdMap).2.1 ↔
        ∃ kv ∈ [("k1", Value.str "v1"), ("c", Value.str "v2"), ("k2", Value.str "v3")],
          demoEnv.Slot kv.1 = slot) ∧
      ((msetSent demoEnv msetScript cmdMap).1.p.cmds.flatMap (fun cm => cm.args)).Perm
        (flatPairs ([("k1", Value.str "v1"), ("c", Value.str "v2"),
          ("k2", Value.str "v3")].map (fun kv => (Value.str kv.1, kv.2)))) ∧
      (msetSent demoEnv msetScript cmdMap).1.w = msetScript ∧
      (msetSent demoEnv msetScript cmdMap).1.log = [Event.getPipelinerConn] ∧
      (([("k1", Value.str "v1"), ("c", Value.str "v2"), ("k2", Value.str "v3")] :
          List (String × Value)) ≠ [] →
        multiset demoEnv msetScript
            (flatPairs ([("k1", Value.str "v1"), ("c", Value.str "v2"),
              ("k2", Value.str "v3")].map (fun kv => (Value.str kv.1, kv.2)))) =
          match (Flush demoEnv (msetSent demoEnv msetScript cmdMap).1).2 with
          | some e =>
            closeAndReturn demoEnv (Flush demoEnv (msetSent demoEnv msetScript cmdMap).1).1
              Value.nil (some e)
          | none =>
            closeAndReturn demoEnv
              (msetRecv (msetSent demoEnv msetScript cmdMap).2.1
                (Flush demoEnv (msetSent demoEnv msetScript cmdMap).1).1 Value.nil).1
              (msetRecv (msetSent demoEnv msetScript cmdMap).2.1
                (Flush demoEnv (msetSent demoEnv msetScript cmdMap).1).1 Value.nil).2.1
              (msetRecv (msetSent demoEnv msetScript cmdMap).2.1
                (Flush demoEnv (msetSent demoEnv msetScript cmdMap).1).1 Value.nil).2.2) :=
  ⟨demoEnv_fair, rfl, multiset_grouping demoEnv demoEnv_fair msetScript
    [("k1", Value.str "v1"), ("c", Value.str "v2"), ("k2", Value.str "v3")]⟩

/-! ## The shape of the batches -/

theorem positions_lower {α : Type} (P : α → Bool) (l : List α) (i : Nat) :
    ∀ j ∈ positions P l i, i ≤ j := fun j hj => (mem_positions P l i j hj).1

theorem positions_sorted {α : Type} (P : α → Bool) (l : List α) :
    ∀ i, (positions P l i).Pairwise (fun a b => a < b) := by
  induction l with
  | nil => intro i; simp [positions]
  | cons a rest ih =>
    intro i
    simp only [positions]
    split
    · refine List.pairwise_cons.mpr ⟨fun j hj => ?_, ih _⟩
      have := positions_lower P rest (i + 1) j hj
      omega
    · exact ih _

theorem positions_mem_of {α : Type} (P : α → Bool) (l : List α) :
    ∀ (i j : Nat) (a : α), i ≤ j → l[j - i]? = some a → P a = true → j ∈ positions P l i := by
  induction l with
  | nil => intro i j a _ h _; simp at h
  | cons b rest ih =>
    intro i j a hij hget hP
    simp only [positions]
    by_cases hji : j = i
    · subst hji
      simp only [Nat.sub_self, List.getElem?_cons_zero, Option.some.injEq] at hget
      subst hget
      rw [if_pos hP]
      exact List.mem_cons_self _ _
    · have hlt : i + 1 ≤ j := by omega
      have hget2 : rest[j - (i + 1)]? = some a := by
        have : j - i = (j - (i + 1)) + 1 := by omega
        rw [this, List.getElem?_cons_succ] at hget
        exact hget
      have := ih (i + 1) j a hlt hget2 hP
      split
      · exact List.mem_cons_of_mem _ this
      · exact this

theorem groupLoop_fields (addrs : List String) :
    ∀ (i : Nat) (p : pipeLiner),
      ((∀ k bt, mapGet p.batches k = some bt → bt.addr = k) →
        ∀ k bt, mapGet (groupLoop addrs i p).batches k = some bt → bt.addr = k) ∧
      (∀ j, (groupLoop addrs i p).cmds[j]? =
        if i ≤ j ∧ 0 < ((addrs[j - i]?).getD "").length then
          (p.cmds[j]?).map (fun cm => { cm with addr := (addrs[j - i]?).getD "" })
        else p.cmds[j]?) := by
  induction addrs with
  | nil =>
    intro i p
    refine ⟨fun h => h, fun j => ?_⟩
    simp [groupLoop]
  | cons a rest ih =>
    intro i p
    have hidx : ∀ j, i + 1 ≤ j → (a :: rest)[j - i]? = rest[j - (i + 1)]? := by
      intro j hj
      have : j - i = (j - (i + 1)) + 1 := by omega
      rw [this, List.getElem?_cons_succ]
    simp only [groupLoop]
    by_cases ha : 0 < a.length
    · rw [if_pos ha]
      obtain ⟨h1, h2⟩ := ih (i + 1)
        { cmds := setAt p.cmds i (fun cm => { cm with addr := a }),
          connForDo := p.connForDo, forceDial := p.forceDial, readOnly := p.readOnly,
          flushed := p.flushed, recvPos := p.recvPos,
          batches := mapSet p.batches a
            { addr := (match mapGet p.batches a with
                | some b => b
                | none => { addr := a, conn := none, cmds := [] }).addr,
              conn := (match mapGet p.batches a with
                | some b => b
                | none => { addr := a, conn := none, cmds := [] }).conn,
              cmds := (match mapGet p.batches a with
                | some b => b
                | none => { addr := a, conn := none, cmds := [] }).cmds ++ [i] } }
      refine ⟨fun hinv => h1 (fun k bt hk => ?_), fun j => ?_⟩
      · rw [mapGet_mapSet] at hk
        by_cases hka : k = a
        · rw [if_pos hka] at hk
          rw [← Option.some.inj hk, hka]
          cases hg : mapGet p.batches a with
          | none => rfl
          | some b => exact hinv a b hg
        · rw [if_neg hka] at hk
          exact hinv k bt hk
      · rw [h2 j]
        simp only [setAt_getElem?]
        by_cases hji : j = i
        · subst hji
          have h0 : ¬ (j + 1 ≤ j ∧ 0 < ((rest[j - (j + 1)]?).getD "").length) := by omega
          simp [h0, ha]
        · by_cases hlt : i + 1 ≤ j
          · have hle : i ≤ j := by omega
            simp only [hlt, hle, true_and, hidx j hlt, hji, if_false]
          · have hle : ¬ i ≤ j := by omega
            simp [hlt, hle, hji]
    · rw [if_neg ha]
      obtain ⟨h1, h2⟩ := ih (i + 1) p
      refine ⟨h1, fun j => ?_⟩
      rw [h2 j]
      by_cases hji : j = i
      · subst hji
        have h0 : ¬ (j + 1 ≤ j ∧ 0 < ((rest[j - (j + 1)]?).getD "").length) := by omega
        simp [h0, ha]
      · by_cases hlt : i + 1 ≤ j
        · have hle : i ≤ j := by omega
          simp only [hlt, hle, true_and, hidx j hlt]
        · have hle : ¬ i ≤ j := by omega
          simp [hlt, hle]

theorem buildBatches_ok_eq {W : Type} (env : Env W) (s : Sys W)
    (hb : (buildBatches env s).2 = none) :
    (buildBatches env s).1.p =
      groupLoop (env.getAddrForSlots s.w ((setSlots env s.p.cmds).map (fun cm => cm.slot))
          s.p.readOnly).1.1 0
        { connForDo := s.p.connForDo, cmds := setSlots env s.p.cmds, forceDial := s.p.forceDial,
          readOnly := s.p.readOnly, flushed := s.p.flushed, recvPos := s.p.recvPos,
          batches := [] } := by
  unfold buildBatches at hb ⊢
  simp only at hb ⊢
  split at hb
  · simp at hb
  · split at hb
    · simp at hb
    · rename_i hl
      rw [if_neg hl]

/-- C15. Batches partition the queue by address: after a successful `buildBatches` the
resolver gave one address per descriptor; a descriptor with a non-empty resolved address
`a` is a member of the batch under `k` exactly when `k = a`, that batch exists and has
address `a`, and `a` is stored as the descriptor's target address; the members of every
batch are strictly increasing queue positions, so they keep the queue order and none
occurs twice; no key of the map is repeated. -/
theorem batches_partition {W : Type} (env : Env W) (s : Sys W)
    (hb : (buildBatches env s).2 = none) :
    (env.getAddrForSlots s.w ((setSlots env s.p.cmds).map (fun cm => cm.slot))
      s.p.readOnly).1.1.length = s.p.cmds.length ∧
    (∀ i a, (env.getAddrForSlots s.w ((setSlots env s.p.cmds).map (fun cm => cm.slot))
        s.p.readOnly).1.1[i]? = some a → 0 < a.length →
      (∀ k, i ∈ members (buildBatches env s).1.p.batches k ↔ k = a) ∧
      (∃ bt, mapGet (buildBatches env s).1.p.batches a = some bt ∧ bt.addr = a) ∧
      (∃ cm, (buildBatches env s).1.p.cmds[i]? = some cm ∧ cm.addr = a)) ∧
    (∀ k, (members (buildBatches env s).1.p.batches k).Pairwise (fun x y => x < y)) ∧
    (∀ k, (members (buildBatches env s).1.p.batches k).Nodup) ∧
    (mapKeys (buildBatches env s).1.p.batches).Nodup := by
  obtain ⟨hm, hnd, hlen⟩ := buildBatches_members env s hb
  have heq := buildBatches_ok_eq env s hb
  obtain ⟨hf1, hf2⟩ := groupLoop_fields
    (env.getAddrForSlots s.w ((setSlots env s.p.cmds).map (fun cm => cm.slot))
      s.p.readOnly).1.1 0
    { connForDo := s.p.connForDo, cmds := setSlots env s.p.cmds, forceDial := s.p.forceDial,
      readOnly := s.p.readOnly, flushed := s.p.flushed, recvPos := s.p.recvPos,
      batches := [] }
  refine ⟨hlen, fun i a hia hpos => ?_, fun k => ?_, fun k => ?_, hnd⟩
  · have hmem : ∀ k, i ∈ members (buildBatches env s).1.p.batches k ↔ k = a := by
      intro k
      rw [hm k]
      constructor
      · intro h
        obtain ⟨-, -, b, hb1, hb2⟩ := mem_positions _ _ _ _ h
        simp only [Nat.sub_zero, Bool.and_eq_true, decide_eq_true_eq] at hb1 hb2
        rw [hia] at hb1
        rw [Option.some.inj hb1]; exact hb2.1.symm
      · intro h
        exact positions_mem_of _ _ 0 i a (Nat.zero_le _) (by simpa using hia)
          (by simp [h, hpos])
    refine ⟨hmem, ?_, ?_⟩
    · have hin := (hmem a).mpr rfl
      cases hg : mapGet (buildBatches env s).1.p.batches a with
      | none => simp [members, hg] at hin
      | some bt =>
        refine ⟨bt, rfl, ?_⟩
        rw [heq] at hg
        exact hf1 (fun k bt h => by simp [mapGet] at h) a bt hg
    · have hi : i < (setSlots env s.p.cmds).length := by
        have := (List.getElem?_eq_some_iff.mp hia).1
        simp [setSlots]; omega
      rw [heq, hf2 i]
      simp only [Nat.zero_le, Nat.sub_zero, hia, Option.getD_some, hpos, and_self, if_true,
        List.getElem?_eq_getElem hi, Option.map_some']
      exact ⟨_, rfl, rfl⟩
  · rw [hm k]; exact positions_sorted _ _ _
  · rw [hm k]; exact positions_nodup _ _ _

/-- An instance of the partition: the two requests of `twoGetsSession`. -/
theorem batches_partition_witness :
    (buildBatches demoEnv twoGetsSession).2 = none ∧
    members (buildBatches demoEnv twoGetsSession).1.p.batches "n1" = [0] ∧
    members (buildBatches demoEnv twoGetsSession).1.p.batches "n2" = [1] ∧
    ∀ k, (members (buildBatches demoEnv twoGetsSession).1.p.batches k).Nodup :=
  ⟨rfl, rfl, rfl, (batches_partition demoEnv twoGetsSession rfl).2.2.2.1⟩

theorem redirLoop_keep (cs : List cmd) :
    ∀ (i : Nat) (m : List (String × batch)) (n : Nat),
      (∀ k bt, mapGet m k = some bt →
        ∃ bt2, mapGet (redirLoop cs i m n).1 k = some bt2 ∧ bt2.conn = bt.conn ∧
          bt2.addr = bt.addr) ∧
      (redirLoop cs i m n).2 = n + cs.countP (fun cm => cm.re.isSome) := by
  induction cs with
  | nil => intro i m n; exact ⟨fun k bt h => ⟨bt, h, rfl, rfl⟩, by simp [redirLoop]⟩
  | cons cm rest ih =>
    intro i m n
    cases hre : cm.re with
    | none =>
      have hstep : redirLoop (cm :: rest) i m n = redirLoop rest (i + 1) m n := by
        simp [redirLoop, hre]
      rw [hstep]
      obtain ⟨h1, h2⟩ := ih (i + 1) m n
      refine ⟨h1, ?_⟩
      rw [h2, List.countP_cons_of_neg]
      simp [hre]
    | some rd =>
      have hstep : redirLoop (cm :: rest) i m n = redirLoop rest (i + 1)
          (mapSet m rd.Addr
            { addr := (match mapGet m rd.Addr with
                | some b => b
                | none => { addr := rd.Addr, conn := none, cmds := [] }).addr,
              conn := (match mapGet m rd.Addr with
                | some b => b
                | none => { addr := rd.Addr, conn := none, cmds := [] }).conn,
              cmds := (match mapGet m rd.Addr with
                | some b => b
                | none => { addr := rd.Addr, conn := none, cmds := [] }).cmds ++ [i] })
          (n + 1) := by
        simp [redirLoop, hre]
      rw [hstep]
      obtain ⟨h1, h2⟩ := ih (i + 1)
        (mapSet m rd.Addr
          { addr := (match mapGet m rd.Addr with
              | some b => b
              | none => { addr := rd.Addr, conn := none, cmds := [] }).addr,
            conn := (match mapGet m rd.Addr with
              | some b => b
              | none => { addr := rd.Addr, conn := none, cmds := [] }).conn,
            cmds := (match mapGet m rd.Addr with
              | some b => b
              | none => { addr := rd.Addr, conn := none, cmds := [] }).cmds ++ [i] }) (n + 1)
      refine ⟨fun k bt hk => ?_, ?_⟩
      · by_cases hka : k = rd.Addr
        · subst hka
          obtain ⟨bt2, a1, a2, a3⟩ := h1 rd.Addr _ (by rw [mapGet_mapSet, if_pos rfl])
          refine ⟨bt2, a1, ?_, ?_⟩
          · rw [a2, hk]
          · rw [a3, hk]
        · exact h1 k bt (by rw [mapGet_mapSet, if_neg hka]; exact hk)
      · rw [h2, List.countP_cons_of_pos]
        · omega
        · simp [hre]

/-- C16. Redirect batches reflect only the redirect pass: after `buildRedirectBatches` the
members of the batch under an address are exactly the queue positions of the descriptors
that carry a redirect to that address, in increasing order; a batch that was in the map
before is still there with its connection, and has no members when no redirect names its
address; the count returned is the number of descriptors that carry a redirect. -/
theorem redirect_batches (p : pipeLiner) :
    (∀ k i, i ∈ members (buildRedirectBatches p).1.batches k ↔
      ∃ cm rd, p.cmds[i]? = some cm ∧ cm.re = some rd ∧ rd.Addr = k) ∧
    (∀ k, (members (buildRedirectBatches p).1.batches k).Pairwise (fun x y => x < y)) ∧
    (∀ k bt, mapGet p.batches k = some bt →
      ∃ bt2, mapGet (buildRedirectBatches p).1.batches k = some bt2 ∧ bt2.conn = bt.conn ∧
        ((∀ cm ∈ p.cmds, ∀ rd, cm.re = some rd → rd.Addr ≠ k) → bt2.cmds = [])) ∧
    (buildRedirectBatches p).2 = p.cmds.countP (fun cm => cm.re.isSome) ∧
    (buildRedirectBatches p).1.cmds = p.cmds := by
  obtain ⟨hm, -, hc⟩ := buildRedirect_members p
  have hmem : ∀ k i, i ∈ members (buildRedirectBatches p).1.batches k ↔
      ∃ cm rd, p.cmds[i]? = some cm ∧ cm.re = some rd ∧ rd.Addr = k := by
    intro k i
    rw [hm k]
    constructor
    · intro h
      obtain ⟨-, -, cm, h1, h2⟩ := mem_positions _ _ _ _ h
      simp only [Nat.sub_zero, decide_eq_true_eq] at h1 h2
      cases hre : cm.re with
      | none => rw [hre] at h2; simp at h2
      | some rd =>
        rw [hre] at h2
        exact ⟨cm, rd, h1, hre, by simpa using h2⟩
    · rintro ⟨cm, rd, h1, h2, h3⟩
      exact positions_mem_of _ _ 0 i cm (Nat.zero_le _) (by simpa using h1)
        (by simp [h2, h3])
  obtain ⟨hk, hn⟩ := redirLoop_keep p.cmds 0
    (p.batches.map (fun kb => (kb.1, { kb.2 with cmds := [] }))) 0
  refine ⟨hmem, fun k => by rw [hm k]; exact positions_sorted _ _ _, fun k bt hg => ?_, ?_, hc⟩
  · obtain ⟨bt2, a1, a2, -⟩ := hk k { bt with cmds := [] } (by rw [mapGet_clear, hg]; rfl)
    refine ⟨bt2, a1, a2, fun hno => ?_⟩
    have hmk : members (buildRedirectBatches p).1.batches k = bt2.cmds := by
      show members (redirLoop p.cmds 0 _ 0).1 k = _
      simp only [members, a1]
    rw [← hmk]
    apply List.eq_nil_iff_forall_not_mem.mpr
    intro i hi
    obtain ⟨cm, rd, h1, h2, h3⟩ := (hmem k i).mp hi
    obtain ⟨hlt, hget⟩ := List.getElem?_eq_some_iff.mp h1
    exact hno cm (hget ▸ List.getElem_mem hlt) rd h2 h3
  · show (redirLoop p.cmds 0 _ 0).2 = _
    rw [hn]; simp

/-! ## One batch on its connection -/

theorem connOps_append (c : Conn) (l1 l2 : List Event) :
    connOps c (l1 ++ l2) = connOps c l1 ++ connOps c l2 := by
  simp [connOps, List.filter_append]

theorem sendLoop_exact {W : Type} (env : Env W) (c : Conn) (l : List Nat) :
    ∀ s : Sys W, (sendLoop env c l s).2 = none →
      (sendLoop env c l s).1.log = s.log ++ l.map (Event.send c) := by
  induction l with
  | nil => intro s _; simp [sendLoop]
  | cons i rest ih =>
    intro s h
    simp only [sendLoop] at h ⊢
    split at h
    · simp at h
    · rename_i he
      simp only [he] at ih ⊢
      rw [ih _ h]
      simp

theorem recvOne_connOps {W : Type} (env : Env W) (c : Conn) (i : Nat) (s : Sys W) :
    ∃ evs, (recvOne env c i s).log = s.log ++ evs ∧
      connOps c evs = [Event.receive c i (env.connReceive s.w c).1.1
        (env.connReceive s.w c).1.2] := by
  unfold recvOne
  simp only
  cases he : (env.connReceive s.w c).1.2 with
  | none => exact ⟨[_], rfl, by simp [connOps]⟩
  | some e =>
    dsimp only
    cases hp : env.ParseRedir e with
    | none => exact ⟨[_], rfl, by simp [connOps]⟩
    | some rd =>
      dsimp only
      by_cases hm : rd.Typ = "MOVED"
      · rw [if_pos hm]
        exact ⟨[Event.receive c i (env.connReceive s.w c).1.1 (some e), Event.needsRefresh rd],
          by simp, by simp [connOps]⟩
      · rw [if_neg hm]
        exact ⟨[_], rfl, by simp [connOps]⟩

theorem recvLoop_exact {W : Type} (env : Env W) (c : Conn) (l : List Nat) :
    ∀ s : Sys W, l.Nodup → (∀ i ∈ l, i < s.p.cmds.length) →
      ∃ (results : List (Value × Option String)) (evs : List Event),
        results.length = l.length ∧ (recvLoop env c l s).log = s.log ++ evs ∧
        connOps c evs = List.zipWith (fun i r => Event.receive c i r.1 r.2) l results ∧
        ∀ (j i : Nat), l[j]? = some i →
          ∃ (cm : cmd) (r : Value × Option String),
            (recvLoop env c l s).p.cmds[i]? = some cm ∧ results[j]? = some r ∧
            cm.reply = r.1 ∧ cm.reply_err = r.2 := by
  induction l with
  | nil => intro s _ _; exact ⟨[], [], rfl, by simp [recvLoop], by simp [connOps], by simp⟩
  | cons i rest ih =>
    intro s hnd hval
    obtain ⟨hni, hnd2⟩ := List.nodup_cons.mp hnd
    have hlen : (recvOne env c i s).p.cmds.length = s.p.cmds.length :=
      Frame_length (recvOne_frame env c i s)
    obtain ⟨results, evs, a1, a2, a3, a4⟩ := ih (recvOne env c i s) hnd2
      (fun j hj => by rw [hlen]; exact hval j (List.mem_cons_of_mem _ hj))
    obtain ⟨e1, b1, b2⟩ := recvOne_connOps env c i s
    obtain ⟨-, e1', c1, -, -, c4⟩ := recvOne_spec env c i s
    obtain ⟨-, e2', d1, -, d3, d4⟩ := recvLoop_spec env c rest (recvOne env c i s)
    refine ⟨(env.connReceive s.w c).1 :: results, e1 ++ evs, by simp [a1], ?_, ?_, ?_⟩
    · simp only [recvLoop]; rw [a2, b1, List.append_assoc]
    · rw [connOps_append, b2, a3]; rfl
    · intro j k hjk
      cases j with
      | zero =>
        simp only [List.getElem?_cons_zero, Option.some.injEq] at hjk
        subst hjk
        have hi : i < s.p.cmds.length := hval i (List.mem_cons_self _ _)
        have hun : (recvLoop env c rest (recvOne env c i s)).p.cmds[i]? =
            (recvOne env c i s).p.cmds[i]? := by
          rw [d4 i]
          have h0 : recvsOf i e2' = [] := by
            have := d3 i
            rw [List.count_eq_zero.mpr hni] at this
            exact List.length_eq_zero.mp this
          rw [h0]; simp
        refine ⟨applyRecv env s.p.cmds[i] (env.connReceive s.w c).1, (env.connReceive s.w c).1,
          ?_, by simp, rfl, rfl⟩
        simp only [recvLoop]
        rw [hun, c4 i, if_pos rfl, List.getElem?_eq_getElem hi]
        rfl
      | succ j =>
        simp only [List.getElem?_cons_succ] at hjk
        obtain ⟨cm, r, h1, h2, h3, h4⟩ := a4 j k hjk
        exact ⟨cm, r, by simp only [recvLoop]; exact h1, by simpa using h2, h3, h4⟩

theorem run_body_ok {W : Type} (env : Env W) (bt : batch) (s : Sys W)
    (hok : (match bt.conn with
        | none => (bt, s, some "GetConnForAddr failed")
        | some c =>
          match (sendLoop env c bt.cmds s).2 with
          | some e => (bt, (sendLoop env c bt.cmds s).1, some e)
          | none =>
            match (env.connFlush (sendLoop env c bt.cmds s).1.w c).1 with
            | some e =>
              (bt, { (sendLoop env c bt.cmds s).1 with
                      w := (env.connFlush (sendLoop env c bt.cmds s).1.w c).2,
                      log := (sendLoop env c bt.cmds s).1.log ++ [Event.flush c] }, some e)
            | none =>
              (bt, recvLoop env c bt.cmds
                { (sendLoop env c bt.cmds s).1 with
                    w := (env.connFlush (sendLoop env c bt.cmds s).1.w c).2,
                    log := (sendLoop env c bt.cmds s).1.log ++ [Event.flush c] },
                (none : Option String))).2.2 = none) :
    ∃ c, bt.conn = some c ∧ (sendLoop env c bt.cmds s).2 = none ∧
      (match bt.conn with
        | none => (bt, s, some "GetConnForAddr failed")
        | some c =>
          match (sendLoop env c bt.cmds s).2 with
          | some e => (bt, (sendLoop env c bt.cmds s).1, some e)
          | none =>
            match (env.connFlush (sendLoop env c bt.cmds s).1.w c).1 with
            | some e =>
              (bt, { (sendLoop env c bt.cmds s).1 with
                      w := (env.connFlush (sendLoop env c bt.cmds s).1.w c).2,
                      log := (sendLoop env c bt.cmds s).1.log ++ [Event.flush c] }, some e)
            | none =>
              (bt, recvLoop env c bt.cmds
                { (sendLoop env c bt.cmds s).1 with
                    w := (env.connFlush (sendLoop env c bt.cmds s).1.w c).2,
                    log := (sendLoop env c bt.cmds s).1.log ++ [Event.flush c] },
                (none : Option String))) =
        (bt, recvLoop env c bt.cmds
          { (sendLoop env c bt.cmds s).1 with
              w := (env.connFlush (sendLoop env c bt.cmds s).1.w c).2,
              log := (sendLoop env c bt.cmds s).1.log ++ [Event.flush c] }, none) := by
  cases hc : bt.conn with
  | none => rw [hc] at hok; simp at hok
  | some c =>
    rw [hc] at hok
    dsimp only at hok ⊢
    cases hs : (sendLoop env c bt.cmds s).2 with
    | some e => rw [hs] at hok; simp at hok
    | none =>
      rw [hs] at hok
      dsimp only at hok ⊢
      cases hfl : (env.connFlush (sendLoop env c bt.cmds s).1.w c).1 with
      | some e => rw [hfl] at hok; simp at hok
      | none => exact ⟨c, rfl, hs, rfl⟩

/-- A run that returns no error: the connection `c` is held by the batch afterwards, the
acquisition (if any) left the session as it was and issued nothing on a connection, every
send succeeded, and the run ends with the receive loop after one network flush. -/
theorem run_ok_shape {W : Type} (env : Env W) (bt : batch) (s : Sys W)
    (hok : (batch.run env bt s).2.2 = none) :
    ∃ (c : Conn) (s0 : Sys W) (pre : List Event),
      (batch.run env bt s).1.conn = some c ∧ s0.p = s.p ∧ s0.log = s.log ++ pre ∧
      (∀ c1, connOps c1 pre = []) ∧ (sendLoop env c bt.cmds s0).2 = none ∧
      (batch.run env bt s).2.1 = recvLoop env c bt.cmds
        { (sendLoop env c bt.cmds s0).1 with
            w := (env.connFlush (sendLoop env c bt.cmds s0).1.w c).2,
            log := (sendLoop env c bt.cmds s0).1.log ++ [Event.flush c] } := by
  by_cases h : bt.conn = none ∧ 0 < bt.addr.length
  · unfold batch.run at hok ⊢
    simp only [h, and_self, if_true] at hok ⊢
    obtain ⟨c, h1, h2, h3⟩ := run_body_ok env
      { bt with conn := (env.GetConnForAddr s.w bt.addr s.p.forceDial s.p.readOnly).1 }
      { s with w := (env.GetConnForAddr s.w bt.addr s.p.forceDial s.p.readOnly).2,
               log := s.log ++ [Event.getConnForAddr bt.addr s.p.forceDial s.p.readOnly
                 (env.GetConnForAddr s.w bt.addr s.p.forceDial s.p.readOnly).1] } hok
    refine ⟨c,
      { s with w := (env.GetConnForAddr s.w bt.addr s.p.forceDial s.p.readOnly).2,
               log := s.log ++ [Event.getConnForAddr bt.addr s.p.forceDial s.p.readOnly
                 (env.GetConnForAddr s.w bt.addr s.p.forceDial s.p.readOnly).1] },
      [Event.getConnForAddr bt.addr s.p.forceDial s.p.readOnly
        (env.GetConnForAddr s.w bt.addr s.p.forceDial s.p.readOnly).1], ?_, rfl, rfl,
      fun c1 => rfl, h2, ?_⟩
    · exact (congrArg (fun t => t.1.conn) h3).trans h1
    · exact congrArg (fun t => t.2.1) h3
  · unfold batch.run at hok ⊢
    simp only [h, if_false] at hok ⊢
    obtain ⟨c, h1, h2, h3⟩ := run_body_ok env bt s hok
    refine ⟨c, s, [], ?_, rfl, by simp, fun c1 => rfl, h2, ?_⟩
    · exact (congrArg (fun t => t.1.conn) h3).trans h1
    · exact congrArg (fun t => t.2.1) h3

theorem connOps_sends (c : Conn) (l : List Nat) :
    connOps c (l.map (Event.send c)) = l.map (Event.send c) := by
  induction l with
  | nil => rfl
  | cons i rest ih =>
    simp only [connOps, List.map_cons] at ih ⊢
    rw [List.filter_cons_of_pos (by simp), ih]

/-- C17. Pipelined discipline inside one batch: when `batch.run` returns no error (the
connection was acquired, every send and the network flush succeeded) on a batch whose
members are distinct positions of the queue, the calls issued on the batch's connection
are exactly one `Send` per member in order, one `Flush`, then one `Receive` per member in
order, and the `j`-th member ends with the reply and error of the `j`-th `Receive`. -/
theorem pipelined_discipline {W : Type} (env : Env W) (bt : batch) (s : Sys W)
    (hok : (batch.run env bt s).2.2 = none) (hnd : bt.cmds.Nodup)
    (hval : ∀ i ∈ bt.cmds, i < s.p.cmds.length) :
    ∃ (c : Conn) (results : List (Value × Option String)),
      (batch.run env bt s).1.conn = some c ∧ results.length = bt.cmds.length ∧
      connOps c (logSince s (batch.run env bt s).2.1) =
        bt.cmds.map (Event.send c) ++ [Event.flush c] ++
          List.zipWith (fun i r => Event.receive c i r.1 r.2) bt.cmds results ∧
      ∀ (j i : Nat), bt.cmds[j]? = some i →
        ∃ (cm : cmd) (r : Value × Option String),
          (batch.run env bt s).2.1.p.cmds[i]? = some cm ∧ results[j]? = some r ∧
          cm.reply = r.1 ∧ cm.reply_err = r.2 := by
  obtain ⟨c, s0, pre, h1, h2, h3, h4, h5, h6⟩ := run_ok_shape env bt s hok
  have hsl := sendLoop_exact env c bt.cmds s0 h5
  have hsp := sendLoop_p env c bt.cmds s0
  obtain ⟨results, evs, a1, a2, a3, a4⟩ := recvLoop_exact env c bt.cmds
    { (sendLoop env c bt.cmds s0).1 with
        w := (env.connFlush (sendLoop env c bt.cmds s0).1.w c).2,
        log := (sendLoop env c bt.cmds s0).1.log ++ [Event.flush c] } hnd
    (fun i hi => by
      show i < (sendLoop env c bt.cmds s0).1.p.cmds.length
      rw [hsp, h2]; exact hval i hi)
  refine ⟨c, results, h1, a1, ?_, fun j i hji => ?_⟩
  · have hlog : (batch.run env bt s).2.1.log =
        s.log ++ (pre ++ bt.cmds.map (Event.send c) ++ [Event.flush c] ++ evs) := by
      rw [h6, a2]
      show (sendLoop env c bt.cmds s0).1.log ++ [Event.flush c] ++ evs = _
      rw [hsl, h3]
      simp
    have hfl : connOps c [Event.flush c] = [Event.flush c] := by simp [connOps]
    rw [logSince_append _ _ _ hlog, connOps_append, connOps_append, connOps_append, h4 c,
      connOps_sends, a3, hfl, List.nil_append]
  · rw [h6]
    exact a4 j i hji

/-- An instance of the pipelined discipline: the batch of `n1` built for `sameNodeSession`
has the two members 0 and 1; both are sent, then the flush, then the two receives, and
member 0 ends with the first result, member 1 with the second. -/
theorem pipelined_discipline_witness :
    (batch.run demoEnv twoMemberBatch (buildBatches demoEnv sameNodeSession).1).2.2 = none ∧
    twoMemberBatch.cmds.Nodup ∧
    (∀ i ∈ twoMemberBatch.cmds, i < (buildBatches demoEnv sameNodeSession).1.p.cmds.length) ∧
    mapGet (buildBatches demoEnv sameNodeSession).1.p.batches "n1" = some twoMemberBatch ∧
    connOps 1 (logSince (buildBatches demoEnv sameNodeSession).1
        (batch.run demoEnv twoMemberBatch (buildBatches demoEnv sameNodeSession).1).2.1) =
      [Event.send 1 0, Event.send 1 1, Event.flush 1,
       Event.receive 1 0 (Value.int 10) none, Event.receive 1 1 (Value.int 20) none] ∧
    (batch.run demoEnv twoMemberBatch (buildBatches demoEnv sameNodeSession).1).2.1.p.cmds.map
        (fun cm => (cm.reply, cm.reply_err)) =
      [(Value.int 10, none), (Value.int 20, none)] ∧
    ∃ (c : Conn) (results : List (Value × Option String)),
      (batch.run demoEnv twoMemberBatch (buildBatches demoEnv sameNodeSession).1).1.conn =
        some c ∧
      results.length = twoMemberBatch.cmds.length ∧
      connOps c (logSince (buildBatches demoEnv sameNodeSession).1
          (batch.run demoEnv twoMemberBatch (buildBatches demoEnv sameNodeSession).1).2.1) =
        twoMemberBatch.cmds.map (Event.send c) ++ [Event.flush c] ++
          List.zipWith (fun i r => Event.receive c i r.1 r.2) twoMemberBatch.cmds results ∧
      ∀ (j i : Nat), twoMemberBatch.cmds[j]? = some i →
        ∃ (cm : cmd) (r : Value × Option String),
          (batch.run demoEnv twoMemberBatch
            (buildBatches demoEnv sameNodeSession).1).2.1.p.cmds[i]? = some cm ∧
          results[j]? = some r ∧ cm.reply = r.1 ∧ cm.reply_err = r.2 :=
  ⟨rfl, by decide, by decide, rfl, rfl, rfl,
   pipelined_discipline demoEnv twoMemberBatch (buildBatches demoEnv sameNodeSession).1 rfl
     (by decide) (by decide)⟩

/-! ## Redirect kinds -/

/-- C14, as stated, fails: one request whose initial-pass error is an ask-elsewhere
redirect to `n2`. The descriptor is put in the redirect batch of `n2`, sent a second time
there (no `needsRefresh` is issued) and ends with the reply of `n2`. -/
theorem ask_redirect_retried :
    (initialPass demoEnv askSession).p.cmds.map (fun cm => (cm.reply_err, cm.re)) =
      [(some "ASK 1 n2", some ⟨"ASK", 1, "n2"⟩)] ∧
    members (buildRedirectBatches (initialPass demoEnv askSession).p).1.batches "n2" = [0] ∧
    logSince askSession (Flush demoEnv askSession).1 =
      [Event.getAddrForSlots [1] false,
       Event.getConnForAddr "n1" false false (some 1), Event.send 1 0, Event.flush 1,
       Event.receive 1 0 Value.nil (some "ASK 1 n2"),
       Event.getConnForAddr "n2" false false (some 2), Event.send 2 0, Event.flush 2,
       Event.receive 2 0 (Value.int 7) none] ∧
    sendCount 0 (logSince askSession (Flush demoEnv askSession).1) = 2 ∧
    (Flush demoEnv askSession).1.p.cmds.map (fun cm => (cm.reply, cm.reply_err)) =
      [(Value.int 7, none)] :=
  ⟨rfl, rfl, rfl, rfl, rfl⟩

/-! ## After the flush -/

theorem Receive_log {W : Type} (s : Sys W) :
    (Receive s).1.log = s.log ∧ (Receive s).1.w = s.w ∧
    (Receive s).1.p.batches = s.p.batches ∧ (Receive s).1.p.connForDo = s.p.connForDo := by
  unfold Receive
  split
  · exact ⟨rfl, rfl, rfl, rfl⟩
  · split
    · exact ⟨rfl, rfl, rfl, rfl⟩
    · simp only; split <;> exact ⟨rfl, rfl, rfl, rfl⟩

theorem Do_log {W : Type} (env : Env W) (s : Sys W) (n : String) (a : List Value) :
    ∃ evs, (Do env s n a).1.log = s.log ++ evs ∧
      ∀ e ∈ evs, (∃ c, e = Event.retryConn c) ∨ (∃ c m, e = Event.connDo c m) := by
  unfold Do
  cases h : s.p.connForDo with
  | none =>
    dsimp only
    cases he : (env.RetryConn s.w).1.2 with
    | some e =>
      exact ⟨[Event.retryConn (env.RetryConn s.w).1.1], rfl, fun e he => by
        simp only [List.mem_singleton] at he; exact Or.inl ⟨_, he⟩⟩
    | none =>
      dsimp only
      cases hc : (env.RetryConn s.w).1.1 with
      | none =>
        exact ⟨[Event.retryConn none], by simp, fun e he => by
          simp only [List.mem_singleton] at he; exact Or.inl ⟨_, he⟩⟩
      | some c =>
        exact ⟨[Event.retryConn (some c), Event.connDo c n], by simp, fun e he => by
          simp only [List.mem_cons, List.mem_singleton, List.not_mem_nil, or_false] at he
          rcases he with h1 | h1
          · exact Or.inl ⟨_, h1⟩
          · exact Or.inr ⟨_, _, h1⟩⟩
  | some c =>
    exact ⟨[Event.connDo c n], by simp [h], fun e he => by
      simp only [List.mem_singleton] at he; exact Or.inr ⟨_, _, he⟩⟩

theorem closeLoop_log {W : Type} (env : Env W) (ks : List String) :
    ∀ s : Sys W, ∃ evs, (ks.foldl (closeLoop env) s).log = s.log ++ evs ∧
      ∀ e ∈ evs, ∃ c, e = Event.close c := by
  induction ks with
  | nil => intro s; exact ⟨[], by simp, by simp⟩
  | cons k rest ih =>
    intro s
    obtain ⟨evs, h1, h2⟩ := ih (closeLoop env s k)
    have hstep : ∃ e1, (closeLoop env s k).log = s.log ++ e1 ∧ ∀ e ∈ e1, ∃ c, e = Event.close c := by
      unfold closeLoop
      split
      · split
        · exact ⟨[_], rfl, fun e he => by
            simp only [List.mem_singleton] at he; exact ⟨_, he⟩⟩
        · exact ⟨[], by simp, by simp⟩
      · exact ⟨[], by simp, by simp⟩
    obtain ⟨e1, g1, g2⟩ := hstep
    refine ⟨e1 ++ evs, by simp only [List.foldl_cons]; rw [h1, g1, List.append_assoc], ?_⟩
    intro e he
    rcases List.mem_append.mp he with h | h
    · exact g2 e h
    · exact h2 e h

theorem Close_log {W : Type} (env : Env W) (s : Sys W) :
    ∃ evs, (Close env s).1.log = s.log ++ evs ∧ ∀ e ∈ evs, ∃ c, e = Event.close c := by
  unfold Close
  simp only
  cases h : s.p.connForDo with
  | none =>
    dsimp only
    exact closeLoop_log env _ s
  | some c =>
    dsimp only
    obtain ⟨evs, h1, h2⟩ := closeLoop_log env
      (env.rangeBatches (env.connClose s.w c) (mapKeys s.p.batches))
      { s with w := env.connClose s.w c, log := s.log ++ [Event.close c] }
    refine ⟨[Event.close c] ++ evs, by rw [h1]; simp, ?_⟩
    intro e he
    rcases List.mem_append.mp he with h | h
    · simp only [List.mem_singleton] at h; exact ⟨_, h⟩
    · exact h2 e h

/-- From a flushed session on, the queue only grows at its end and the log only grows by
calls of the ad hoc connection and by closes. -/
theorem After_flushed {W : Type} {env : Env W} {s0 t : Sys W} (hf : s0.p.flushed = true)
    (h : After env s0 t) :
    t.p.flushed = true ∧ (∃ extra, t.p.cmds = s0.p.cmds ++ extra) ∧
    ∃ evs, t.log = s0.log ++ evs ∧
      ∀ e ∈ evs, (∃ c, e = Event.retryConn c) ∨ (∃ c m, e = Event.connDo c m) ∨
        (∃ c, e = Event.close c) := by
  induction h with
  | here => exact ⟨hf, ⟨[], by simp⟩, [], by simp, by simp⟩
  | send t n a _ ih =>
    obtain ⟨h1, ⟨extra, h2⟩, h3⟩ := ih
    refine ⟨h1, ⟨extra ++ [⟨n, a, Value.nil, none, 0, "", none⟩], ?_⟩, h3⟩
    simp only [Send]
    rw [h2, List.append_assoc]
  | flush t _ ih =>
    rw [Flush_flushed env t ih.1]
    exact ih
  | receive t _ ih =>
    obtain ⟨h1, h2, h3⟩ := ih
    rw [Receive_flushed, Receive_cmds, (Receive_log t).1]
    exact ⟨h1, h2, h3⟩
  | doCmd t n a _ ih =>
    obtain ⟨h1, h2, evs, h3, h4⟩ := ih
    obtain ⟨e1, g1, g2⟩ := Do_log env t n a
    rw [Do_flushed, Do_cmds]
    refine ⟨h1, h2, evs ++ e1, by rw [g1, h3, List.append_assoc], fun e he => ?_⟩
    rcases List.mem_append.mp he with h | h
    · exact h4 e h
    · rcases g2 e h with h5 | h5
      · exact Or.inl h5
      · exact Or.inr (Or.inl h5)
  | close t _ ih =>
    obtain ⟨h1, h2, evs, h3, h4⟩ := ih
    obtain ⟨e1, g1, g2⟩ := Close_log env t
    rw [Close_p]
    refine ⟨h1, h2, evs ++ e1, by rw [g1, h3, List.append_assoc], fun e he => ?_⟩
    rcases List.mem_append.mp he with h | h
    · exact h4 e h
    · exact Or.inr (Or.inr (g2 e h))

/-- C19. Commands sent after a successful flush are never executed: on a session on which
some `Flush` has succeeded, the descriptor appended by a `Send` stays as it was created
(nil reply, nil error) whatever calls follow; those calls issue no resolver call and
nothing on a node connection for any descriptor (only calls of the ad hoc connection and
closes), and the `Receive` whose cursor reaches the descriptor returns a nil reply and a
nil error. -/
theorem send_after_flush {W : Type} (env : Env W) (s : Sys W) (hfl : Flushed env s)
    (commandName : String) (args : List Value) (t : Sys W)
    (ht : After env (Send s commandName args).1 t) :
    t.p.cmds[s.p.cmds.length]? =
      some ⟨commandName, args, Value.nil, none, 0, "", none⟩ ∧
    (∀ e ∈ logSince (Send s commandName args).1 t,
      (∃ c, e = Event.retryConn c) ∨ (∃ c m, e = Event.connDo c m) ∨
        (∃ c, e = Event.close c)) ∧
    sendCount s.p.cmds.length (logSince (Send s commandName args).1 t) = 0 ∧
    (t.p.recvPos + 1 = s.p.cmds.length → (Receive t).2 = (Value.nil, none)) := by
  have hf0 : s.p.flushed = true := Flushed_is_flushed hfl
  have hf : (Send s commandName args).1.p.flushed = true := hf0
  obtain ⟨h1, ⟨extra, h2⟩, evs, h3, h4⟩ := After_flushed hf ht
  have hget : t.p.cmds[s.p.cmds.length]? =
      some ⟨commandName, args, Value.nil, none, 0, "", none⟩ := by
    rw [h2]
    simp only [Send]
    rw [List.append_assoc, List.getElem?_append_right (Nat.le_refl _)]
    simp
  have hlt : s.p.cmds.length < t.p.cmds.length := by
    have := (List.getElem?_eq_some_iff.mp hget).1
    exact this
  refine ⟨hget, ?_, ?_, fun hpos => ?_⟩
  · rw [logSince_append _ _ evs h3]; exact h4
  · rw [logSince_append _ _ evs h3]
    unfold sendCount
    rw [List.countP_eq_zero]
    intro e he
    rcases h4 e he with ⟨c, rfl⟩ | ⟨c, m, rfl⟩ | ⟨c, rfl⟩ <;> simp
  · rw [Receive_at t h1 s.p.cmds.length hpos hlt]
    have : t.p.cmds.getD s.p.cmds.length default =
        ⟨commandName, args, Value.nil, none, 0, "", none⟩ := by
      rw [List.getD_eq_getElem?_getD, hget]; rfl
    rw [this]

/-- An instance of the send after flush: a third request queued after the flush of two,
then a second flush and two receives. -/
theorem send_after_flush_witness :
    Flushed demoEnv (Flush demoEnv twoGetsSession).1 ∧
    (Receive (receiveN 2 (Flush demoEnv
      (Send (Flush demoEnv twoGetsSession).1 "GET" [Value.str "b"]).1).1)).2 =
        (Value.nil, none) ∧
    logSince (Send (Flush demoEnv twoGetsSession).1 "GET" [Value.str "b"]).1
      (Flush demoEnv (Send (Flush demoEnv twoGetsSession).1 "GET" [Value.str "b"]).1).1 = [] ∧
    (Flush demoEnv (Send (Flush demoEnv twoGetsSession).1 "GET" [Value.str "b"]).1).1.p.cmds[
        (Flush demoEnv twoGetsSession).1.p.cmds.length]? =
      some ⟨"GET", [Value.str "b"], Value.nil, none, 0, "", none⟩ :=
  ⟨Flushed.flushOk _ rfl, rfl, rfl,
   (send_after_flush demoEnv (Flush demoEnv twoGetsSession).1 (Flushed.flushOk _ rfl)
      "GET" [Value.str "b"] _ (After.flush _ After.here)).1⟩

/-! ## Descriptors without an address -/

theorem Receive_unflushed {W : Type} (s : Sys W) (h : s.p.flushed = false) :
    (Receive s).1 = s := by
  simp [Receive, h]

theorem Do_recvPos {W : Type} (env : Env W) (s : Sys W) (n : String) (a : List Value) :
    (Do env s n a).1.p.recvPos = s.p.recvPos := by
  unfold Do
  cases h : s.p.connForDo with
  | none =>
    simp only
    split
    · rfl
    · split <;> rfl
  | some c => simp [h]

/-- Until a flush succeeds every descriptor is as `Send` created it and the cursor is at
its start. -/
theorem Unflushed_untouched {W : Type} {env : Env W} {s : Sys W} (h : Unflushed env s) :
    s.p.recvPos = -1 ∧ ∀ cm ∈ s.p.cmds, cm.reply = Value.nil ∧ cm.reply_err = none := by
  induction h with
  | fresh w => exact ⟨rfl, fun cm hcm => by simp [fresh, newPipeliner] at hcm⟩
  | send s n a _ ih =>
    refine ⟨ih.1, fun cm hcm => ?_⟩
    simp only [Send, List.mem_append, List.mem_singleton] at hcm
    rcases hcm with h1 | h1
    · exact ih.2 cm h1
    · rw [h1]; exact ⟨rfl, rfl⟩
  | flushFailed s hu hfail ih =>
    cases he : (buildBatches env s).2 with
    | some e =>
      rw [Flush_failed env s (Unflushed_not_flushed hu) e he]
      refine ⟨(buildBatches_frame env s).2.2.2.2.2.trans ih.1, fun cm hcm => ?_⟩
      have hmap := (buildBatches_log env s).2
      have h1 : (cm.reply, cm.reply_err, cm.re) ∈
          (buildBatches env s).1.p.cmds.map (fun cm => (cm.reply, cm.reply_err, cm.re)) :=
        List.mem_map.mpr ⟨cm, hcm, rfl⟩
      rw [hmap] at h1
      obtain ⟨cm0, h2, h3⟩ := List.mem_map.mp h1
      have h4 := ih.2 cm0 h2
      have h5 : cm0.reply = cm.reply := congrArg (fun t => t.1) h3
      have h6 : cm0.reply_err = cm.reply_err := congrArg (fun t => t.2.1) h3
      rw [← h5, ← h6]; exact h4
    | none =>
      rw [Flush_passes env s (Unflushed_not_flushed hu) he] at hfail
      simp at hfail
  | receive s hu ih => rw [Receive_unflushed s (Unflushed_not_flushed hu)]; exact ih
  | doCmd s n a _ ih => rw [Do_recvPos, Do_cmds]; exact ih
  | close s _ ih => rw [Close_p]; exact ih

theorem Ran_not_mem {W : Type} {env : Env W} {L : List Nat} {s s1 : Sys W}
    (h : Ran env L s s1) (i : Nat) (hni : i ∉ L) :
    sendCount i (logSince s s1) = 0 ∧ s1.p.cmds[i]? = s.p.cmds[i]? := by
  obtain ⟨evs, a1, a2, a3, a4, a5⟩ := h
  rw [logSince_append s s1 evs a1]
  have h0 : L.count i = 0 := List.count_eq_zero.mpr hni
  have hs := a3 i
  have hr : recvsOf i evs = [] := by
    have := a4 i
    rw [h0] at this
    exact List.length_eq_zero.mp (Nat.le_zero.mp this)
  refine ⟨by omega, ?_⟩
  rw [a2 i, hr]; simp

theorem doRedirect_members {W : Type} (env : Env W) (s : Sys W) (k : String) :
    members (doRedirect env s).p.batches k = members (buildRedirectBatches s.p).1.batches k := by
  unfold doRedirect
  simp only
  split
  · exact (runBatches_ran env { s with p := (buildRedirectBatches s.p).1 }).2.1 k
  · rfl

/-- C20. Descriptors resolved to an empty address are dropped: in the flush of a session
not yet flushed in which the resolver gives one address per descriptor and an empty one
for position `i`, `Flush` returns success, the descriptor is in no batch of either pass,
is sent on no connection, keeps a nil reply and a nil error, and the `Receive` that
reaches it returns a nil reply and a nil error. -/
theorem empty_address_dropped {W : Type} (env : Env W) (hfair : env.FairRange) (s : Sys W)
    (hu : Unflushed env s) (hb : (buildBatches env s).2 = none) (i : Nat) (a : String)
    (hia : (env.getAddrForSlots s.w ((setSlots env s.p.cmds).map (fun cm => cm.slot))
      s.p.readOnly).1.1[i]? = some a) (hempty : a.length = 0) :
    (Flush env s).2 = none ∧
    (∀ k, i ∉ members (buildBatches env s).1.p.batches k) ∧
    (∀ k, i ∉ members (Flush env s).1.p.batches k) ∧
    sendCount i (logSince s (Flush env s).1) = 0 ∧
    (∃ cm, (Flush env s).1.p.cmds[i]? = some cm ∧ cm.reply = Value.nil ∧
      cm.reply_err = none) ∧
    (Receive (receiveN i (Flush env s).1)).2 = (Value.nil, none) := by
  have hf := Unflushed_not_flushed hu
  obtain ⟨hm, hnd, hlen⟩ := buildBatches_members env s hb
  have hi : i < s.p.cmds.length := by
    rw [← hlen]; exact (List.getElem?_eq_some_iff.mp hia).1
  have hbl : (buildBatches env s).1.p.cmds.length = s.p.cmds.length :=
    Frame_length (buildBatches_frame env s)
  have hi2 : i < (buildBatches env s).1.p.cmds.length := by rw [hbl]; exact hi
  have hnot1 : ∀ k, i ∉ members (buildBatches env s).1.p.batches k := by
    intro k h
    rw [hm k] at h
    obtain ⟨-, -, b, hb1, hb2⟩ := mem_positions _ _ _ _ h
    simp only [Nat.sub_zero, Bool.and_eq_true, decide_eq_true_eq] at hb1 hb2
    rw [hia] at hb1
    rw [← Option.some.inj hb1] at hb2
    omega
  -- the descriptor before the passes
  have hcm0 : ((buildBatches env s).1.p.cmds[i]).reply = Value.nil ∧
      ((buildBatches env s).1.p.cmds[i]).reply_err = none ∧
      ((buildBatches env s).1.p.cmds[i]).re = none := by
    have hmap := (buildBatches_log env s).2
    have h1 : (((buildBatches env s).1.p.cmds[i]).reply,
        ((buildBatches env s).1.p.cmds[i]).reply_err, ((buildBatches env s).1.p.cmds[i]).re) ∈
        (buildBatches env s).1.p.cmds.map (fun cm => (cm.reply, cm.reply_err, cm.re)) :=
      List.mem_map.mpr ⟨_, List.getElem_mem hi2, rfl⟩
    rw [hmap] at h1
    obtain ⟨cm0, h2, h3⟩ := List.mem_map.mp h1
    have h4 := (Unflushed_untouched hu).2 cm0 h2
    have h5 := Unflushed_no_redirect hu cm0 h2
    have e1 : cm0.reply = ((buildBatches env s).1.p.cmds[i]).reply := congrArg (fun t => t.1) h3
    have e2 : cm0.reply_err = ((buildBatches env s).1.p.cmds[i]).reply_err :=
      congrArg (fun t => t.2.1) h3
    have e3 : cm0.re = ((buildBatches env s).1.p.cmds[i]).re := congrArg (fun t => t.2.2) h3
    rw [← e1, ← e2, ← e3]; exact ⟨h4.1, h4.2, h5⟩
  -- the initial pass
  obtain ⟨r1, -, -⟩ := runBatches_ran env (buildBatches env s).1
  have hnl1 : i ∉ (env.rangeBatches (buildBatches env s).1.w
      (mapKeys (buildBatches env s).1.p.batches)).flatMap
        (members (buildBatches env s).1.p.batches) := by
    intro h
    obtain ⟨k, -, hk⟩ := List.mem_flatMap.mp h
    exact hnot1 k hk
  obtain ⟨hs1, hc1⟩ := Ran_not_mem r1 i hnl1
  have hc1b : (initialPass env s).p.cmds[i]? = some ((buildBatches env s).1.p.cmds[i]) := by
    show (runBatches env (buildBatches env s).1).p.cmds[i]? = _
    rw [hc1, List.getElem?_eq_getElem hi2]
  -- the redirect pass
  obtain ⟨L1, -, -, hnd1, -⟩ := initialPass_ran env hfair s hb
  obtain ⟨L2, r2, -, m2⟩ := doRedirect_ran env hfair (initialPass env s) hnd1
  have hnl2 : i ∉ L2 := by
    intro h
    obtain ⟨cm, h1, h2⟩ := m2 i h
    rw [hc1b] at h1
    exact h2 (by rw [← Option.some.inj h1]; exact hcm0.2.2)
  obtain ⟨hs2, hc2⟩ := Ran_not_mem r2 i hnl2
  have hfin : (Flush env s).1.p.cmds[i]? = some ((buildBatches env s).1.p.cmds[i]) := by
    rw [Flush_passes env s hf hb]
    show (doRedirect env (initialPass env s)).p.cmds[i]? = _
    rw [hc2, hc1b]
  have hok : (Flush env s).2 = none := by rw [Flush_passes env s hf hb]
  obtain ⟨g1, g2, -⟩ := Flush_ok_frame env s hok
  refine ⟨hok, hnot1, fun k h => ?_, ?_, ⟨_, hfin, hcm0.1, hcm0.2.1⟩, ?_⟩
  · rw [Flush_passes env s hf hb] at h
    have h' : i ∈ members (doRedirect env (initialPass env s)).p.batches k := h
    rw [doRedirect_members] at h'
    obtain ⟨cm, rd, h1, h2, -⟩ := ((redirect_batches (initialPass env s).p).1 k i).mp h'
    rw [hc1b] at h1
    rw [← Option.some.inj h1, hcm0.2.2] at h2
    simp at h2
  · rw [Flush_log_split env hfair s hf hb, sendCount_append, sendCount_append]
    have h1 : sendCount i (logSince (buildBatches env s).1 (initialPass env s)) = 0 := hs1
    rw [h1, hs2]
    rfl
  · have hlen2 : (Flush env s).1.p.cmds.length = s.p.cmds.length := by
      have := (List.getElem?_eq_some_iff.mp hfin).1
      have h3 := (Flush_ok_frame env s hok).2.2
      have := congrArg List.length h3
      simpa using this
    obtain ⟨q1, q2, q3, -⟩ := receiveN_spec i (Flush env s).1 g1 (by omega)
    rw [Receive_at _ q3 i (by rw [q1, g2, (Unflushed_untouched hu).1]; omega)
      (by rw [q2, hlen2]; exact hi), q2]
    have : (Flush env s).1.p.cmds.getD i default = (buildBatches env s).1.p.cmds[i] := by
      rw [List.getD_eq_getElem?_getD, hfin]; rfl
    rw [this, hcm0.1, hcm0.2.1]

theorem gapEnv_fair : gapEnv.FairRange :=
  ⟨fun _ l => List.reverse_perm l, fun _ l => List.Perm.refl l⟩

/-- An instance of the dropped descriptor: the second request of `twoGetsSession` has no
address under `gapEnv`. -/
theorem empty_address_dropped_witness :
    gapEnv.FairRange ∧ Unflushed gapEnv twoGetsSession ∧
    (buildBatches gapEnv twoGetsSession).2 = none ∧
    (gapEnv.getAddrForSlots twoGetsSession.w
      ((setSlots gapEnv twoGetsSession.p.cmds).map (fun cm => cm.slot))
      twoGetsSession.p.readOnly).1.1[1]? = some "" ∧
    logSince twoGetsSession (Flush gapEnv twoGetsSession).1 =
      [Event.getAddrForSlots [1, 2] false,
       Event.getConnForAddr "n1" false false (some 1), Event.send 1 0, Event.flush 1,
       Event.receive 1 0 (Value.int 1) none] ∧
    (Flush gapEnv twoGetsSession).2 = none ∧
    (∀ k, 1 ∉ members (buildBatches gapEnv twoGetsSession).1.p.batches k) ∧
    (∀ k, 1 ∉ members (Flush gapEnv twoGetsSession).1.p.batches k) ∧
    sendCount 1 (logSince twoGetsSession (Flush gapEnv twoGetsSession).1) = 0 ∧
    (∃ cm, (Flush gapEnv twoGetsSession).1.p.cmds[1]? = some cm ∧ cm.reply = Value.nil ∧
      cm.reply_err = none) ∧
    (Receive (receiveN 1 (Flush gapEnv twoGetsSession).1)).2 = (Value.nil, none) :=
  ⟨gapEnv_fair, Unflushed.send _ _ _ (Unflushed.send _ _ _ (Unflushed.fresh _)), rfl, rfl, rfl,
   empty_address_dropped gapEnv gapEnv_fair twoGetsSession
     (Unflushed.send _ _ _ (Unflushed.send _ _ _ (Unflushed.fresh _))) rfl 1 "" rfl rfl⟩

/-! ## Connections held until `Close` -/

theorem acquired_append (l1 l2 : List Event) :
    acquired (l1 ++ l2) = acquired l1 ++ acquired l2 := by
  simp [acquired, List.filterMap_append]

theorem Kept_refl {W : Type} (s : Sys W) : Kept s s :=
  ⟨[], by simp, fun _ h => h, fun c hc => by simp [acquired] at hc⟩

theorem Kept_trans {W : Type} {s s1 s2 : Sys W} (h1 : Kept s s1) (h2 : Kept s1 s2) :
    Kept s s2 := by
  obtain ⟨e1, a1, a2, a3⟩ := h1
  obtain ⟨e2, b1, b2, b3⟩ := h2
  refine ⟨e1 ++ e2, by rw [b1, a1, List.append_assoc], fun c h => b2 c (a2 c h), fun c hc => ?_⟩
  rw [acquired_append] at hc
  rcases List.mem_append.mp hc with h | h
  · exact b2 c (a3 c h)
  · exact b3 c h

theorem Kept_of_same {W : Type} (s s1 : Sys W) (evs : List Event)
    (h1 : s1.p.connForDo = s.p.connForDo) (h2 : s1.p.batches = s.p.batches)
    (h3 : s1.log = s.log ++ evs) (h4 : acquired evs = []) : Kept s s1 := by
  refine ⟨evs, h3, fun c h => ?_, fun c hc => by rw [h4] at hc; simp at hc⟩
  unfold Holds at h ⊢
  rw [h1, h2]; exact h

theorem sendLoop_acquired {W : Type} (env : Env W) (c : Conn) (l : List Nat) :
    ∀ s : Sys W, ∃ evs, (sendLoop env c l s).1.log = s.log ++ evs ∧ acquired evs = [] := by
  induction l with
  | nil => intro s; exact ⟨[], by simp [sendLoop], rfl⟩
  | cons i rest ih =>
    intro s
    simp only [sendLoop]
    split
    · exact ⟨[Event.send c i], rfl, rfl⟩
    · obtain ⟨evs, h1, h2⟩ := ih
        { s with w := (env.connSend s.w c (s.p.cmds.getD i default).commandName
                        (s.p.cmds.getD i default).args).2,
                 log := s.log ++ [Event.send c i] }
      exact ⟨[Event.send c i] ++ evs, by rw [h1]; simp, by rw [acquired_append, h2]; rfl⟩

theorem recvOne_acquired {W : Type} (env : Env W) (c : Conn) (i : Nat) (s : Sys W) :
    ∃ evs, (recvOne env c i s).log = s.log ++ evs ∧ acquired evs = [] := by
  unfold recvOne
  simp only
  cases he : (env.connReceive s.w c).1.2 with
  | none => exact ⟨[_], rfl, rfl⟩
  | some e =>
    dsimp only
    cases hp : env.ParseRedir e with
    | none => exact ⟨[_], rfl, rfl⟩
    | some rd =>
      dsimp only
      by_cases hm : rd.Typ = "MOVED"
      · rw [if_pos hm]
        exact ⟨[Event.receive c i (env.connReceive s.w c).1.1 (some e), Event.needsRefresh rd],
          by simp, rfl⟩
      · rw [if_neg hm]
        exact ⟨[_], rfl, rfl⟩

theorem recvLoop_acquired {W : Type} (env : Env W) (c : Conn) (l : List Nat) :
    ∀ s : Sys W, ∃ evs, (recvLoop env c l s).log = s.log ++ evs ∧ acquired evs = [] := by
  induction l with
  | nil => intro s; exact ⟨[], by simp [recvLoop], rfl⟩
  | cons i rest ih =>
    intro s
    obtain ⟨e1, a1, a2⟩ := recvOne_acquired env c i s
    obtain ⟨e2, b1, b2⟩ := ih (recvOne env c i s)
    exact ⟨e1 ++ e2, by simp only [recvLoop]; rw [b1, a1, List.append_assoc],
      by rw [acquired_append, a2, b2]; rfl⟩

theorem run_body_acquired {W : Type} (env : Env W) (bt : batch) (s : Sys W) :
    ∃ evs, (match bt.conn with
        | none => (bt, s, some "GetConnForAddr failed")
        | some c =>
          match (sendLoop env c bt.cmds s).2 with
          | some e => (bt, (sendLoop env c bt.cmds s).1, some e)
          | none =>
            match (env.connFlush (sendLoop env c bt.cmds s).1.w c).1 with
            | some e =>
              (bt, { (sendLoop env c bt.cmds s).1 with
                      w := (env.connFlush (sendLoop env c bt.cmds s).1.w c).2,
                      log := (sendLoop env c bt.cmds s).1.log ++ [Event.flush c] }, some e)
            | none =>
              (bt, recvLoop env c bt.cmds
                { (sendLoop env c bt.cmds s).1 with
                    w := (env.connFlush (sendLoop env c bt.cmds s).1.w c).2,
                    log := (sendLoop env c bt.cmds s).1.log ++ [Event.flush c] },
                (none : Option String))).2.1.log = s.log ++ evs ∧ acquired evs = [] := by
  cases hc : bt.conn with
  | none => exact ⟨[], by simp, rfl⟩
  | some c =>
    dsimp only
    obtain ⟨e1, a1, a2⟩ := sendLoop_acquired env c bt.cmds s
    cases hs : (sendLoop env c bt.cmds s).2 with
    | some e => exact ⟨e1, a1, a2⟩
    | none =>
      dsimp only
      cases hfl : (env.connFlush (sendLoop env c bt.cmds s).1.w c).1 with
      | some e =>
        exact ⟨e1 ++ [Event.flush c], by simp [a1], by rw [acquired_append, a2]; rfl⟩
      | none =>
        dsimp only
        obtain ⟨e2, b1, b2⟩ := recvLoop_acquired env c bt.cmds
          { (sendLoop env c bt.cmds s).1 with
              w := (env.connFlush (sendLoop env c bt.cmds s).1.w c).2,
              log := (sendLoop env c bt.cmds s).1.log ++ [Event.flush c] }
        exact ⟨e1 ++ [Event.flush c] ++ e2, by rw [b1]; simp [a1],
          by rw [acquired_append, acquired_append, a2, b2]; rfl⟩

/-- What a run acquires is the connection of the batch afterwards, and a batch that had a
connection keeps it. -/
theorem run_acquired {W : Type} (env : Env W) (bt : batch) (s : Sys W) :
    ∃ evs, (batch.run env bt s).2.1.log = s.log ++ evs ∧
      (∀ c ∈ acquired evs, (batch.run env bt s).1.conn = some c) ∧
      (∀ c, bt.conn = some c → (batch.run env bt s).1.conn = some c) := by
  have hfst : (batch.run env bt s).1 =
      if bt.conn = none ∧ 0 < bt.addr.length then
        { bt with conn := (env.GetConnForAddr s.w bt.addr s.p.forceDial s.p.readOnly).1 }
      else bt := by
    unfold batch.run
    simp only
    split
    · split <;> rfl
    · split
      · split <;> rfl
      · split
        · split <;> rfl
        · split <;> rfl
  by_cases h : bt.conn = none ∧ 0 < bt.addr.length
  · rw [hfst, if_pos h]
    obtain ⟨evs, h1, h2⟩ := run_body_acquired env
      { bt with conn := (env.GetConnForAddr s.w bt.addr s.p.forceDial s.p.readOnly).1 }
      { s with w := (env.GetConnForAddr s.w bt.addr s.p.forceDial s.p.readOnly).2,
               log := s.log ++ [Event.getConnForAddr bt.addr s.p.forceDial s.p.readOnly
                 (env.GetConnForAddr s.w bt.addr s.p.forceDial s.p.readOnly).1] }
    refine ⟨[Event.getConnForAddr bt.addr s.p.forceDial s.p.readOnly
        (env.GetConnForAddr s.w bt.addr s.p.forceDial s.p.readOnly).1] ++ evs, ?_, ?_, ?_⟩
    · unfold batch.run
      simp only [h, and_self, if_true]
      rw [h1]; simp
    · intro c hc
      rw [acquired_append, h2, List.append_nil] at hc
      cases hg : (env.GetConnForAddr s.w bt.addr s.p.forceDial s.p.readOnly).1 with
      | none => rw [hg] at hc; simp [acquired] at hc
      | some c0 =>
        rw [hg] at hc
        simp only [acquired, List.filterMap_cons, List.filterMap_nil, List.mem_singleton] at hc
        rw [hc]
    · intro c hc
      rw [h.1] at hc
      simp at hc
  · rw [hfst, if_neg h]
    obtain ⟨evs, h1, h2⟩ := run_body_acquired env bt s
    refine ⟨evs, ?_, fun c hc => by rw [h2] at hc; simp at hc, fun c hc => hc⟩
    unfold batch.run
    simp only [h, if_false]
    exact h1

theorem Kept_step {W : Type} (s s1 : Sys W) (evs : List Event)
    (hb : s1.p.batches = s.p.batches)
    (hc : ∀ c, s.p.connForDo = some c → s1.p.connForDo = some c)
    (hl : s1.log = s.log ++ evs)
    (ha : ∀ c ∈ acquired evs, s1.p.connForDo = some c) : Kept s s1 := by
  refine ⟨evs, hl, fun c h => ?_, fun c h => Or.inl (ha c h)⟩
  rcases h with h | ⟨k, bt, hk, hcn⟩
  · exact Or.inl (hc c h)
  · exact Or.inr ⟨k, bt, by rw [hb]; exact hk, hcn⟩

theorem Kept_acquired {W : Type} {s s1 : Sys W} (h : Kept s s1)
    (hs : ∀ c ∈ acquired s.log, Holds s.p c) : ∀ c ∈ acquired s1.log, Holds s1.p c := by
  obtain ⟨evs, h1, h2, h3⟩ := h
  intro c hc
  rw [h1, acquired_append] at hc
  rcases List.mem_append.mp hc with g | g
  · exact h2 c (hs c g)
  · exact h3 c g

theorem runOne_kept {W : Type} (env : Env W) (s : Sys W) (k : String) :
    Kept s (runOne env s k) := by
  unfold runOne
  cases hg : mapGet s.p.batches k with
  | none => exact Kept_refl s
  | some bt =>
    dsimp only
    by_cases hl : 0 < bt.cmds.length
    · rw [if_pos hl]
      obtain ⟨evs, h1, h2, h3⟩ := run_acquired env bt s
      have hb := (run_ran env bt s).2
      have hfr := (run_frame env bt s).1
      refine ⟨evs, h1, ?_, ?_⟩
      · intro c hc
        rcases hc with hc | ⟨k2, b2, hk, hcn⟩
        · exact Or.inl (by show (batch.run env bt s).2.1.p.connForDo = some c; rw [hfr]; exact hc)
        · right
          by_cases hkk : k2 = k
          · subst hkk
            rw [hg] at hk
            cases hk
            exact ⟨k2, (batch.run env bt s).1, by
              show mapGet (mapSet _ k2 _) k2 = _
              rw [mapGet_mapSet, if_pos rfl], h3 c hcn⟩
          · exact ⟨k2, b2, by
              show mapGet (mapSet _ k _) k2 = _
              rw [mapGet_mapSet, if_neg hkk, hb]; exact hk, hcn⟩
      · intro c hc
        exact Or.inr ⟨k, (batch.run env bt s).1, by
          show mapGet (mapSet _ k _) k = _
          rw [mapGet_mapSet, if_pos rfl], h2 c hc⟩
    · rw [if_neg hl]; exact Kept_refl s

theorem foldl_runOne_kept {W : Type} (env : Env W) (ks : List String) (s : Sys W) :
    Kept s (ks.foldl (runOne env) s) := by
  induction ks generalizing s with
  | nil => exact Kept_refl s
  | cons k rest ih => exact Kept_trans (runOne_kept env s k) (ih _)

theorem runBatches_kept {W : Type} (env : Env W) (s : Sys W) : Kept s (runBatches env s) := by
  unfold runBatches
  split
  · exact Kept_refl s
  · exact foldl_runOne_kept env _ s

theorem buildRedirect_holds (p : pipeLiner) (c : Conn) (h : Holds p c) :
    Holds (buildRedirectBatches p).1 c := by
  rcases h with h | ⟨k, bt, hk, hc⟩
  · exact Or.inl h
  · have h1 := mapGet_clear p.batches k
    rw [hk] at h1
    obtain ⟨bt2, g1, g2, _⟩ := (redirLoop_keep p.cmds 0 _ 0).1 k _ h1
    exact Or.inr ⟨k, bt2, g1, by rw [g2]; exact hc⟩

theorem doRedirect_kept {W : Type} (env : Env W) (s : Sys W) : Kept s (doRedirect env s) := by
  have h0 : Kept s { s with p := (buildRedirectBatches s.p).1 } :=
    ⟨[], by simp, fun c h => buildRedirect_holds s.p c h, fun c hc => by simp [acquired] at hc⟩
  unfold doRedirect
  simp only
  split
  · exact Kept_trans h0 (runBatches_kept env _)
  · exact h0

theorem buildBatches_kept {W : Type} (env : Env W) (s : Sys W) (hb : s.p.batches = []) :
    Kept s (buildBatches env s).1 := by
  refine ⟨_, (buildBatches_log env s).1, fun c h => ?_, fun c hc => by simp [acquired] at hc⟩
  rcases h with h | ⟨k, bt, hk, _⟩
  · exact Or.inl (by rw [(buildBatches_frame env s).1]; exact h)
  · rw [hb] at hk
    simp [mapGet] at hk

theorem Flush_kept {W : Type} (env : Env W) (s : Sys W)
    (hb : s.p.flushed = false → s.p.batches = []) : Kept s (Flush env s).1 := by
  cases hf : s.p.flushed with
  | true => rw [Flush_flushed env s hf]; exact Kept_refl s
  | false =>
    cases he : (buildBatches env s).2 with
    | some e => rw [Flush_failed env s hf e he]; exact buildBatches_kept env s (hb hf)
    | none =>
      rw [Flush_passes env s hf he]
      refine Kept_trans (buildBatches_kept env s (hb hf))
        (Kept_trans (runBatches_kept env _) (Kept_trans (doRedirect_kept env _) ?_))
      exact Kept_step _ _ [] rfl (fun c h => h) (by simp) (fun c hc => by simp [acquired] at hc)

theorem Do_kept {W : Type} (env : Env W) (s : Sys W) (n : String) (a : List Value) :
    Kept s (Do env s n a).1 ∧ (Do env s n a).1.p.batches = s.p.batches := by
  unfold Do
  cases h : s.p.connForDo with
  | none =>
    dsimp only
    cases he : (env.RetryConn s.w).1.2 with
    | some e =>
      refine ⟨Kept_step _ _ [Event.retryConn (env.RetryConn s.w).1.1] rfl
        (fun c hc => by rw [h] at hc; cases hc) rfl ?_, rfl⟩
      intro c hc
      cases hr : (env.RetryConn s.w).1.1 with
      | none => rw [hr] at hc; simp [acquired] at hc
      | some c0 =>
        rw [hr] at hc
        simp only [acquired, List.filterMap_cons, List.filterMap_nil, List.mem_singleton] at hc
        show some c0 = some c
        rw [hc]
    | none =>
      dsimp only
      cases hr : (env.RetryConn s.w).1.1 with
      | none =>
        refine ⟨Kept_step _ _ [Event.retryConn none] rfl
          (fun c hc => by rw [h] at hc; cases hc) (by simp) ?_, rfl⟩
        intro c hc
        simp [acquired] at hc
      | some c0 =>
        refine ⟨Kept_step _ _ [Event.retryConn (some c0), Event.connDo c0 n] rfl
          (fun c hc => by rw [h] at hc; cases hc) (by simp) ?_, rfl⟩
        intro c hc
        simp only [acquired, List.filterMap_cons, List.filterMap_nil, List.mem_singleton] at hc
        show some c0 = some c
        rw [hc]
  | some c0 =>
    simp only [h]
    refine ⟨Kept_step _ _ [Event.connDo c0 n] rfl (fun c hc => hc) rfl ?_, trivial⟩
    intro c hc
    simp [acquired] at hc

theorem Close_kept {W : Type} (env : Env W) (s : Sys W) : Kept s (Close env s).1 := by
  obtain ⟨evs, h1, h2⟩ := Close_log env s
  refine Kept_step _ _ evs (by rw [Close_p]) (fun c hc => by rw [Close_p]; exact hc) h1 ?_
  intro c hc
  exfalso
  simp only [acquired, List.mem_filterMap] at hc
  obtain ⟨e, he, hm⟩ := hc
  obtain ⟨c1, rfl⟩ := h2 e he
  simp at hm

/-- In every state reached from a fresh session an unflushed session has no batch, and every
connection acquired so far is referenced by the session. -/
theorem After_holds {W : Type} (env : Env W) (w : W) (s : Sys W)
    (h : After env (fresh w) s) :
    (s.p.flushed = false → s.p.batches = []) ∧ ∀ c ∈ acquired s.log, Holds s.p c := by
  induction h with
  | here => exact ⟨fun _ => rfl, fun c hc => by simp [acquired, fresh] at hc⟩
  | send t n a _ ih =>
    refine ⟨fun hf => ih.1 hf, Kept_acquired ?_ ih.2⟩
    exact Kept_step _ _ [] rfl (fun c h => h) (by simp [Send]) (fun c hc => by simp [acquired] at hc)
  | flush t _ ih =>
    refine ⟨?_, Kept_acquired (Flush_kept env t ih.1) ih.2⟩
    intro hf
    cases hft : t.p.flushed with
    | true => rw [Flush_flushed env t hft] at hf ⊢; exact ih.1 hf
    | false =>
      cases he : (buildBatches env t).2 with
      | some e =>
        rw [Flush_failed env t hft e he]
        show (buildBatches env t).1.p.batches = []
        rw [(buildBatches_err_iff env t).2 (by rw [he]; simp)]
        exact ih.1 hft
      | none =>
        rw [Flush_passes env t hft he] at hf
        simp at hf
  | receive t _ ih =>
    have hl := Receive_log t
    refine ⟨fun hf => ?_, Kept_acquired ?_ ih.2⟩
    · rw [hl.2.2.1]; rw [Receive_flushed] at hf; exact ih.1 hf
    · exact Kept_step _ _ [] hl.2.2.1 (fun c h => by rw [hl.2.2.2]; exact h) (by simp [hl.1])
        (fun c hc => by simp [acquired] at hc)
  | doCmd t n a _ ih =>
    have hk := Do_kept env t n a
    refine ⟨fun hf => ?_, Kept_acquired hk.1 ih.2⟩
    rw [hk.2]; rw [Do_flushed] at hf; exact ih.1 hf
  | close t _ ih =>
    refine ⟨fun hf => ?_, Kept_acquired (Close_kept env t) ih.2⟩
    rw [Close_p] at hf ⊢; exact ih.1 hf

theorem closeLoop_closes {W : Type} (env : Env W) (ks : List String) :
    ∀ s : Sys W, ∃ evs, (ks.foldl (closeLoop env) s).log = s.log ++ evs ∧
      ∀ k ∈ ks, ∀ (bt : batch) (c : Conn), mapGet s.p.batches k = some bt → bt.conn = some c →
        Event.close c ∈ evs := by
  induction ks with
  | nil => intro s; exact ⟨[], by simp, by simp⟩
  | cons k0 rest ih =>
    intro s
    obtain ⟨evs, h1, h2⟩ := ih (closeLoop env s k0)
    have hp : (closeLoop env s k0).p = s.p := closeLoop_p env [k0] s
    have hstep : ∃ e1, (closeLoop env s k0).log = s.log ++ e1 ∧
        ∀ (bt : batch) (c : Conn), mapGet s.p.batches k0 = some bt → bt.conn = some c →
          Event.close c ∈ e1 := by
      unfold closeLoop
      cases hg : mapGet s.p.batches k0 with
      | none => exact ⟨[], by simp, fun bt c hb => by cases hb⟩
      | some b0 =>
        dsimp only
        cases hc0 : b0.conn with
        | none =>
          refine ⟨[], by simp, fun bt c hb hc => ?_⟩
          cases hb
          rw [hc0] at hc; cases hc
        | some c0 =>
          refine ⟨[Event.close c0], rfl, fun bt c hb hc => ?_⟩
          cases hb
          rw [hc0] at hc; cases hc
          simp
    obtain ⟨e1, g1, g2⟩ := hstep
    refine ⟨e1 ++ evs, by simp only [List.foldl_cons]; rw [h1, g1, List.append_assoc], ?_⟩
    intro k hk bt c hb hc
    rcases List.mem_cons.mp hk with rfl | hk
    · exact List.mem_append_left _ (g2 bt c hb hc)
    · exact List.mem_append_right _ (h2 k hk bt c (by rw [hp]; exact hb) hc)

/-- Under a fair `range`, `Close` calls `Close` on every connection that the session
references, and returns no error. -/
theorem Close_closes {W : Type} (env : Env W) (hfair : env.FairRange) (s : Sys W) :
    (Close env s).2 = none ∧
    ∀ c, Holds s.p c → Event.close c ∈ logSince s (Close env s).1 := by
  refine ⟨rfl, ?_⟩
  intro c hc
  unfold Close
  simp only
  cases hd : s.p.connForDo with
  | none =>
    dsimp only
    rcases hc with hc | ⟨k, bt, hk, hcn⟩
    · rw [hd] at hc; cases hc
    · obtain ⟨evs, h1, h2⟩ := closeLoop_closes env (env.rangeBatches s.w (mapKeys s.p.batches)) s
      rw [logSince_append s _ evs h1]
      refine h2 k ?_ bt c hk hcn
      refine (hfair.1 s.w _).mem_iff.mpr ?_
      by_contra hn
      rw [(mapGet_eq_none s.p.batches k).mpr hn] at hk
      cases hk
  | some c0 =>
    dsimp only
    obtain ⟨evs, h1, h2⟩ := closeLoop_closes env
      (env.rangeBatches (env.connClose s.w c0) (mapKeys s.p.batches))
      { s with w := env.connClose s.w c0, log := s.log ++ [Event.close c0] }
    have h1b : (List.foldl (closeLoop env)
        { s with w := env.connClose s.w c0, log := s.log ++ [Event.close c0] }
        (env.rangeBatches (env.connClose s.w c0) (mapKeys s.p.batches))).log =
        s.log ++ ([Event.close c0] ++ evs) := by rw [h1]; simp
    rw [logSince_append s _ _ h1b]
    rcases hc with hc | ⟨k, bt, hk, hcn⟩
    · rw [hd] at hc; cases hc; simp
    · refine List.mem_append_right _ (h2 k ?_ bt c hk hcn)
      refine (hfair.1 _ _).mem_iff.mpr ?_
      by_contra hn
      rw [(mapGet_eq_none s.p.batches k).mpr hn] at hk
      cases hk

/-- C13: in every state reached from a fresh session by calls of `Send`, `Flush`, `Receive`
and `Do` (calls of `Close` may be among them), every connection acquired so far, by
`GetConnForAddr` in a batch run of either pass or by `RetryConn` in `Do`, is referenced by
the batch map or by the `Do` slot. With a `range` that visits every key, `Close` calls
`Close` on each of them, returns no error and leaves the session as it was, so that a second
`Close` returns no error either and closes the same connections again. -/
theorem close_releases_everything {W : Type} (env : Env W) (hfair : env.FairRange) (w : W)
    (s : Sys W) (hr : After env (fresh w) s) :
    (∀ c ∈ acquired s.log, Holds s.p c) ∧
    (∀ c ∈ acquired s.log, Event.close c ∈ logSince s (Close env s).1) ∧
    (Close env s).2 = none ∧
    (Close env s).1.p = s.p ∧
    (Close env (Close env s).1).2 = none ∧
    (∀ c ∈ acquired s.log,
      Event.close c ∈ logSince (Close env s).1 (Close env (Close env s).1).1) := by
  have hinv := (After_holds env w s hr).2
  have hc1 := Close_closes env hfair s
  have hc2 := Close_closes env hfair (Close env s).1
  refine ⟨hinv, fun c hc => hc1.2 c (hinv c hc), hc1.1, Close_p env s, hc2.1, fun c hc => ?_⟩
  refine hc2.2 c ?_
  rw [Close_p]
  exact hinv c hc

/-- An instance: after the flush of `twoGetsSession` both node connections were acquired,
and `Close` closes both. -/
theorem close_releases_everything_witness :
    demoEnv.FairRange ∧
    After demoEnv (fresh twoNodeScript) (Flush demoEnv twoGetsSession).1 ∧
    acquired (Flush demoEnv twoGetsSession).1.log = [2, 1] ∧
    ((∀ c ∈ acquired (Flush demoEnv twoGetsSession).1.log,
        Holds (Flush demoEnv twoGetsSession).1.p c) ∧
     (∀ c ∈ acquired (Flush demoEnv twoGetsSession).1.log,
        Event.close c ∈ logSince (Flush demoEnv twoGetsSession).1
          (Close demoEnv (Flush demoEnv twoGetsSession).1).1) ∧
     (Close demoEnv (Flush demoEnv twoGetsSession).1).2 = none ∧
     (Close demoEnv (Flush demoEnv twoGetsSession).1).1.p = (Flush demoEnv twoGetsSession).1.p ∧
     (Close demoEnv (Close demoEnv (Flush demoEnv twoGetsSession).1).1).2 = none ∧
     (∀ c ∈ acquired (Flush demoEnv twoGetsSession).1.log,
        Event.close c ∈ logSince (Close demoEnv (Flush demoEnv twoGetsSession).1).1
          (Close demoEnv (Close demoEnv (Flush demoEnv twoGetsSession).1).1).1)) :=
  ⟨demoEnv_fair,
   After.flush _ (After.send _ _ _ (After.send _ _ _ After.here)),
   by decide,
   close_releases_everything demoEnv demoEnv_fair twoNodeScript (Flush demoEnv twoGetsSession).1
     (After.flush _ (After.send _ _ _ (After.send _ _ _ After.here)))⟩

/-! ## Which descriptors the redirect pass takes -/

theorem initialPass_re {W : Type} (env : Env W) (hfair : env.FairRange) (s : Sys W)
    (hs : Unflushed env s) (hb : (buildBatches env s).2 = none) (i : Nat) (cm : cmd)
    (hi : (initialPass env s).p.cmds[i]? = some cm) :
    cm.re = cm.reply_err.bind env.ParseRedir := by
  obtain ⟨L, hran, hL, -, -⟩ := initialPass_ran env hfair s hb
  obtain ⟨evs, -, h2, -, h4, -⟩ := hran
  have hcm := h2 i
  rw [hi] at hcm
  have hmap := (buildBatches_log env s).2
  cases h0 : (buildBatches env s).1.p.cmds[i]? with
  | none => rw [h0] at hcm; simp at hcm
  | some cm0 =>
    rw [h0] at hcm
    simp only [Option.map_some'] at hcm
    have hcm2 : cm = (recvsOf i evs).foldl (applyRecv env) cm0 := Option.some.inj hcm
    have h6 := congrArg (fun l => l[i]?) hmap
    simp only [List.getElem?_map, h0, Option.map_some'] at h6
    cases hs0 : s.p.cmds[i]? with
    | none => rw [hs0] at h6; simp at h6
    | some a =>
      rw [hs0] at h6
      simp only [Option.map_some', Option.some.injEq, Prod.mk.injEq] at h6
      have hmem : a ∈ s.p.cmds := by
        obtain ⟨hlt, hget⟩ := List.getElem?_eq_some_iff.mp hs0
        rw [← hget]; exact List.getElem_mem _
      have herr0 : cm0.reply_err = none := by
        rw [h6.2.1]; exact ((Unflushed_untouched hs).2 a hmem).2
      have hre0 : cm0.re = none := by
        rw [h6.2.2]; exact Unflushed_no_redirect hs a hmem
      have hlen : (recvsOf i evs).length ≤ 1 := le_trans (h4 i) (hL i)
      cases hr : recvsOf i evs with
      | nil =>
        rw [hr] at hcm2
        simp only [List.foldl_nil] at hcm2
        rw [hcm2, herr0, hre0]; rfl
      | cons r rest =>
        cases rest with
        | nil =>
          rw [hr] at hcm2
          simp only [List.foldl_cons, List.foldl_nil] at hcm2
          rw [hcm2]
          simp only [applyRecv, hre0]
          cases hr2 : r.2 with
          | none => rfl
          | some e =>
            dsimp only [Option.bind]
            cases hp : env.ParseRedir e <;> rfl
        | cons r2 rest2 =>
          rw [hr] at hlen
          simp at hlen

/-- C14, amended. Every decoded redirect is retried, whatever its kind: when a not yet
flushed session is flushed and the routing succeeds, the descriptor at position `i` is a
member of the redirect-pass batch of address `k` exactly when the error it received in the
initial pass decodes (`ParseRedir`) as a redirect to `k`; the kind of the redirect,
ownership moved or ask elsewhere, plays no part. -/
theorem redirect_retried_whatever_kind {W : Type} (env : Env W) (hfair : env.FairRange)
    (s : Sys W) (hs : Unflushed env s) (hb : (buildBatches env s).2 = none)
    (i : Nat) (k : String) :
    i ∈ members (Flush env s).1.p.batches k ↔
      ∃ (cm : cmd) (e : String) (rd : RedirError),
        (initialPass env s).p.cmds[i]? = some cm ∧ cm.reply_err = some e ∧
        env.ParseRedir e = some rd ∧ rd.Addr = k := by
  have hf : s.p.flushed = false := Unflushed_not_flushed hs
  have hbat : (Flush env s).1.p.batches = (doRedirect env (initialPass env s)).p.batches := by
    rw [Flush_passes env s hf hb]; rfl
  rw [hbat, doRedirect_members, (buildRedirect_members (initialPass env s).p).1 k]
  constructor
  · intro hm
    obtain ⟨-, -, cm, hc1, hc2⟩ := mem_positions _ _ _ _ hm
    rw [Nat.sub_zero] at hc1
    have hre := initialPass_re env hfair s hs hb i cm hc1
    simp only [decide_eq_true_eq] at hc2
    cases h1 : cm.re with
    | none => rw [h1] at hc2; simp at hc2
    | some rd =>
      rw [h1] at hc2 hre
      simp only [Option.map_some', Option.some.injEq] at hc2
      cases h2 : cm.reply_err with
      | none => rw [h2] at hre; simp at hre
      | some e =>
        rw [h2] at hre
        exact ⟨cm, e, rd, hc1, h2, hre.symm, hc2⟩
  · rintro ⟨cm, e, rd, hc1, hc2, hc3, hc4⟩
    have hre := initialPass_re env hfair s hs hb i cm hc1
    rw [hc2] at hre
    simp only [Option.bind] at hre
    rw [hc3] at hre
    refine positions_mem_of _ _ 0 i cm (Nat.zero_le _) (by rw [Nat.sub_zero]; exact hc1) ?_
    simp [hre, hc4]

/-- An instance: in `askSession` the one request receives an ask-elsewhere redirect to `n2`
and is a member of the redirect-pass batch of `n2`. -/
theorem redirect_retried_whatever_kind_witness :
    demoEnv.FairRange ∧ Unflushed demoEnv askSession ∧
    (buildBatches demoEnv askSession).2 = none ∧
    (initialPass demoEnv askSession).p.cmds.map (fun cm => cm.reply_err) =
      [some "ASK 1 n2"] ∧
    demoEnv.ParseRedir "ASK 1 n2" = some ⟨"ASK", 1, "n2"⟩ ∧
    members (Flush demoEnv askSession).1.p.batches "n2" = [0] ∧
    (0 ∈ members (Flush demoEnv askSession).1.p.batches "n2" ↔
      ∃ (cm : cmd) (e : String) (rd : RedirError),
        (initialPass demoEnv askSession).p.cmds[0]? = some cm ∧ cm.reply_err = some e ∧
        demoEnv.ParseRedir e = some rd ∧ rd.Addr = "n2") :=
  ⟨demoEnv_fair, Unflushed.send _ _ _ (Unflushed.fresh _), rfl, rfl, rfl, rfl,
   redirect_retried_whatever_kind demoEnv demoEnv_fair askSession
     (Unflushed.send _ _ _ (Unflushed.fresh _)) rfl 0 "n2"⟩

end Redisc
